import Mathlib

/-!
Verification of the symbol-indexing and query engine of the `hsl-vscode`
extension.

The repository contains several copies of the indexing logic; following the
specification's own note (§9), definitions here embed the most complete
variant (the extension module that wires in the language server, i.e. the
third document of `src/unnamed/part_002`).  Helper routines that are
byte-identical across the copies (`splitTopLevel`,
`getPossiblyQualifiedToken`) are shared.  JavaScript strings are embedded as
`List Char`, JS `Map`s as association lists, and JS objects as structures.
-/

namespace HslVscode

/-- JavaScript strings, embedded as lists of characters. -/
abbrev Str := List Char

/-- Whitespace as matched by the JavaScript `\s` class and by
`String.prototype.trim` (restricted to the ASCII range, which is all the
source files contain). -/
def jsIsSpace (c : Char) : Bool :=
  c = ' ' || c = '\t' || c = '\n' || c = '\x0d' || c = '\x0b' || c = '\x0c'

/-- Drop trailing characters satisfying `p`. -/
def dropRightWhile (p : Char → Bool) (s : Str) : Str :=
  (s.reverse.dropWhile p).reverse

/-- `String.prototype.trim`. -/
def jsTrim (s : Str) : Str :=
  dropRightWhile jsIsSpace (s.dropWhile jsIsSpace)

/-- The JS regex class `[A-Za-z_]` (start of an identifier). -/
def isIdentStart (c : Char) : Bool :=
  ('A' ≤ c && c ≤ 'Z') || ('a' ≤ c && c ≤ 'z') || c = '_'

/-- The JS regex class `[A-Za-z0-9_]` (continuation of an identifier). -/
def isIdentCont (c : Char) : Bool :=
  isIdentStart c || ('0' ≤ c && c ≤ '9')

/-- `lines.join('\n')`. -/
def joinNL (ls : List Str) : Str :=
  match ls with
  | [] => []
  | [l] => l
  | l :: rest => l ++ '\n' :: joinNL rest

/-- Split a buffer on `/\r?\n/` as the extension does before scanning. -/
def splitLines (s : Str) : List Str :=
  match s with
  | [] => [[]]
  | '\x0d' :: '\n' :: rest => [] :: splitLines rest
  | '\n' :: rest => [] :: splitLines rest
  | c :: rest =>
    match splitLines rest with
    | [] => [[c]]
    | l :: ls => (c :: l) :: ls

/-- First index at which `needle` occurs in `hay` (`String.prototype.indexOf`),
`-1` when absent. -/
def jsIndexOf (hay needle : Str) : Int :=
  match hay with
  | [] => if needle.isEmpty then 0 else -1
  | _ :: rest =>
    if needle.isPrefixOf hay then 0
    else
      let r := jsIndexOf rest needle
      if r < 0 then -1 else r + 1

/-- First index of a character (`indexOf` with a one-character needle). -/
def jsIndexOfChar (hay : Str) (c : Char) : Int :=
  jsIndexOf hay [c]

/-- Last index of a character (`String.prototype.lastIndexOf`). -/
def jsLastIndexOfChar (hay : Str) (c : Char) : Int :=
  let r := jsIndexOfChar hay.reverse c
  if r < 0 then -1 else (hay.length : Int) - 1 - r

/-- Substring occurrence test, used to state "the signature contains …". -/
def containsSub (hay needle : Str) : Bool :=
  decide (0 ≤ jsIndexOf hay needle)

/-- Count occurrences of a character on a line:
`(line.match(/\(/g) || []).length` and friends. -/
def countCh (c : Char) (s : Str) : Nat :=
  (s.filter (· = c)).length

/-! ### Association-list model of JavaScript `Map` / plain-object indexes

`mset` replaces the value of an existing key in place (as `Map.prototype.set`
does) and appends new keys; `mdel` removes a key; `mfind` looks a key up. -/

abbrev SMap (α : Type) : Type := List (Str × α)

def mfind {α} (m : SMap α) (k : Str) : Option α :=
  match m with
  | [] => none
  | (k', v) :: rest => if k' = k then some v else mfind rest k

def mhas {α} (m : SMap α) (k : Str) : Bool :=
  (mfind m k).isSome

def mset {α} (m : SMap α) (k : Str) (v : α) : SMap α :=
  match m with
  | [] => [(k, v)]
  | (k', v') :: rest => if k' = k then (k, v) :: rest else (k', v') :: mset rest k v

def mdel {α} (m : SMap α) (k : Str) : SMap α :=
  match m with
  | [] => []
  | (k', v') :: rest => if k' = k then mdel rest k else (k', v') :: mdel rest k

theorem mfind_mset_self {α} (m : SMap α) (k : Str) (v : α) :
    mfind (mset m k v) k = some v := by
  induction m with
  | nil => simp [mset, mfind]
  | cons hd tl ih =>
    obtain ⟨k', v'⟩ := hd
    by_cases h : k' = k <;> simp [mset, mfind, h, ih]

theorem mfind_mset_ne {α} (m : SMap α) (k k' : Str) (v : α) (h : k ≠ k') :
    mfind (mset m k v) k' = mfind m k' := by
  induction m with
  | nil => simp [mset, mfind, h]
  | cons hd tl ih =>
    obtain ⟨k₀, v₀⟩ := hd
    by_cases h₀ : k₀ = k
    · subst h₀; simp [mset, mfind, h]
    · simp [mset, mfind, h₀, ih]

theorem mfind_mdel_self {α} (m : SMap α) (k : Str) :
    mfind (mdel m k) k = none := by
  induction m with
  | nil => simp [mdel, mfind]
  | cons hd tl ih =>
    obtain ⟨k₀, v₀⟩ := hd
    by_cases h₀ : k₀ = k <;> simp [mdel, mfind, h₀, ih]

theorem mfind_mdel_ne {α} (m : SMap α) (k k' : Str) (h : k ≠ k') :
    mfind (mdel m k) k' = mfind m k' := by
  induction m with
  | nil => simp [mdel, mfind]
  | cons hd tl ih =>
    obtain ⟨k₀, v₀⟩ := hd
    by_cases h₀ : k₀ = k
    · subst h₀
      simp [mdel, mfind, ih, h]
    · simp [mdel, mfind, h₀, ih]

/-! ### `splitTopLevel`

Split by a delimiter char while ignoring delimiters nested in `()`/`<>` and
inside single- or double-quoted strings (a quote preceded by a backslash does
not close the string).  Faithful to `splitTopLevel` in the extension module
(the function is byte-identical in every copy). -/

/-- One step of the `splitTopLevel` scanner outside of a string literal.
State: current segment, paren depth, angle depth. -/
def splitTopLevelAux (delim : Char) :
    Str → Str → Nat → Nat → Option Char → Option Char → List Str
  | [], cur, _, _, _, _ => if cur.isEmpty then [] else [cur]
  | ch :: rest, cur, dp, da, sc, prev =>
    match sc with
    | some q =>
      if ch = q ∧ prev ≠ some '\\' then
        splitTopLevelAux delim rest (cur ++ [ch]) dp da none (some ch)
      else
        splitTopLevelAux delim rest (cur ++ [ch]) dp da (some q) (some ch)
    | none =>
      if ch = '"' ∨ ch = '\'' then
        splitTopLevelAux delim rest (cur ++ [ch]) dp da (some ch) (some ch)
      else if ch = '(' then
        splitTopLevelAux delim rest (cur ++ [ch]) (dp + 1) da none (some ch)
      else if ch = ')' then
        splitTopLevelAux delim rest (cur ++ [ch]) (dp - 1) da none (some ch)
      else if ch = '<' then
        splitTopLevelAux delim rest (cur ++ [ch]) dp (da + 1) none (some ch)
      else if ch = '>' then
        splitTopLevelAux delim rest (cur ++ [ch]) dp (da - 1) none (some ch)
      else if ch = delim ∧ dp = 0 ∧ da = 0 then
        cur :: splitTopLevelAux delim rest [] dp da none (some ch)
      else
        splitTopLevelAux delim rest (cur ++ [ch]) dp da none (some ch)

def splitTopLevel (input : Str) (delim : Char) : List Str :=
  splitTopLevelAux delim input [] 0 0 none none

/-- Join segments back with the delimiter (`Array.prototype.join` with a
one-character separator), used to state the split/join round trip. -/
def joinSep (c : Char) : List Str → Str
  | [] => []
  | [x] => x
  | x :: y :: t => x ++ c :: joinSep c (y :: t)

/-- The quoting/depth state transition of the `splitTopLevel` scanner:
paren depth, angle depth, and the currently open quote character. -/
def stepST (ch : Char) (prev : Option Char) :
    Nat × Nat × Option Char → Nat × Nat × Option Char
  | (dp, da, sc) =>
    match sc with
    | some q => if ch = q ∧ prev ≠ some '\\' then (dp, da, none) else (dp, da, some q)
    | none =>
      if ch = '"' ∨ ch = '\'' then (dp, da, some ch)
      else if ch = '(' then (dp + 1, da, none)
      else if ch = ')' then (dp - 1, da, none)
      else if ch = '<' then (dp, da + 1, none)
      else if ch = '>' then (dp, da - 1, none)
      else (dp, da, none)

/-- Run the scanner state over a prefix of the input. -/
def runST : Str → Option Char → Nat × Nat × Option Char → Nat × Nat × Option Char
  | [], _, st => st
  | ch :: rest, prev, st => runST rest (some ch) (stepST ch prev st)

/-- The exact condition under which the scanner emits a segment boundary at a
character. -/
def isSplitCh (delim ch : Char) : Nat × Nat × Option Char → Prop
  | (dp, da, sc) =>
    sc = none ∧ ¬(ch = '"' ∨ ch = '\'') ∧ ch ≠ '(' ∧ ch ≠ ')' ∧ ch ≠ '<' ∧
      ch ≠ '>' ∧ ch = delim ∧ dp = 0 ∧ da = 0

/-- The input's final character is a segment boundary for the scanner started
in the given state. -/
def endsSplit (delim : Char) : Str → Nat × Nat × Option Char → Option Char → Prop
  | [], _, _ => False
  | ch :: rest, st, prev =>
    if rest.isEmpty then isSplitCh delim ch st
    else endsSplit delim rest (stepST ch prev st) (some ch)

theorem splitTopLevelAux_ne_nil_of_cur (delim : Char) (input : Str) :
    ∀ cur dp da sc prev, cur ≠ [] →
      splitTopLevelAux delim input cur dp da sc prev ≠ [] := by
  induction input with
  | nil =>
    intro cur dp da sc prev h
    simp [splitTopLevelAux, h]
  | cons ch rest ih =>
    intro cur dp da sc prev h
    match sc with
    | some q =>
      simp only [splitTopLevelAux]
      split_ifs <;> exact ih _ _ _ _ _ (by simp)
    | none =>
      simp only [splitTopLevelAux]
      split_ifs <;>
        first
          | exact ih _ _ _ _ _ (by simp)
          | simp

theorem splitTopLevelAux_ne_nil (delim : Char) (ch : Char) (rest : Str) :
    ∀ cur dp da sc prev,
      splitTopLevelAux delim (ch :: rest) cur dp da sc prev ≠ [] := by
  intro cur dp da sc prev
  match sc with
  | some q =>
    simp only [splitTopLevelAux]
    split_ifs <;> exact splitTopLevelAux_ne_nil_of_cur delim rest _ _ _ _ _ (by simp)
  | none =>
    simp only [splitTopLevelAux]
    split_ifs <;>
      first
        | exact splitTopLevelAux_ne_nil_of_cur delim rest _ _ _ _ _ (by simp)
        | simp

theorem joinSep_cons_of_ne_nil (c : Char) (x : Str) {L : List Str} (h : L ≠ []) :
    joinSep c (x :: L) = x ++ c :: joinSep c L := by
  match L with
  | [] => exact absurd rfl h
  | y :: t => rfl

theorem splitTopLevelAux_join (delim : Char) (input : Str) :
    ∀ cur dp da sc prev, ¬ endsSplit delim input (dp, da, sc) prev →
      joinSep delim (splitTopLevelAux delim input cur dp da sc prev) =
        cur ++ input := by
  induction input with
  | nil =>
    intro cur dp da sc prev _
    by_cases h : cur = []
    · simp [splitTopLevelAux, h, joinSep]
    · simp [splitTopLevelAux, List.isEmpty_iff, h, joinSep]
  | cons ch rest ih =>
    intro cur dp da sc prev hend
    have hstep : ¬ endsSplit delim rest (stepST ch prev (dp, da, sc)) (some ch) := by
      intro hc
      apply hend
      have hne : rest ≠ [] := by
        intro h; subst h; simp [endsSplit] at hc
      simp [endsSplit, List.isEmpty_iff, hne]
      exact hc
    match sc with
    | some q =>
      simp only [splitTopLevelAux]
      split_ifs with hq
      · rw [ih _ _ _ _ _ (by simpa [stepST, hq] using hstep)]; simp
      · rw [ih _ _ _ _ _ (by simpa [stepST, hq] using hstep)]; simp
    | none =>
      simp only [splitTopLevelAux]
      split_ifs with h1 h2 h3 h4 h5 h6
      · rw [ih _ _ _ _ _ (by simpa [stepST, h1] using hstep)]; simp
      · rw [ih _ _ _ _ _ (by simpa [stepST, h1, h2] using hstep)]; simp
      · rw [ih _ _ _ _ _ (by simpa [stepST, h1, h2, h3] using hstep)]; simp
      · rw [ih _ _ _ _ _ (by simpa [stepST, h1, h2, h3, h4] using hstep)]; simp
      · rw [ih _ _ _ _ _ (by simpa [stepST, h1, h2, h3, h4, h5] using hstep)]; simp
      · -- segment boundary: the rest cannot be empty, or the input ends in a
        -- top-level delimiter
        have hrest : rest ≠ [] := by
          intro h; subst h
          apply hend
          have : isSplitCh delim ch (dp, da, none) :=
            ⟨rfl, h1, h2, h3, h4, h5, h6.1, h6.2.1, h6.2.2⟩
          simpa [endsSplit] using this
        obtain ⟨ch₁, rest₂, hrest₂⟩ := List.exists_cons_of_ne_nil hrest
        rw [joinSep_cons_of_ne_nil delim cur
          (by rw [hrest₂]; exact splitTopLevelAux_ne_nil delim _ _ _ _ _ _ _)]
        rw [ih _ _ _ _ _ (by simpa [stepST, h1, h2, h3, h4, h5] using hstep)]
        simp [h6.1]
      · rw [ih _ _ _ _ _ (by simpa [stepST, h1, h2, h3, h4, h5] using hstep)]; simp

theorem endsSplit_decomp (delim : Char) (input : Str) :
    ∀ st prev, endsSplit delim input st prev →
      ∃ pre last, input = pre ++ [last] ∧ isSplitCh delim last (runST pre prev st) := by
  induction input with
  | nil => intro st prev h; simp [endsSplit] at h
  | cons ch rest ih =>
    intro st prev h
    by_cases hr : rest = []
    · subst hr
      refine ⟨[], ch, rfl, ?_⟩
      simpa [endsSplit, runST] using h
    · have h' : endsSplit delim rest (stepST ch prev st) (some ch) := by
        simpa [endsSplit, List.isEmpty_iff, hr] using h
      obtain ⟨pre, last, hpre, hsp⟩ := ih _ _ h'
      exact ⟨ch :: pre, last, by simp [hpre], by simpa [runST] using hsp⟩

/-- C8: `splitTopLevel` applied to `a: Map<string, int>, b: string = "a,b"`
with delimiter `,` yields exactly two segments (the parameter tokens for `a`
and for `b`), not four: commas nested inside `<>` angle brackets and commas
inside double-quoted string literals are not treated as top-level
delimiters. -/
theorem c8_splitTopLevel_two_segments :
    splitTopLevel ("a: Map<string, int>, b: string = \"a,b\"".data) ',' =
        ["a: Map<string, int>".data, " b: string = \"a,b\"".data] ∧
      (splitTopLevel ("a: Map<string, int>, b: string = \"a,b\"".data) ',').length
        = 2 := by
  exact ⟨by decide, by decide⟩

/-- C10: joining the segments returned by `splitTopLevel s c` with `c`
re-yields `s` exactly, provided `s` does not end with a top-level delimiter
(one at parenthesis depth 0, angle-bracket depth 0 and outside any quoted
string). -/
theorem c10_splitTopLevel_join_roundtrip (s : Str) (c : Char)
    (h : ∀ pre last, s = pre ++ [last] →
      ¬(last = c ∧ runST pre none (0, 0, none) = (0, 0, none))) :
    joinSep c (splitTopLevel s c) = s := by
  have hend : ¬ endsSplit c s (0, 0, none) none := by
    intro hc
    obtain ⟨pre, last, hpre, hsp⟩ := endsSplit_decomp c s _ _ hc
    rcases hr : runST pre none (0, 0, none) with ⟨dp, da, sc⟩
    rw [hr] at hsp
    obtain ⟨hsc, -, -, -, -, -, hdelim, hdp, hda⟩ := hsp
    subst hsc hdp hda
    exact h pre last hpre ⟨hdelim, hr⟩
  simpa using splitTopLevelAux_join c s [] 0 0 none none hend

/-- Witness for C10: concrete round trip on `"a,b"` with delimiter `,`. -/
theorem c10_witness :
    joinSep ',' (splitTopLevel ("a,b".data) ',') = "a,b".data := by
  apply c10_splitTopLevel_join_roundtrip
  intro pre last hdec hcon
  have hl : ("a,b".data).getLast? = some last := by
    rw [hdec]; simp
  have hlast : last = 'b' := by
    have : some 'b' = some last := by exact (by decide : ("a,b".data).getLast? = some 'b') ▸ hl
    exact (Option.some_inj.mp this).symm
  rw [hlast] at hcon
  exact absurd hcon.1 (by decide)

/-! ### `parseHslFile`

Parses a std definition file (actions.hsl / conditions.hsl) into a map
`name -> {doc, signature, params, line, character}`.  Embeds the
language-server variant of `parseHslFile` (which also collects `@`
annotation lines above a declaration). -/

/-- One parameter of a callable: `name: type (= default)?`. -/
structure Param where
  name : Str
  type : Str
  defaultValue : Option Str
  deriving DecidableEq, Repr

/-- An entry of the actions/conditions index. -/
structure HslEntry where
  doc : Str
  signature : Str
  params : List Param
  line : Nat
  character : Int
  deriving DecidableEq, Repr

/-- `(line.match(/\(/g) || []).length - (line.match(/\)/g) || []).length`. -/
def parenDelta (l : Str) : Int :=
  (countCh '(' l : Int) - (countCh ')' l : Int)

/-- The running `parenCount` after accumulating a prefix of the follow-on
lines. -/
def runCount (pc : Int) (ls : List Str) : Int :=
  pc + (ls.map parenDelta).sum

/-- The `while (k < lines.length && parenCount > 0) { if blank break; push }`
loop of `parseHslFile`: keep appending lines while the running paren count
stays positive, stopping (without including it) at a blank line. -/
def accumRest : List Str → Int → List Str
  | [], _ => []
  | l :: rest, pc =>
    if 0 < pc then
      if (jsTrim l).isEmpty then []
      else l :: accumRest rest (pc + parenDelta l)
    else []

/-- Multi-line signature accumulation starting at the declaration line. -/
def accumSig (line : Str) (rest : List Str) : List Str :=
  line :: accumRest rest (parenDelta line)

/-- First match of `/([A-Za-z_][A-Za-z0-9_]*)/`: the maximal identifier run
at the first identifier-start character. -/
def firstIdent : Str → Option Str
  | [] => none
  | c :: rest =>
    if isIdentStart c then some ((c :: rest).takeWhile isIdentCont)
    else firstIdent rest

/-- `/^([A-Za-z_][A-Za-z0-9_]*)\s*:\s*([^=]+?)(?:\s*=\s*(.+))?\s*$/` applied
to an already-trimmed parameter token.  The lazy `[^=]+?` makes the type end
at the first `=`; both captures are afterwards `trim()`ed by the caller,
which is folded in here. -/
def parseParam (p : Str) : Option Param :=
  match p with
  | [] => none
  | c :: _ =>
    if isIdentStart c then
      let nm := p.takeWhile isIdentCont
      let rest1 := (p.drop nm.length).dropWhile jsIsSpace
      match rest1 with
      | ':' :: rest2 =>
        let rest3 := rest2.dropWhile jsIsSpace
        match rest3.findIdx? (fun ch => ch = '=') with
        | none =>
          let ty := dropRightWhile jsIsSpace rest3
          if ty.isEmpty then none else some ⟨nm, jsTrim ty, none⟩
        | some j =>
          let ty := dropRightWhile jsIsSpace (rest3.take j)
          if ty.isEmpty then none
          else
            let dflt := (rest3.drop (j + 1)).dropWhile jsIsSpace
            if dflt.isEmpty then none
            else some ⟨nm, jsTrim ty, some (jsTrim dflt)⟩
      | _ => none
    else none

/-- The parameter list between the first `(` and the last `)` of a signature,
split on top-level commas; tokens that do not match the parameter pattern are
skipped silently. -/
def parseParams (signature : Str) : List Param :=
  let openIdx := jsIndexOfChar signature '('
  let closeIdx := jsLastIndexOfChar signature ')'
  if 0 ≤ openIdx ∧ 0 ≤ closeIdx ∧ openIdx < closeIdx then
    let paramStr := (signature.take closeIdx.toNat).drop (openIdx.toNat + 1)
    (splitTopLevel paramStr ',').filterMap fun raw =>
      let q := jsTrim raw
      if q.isEmpty then none else parseParam q
  else []

/-- `t.replace(/^\/\/\s?/, '')` for a line known to start with `//`. -/
def stripSlashes (t : Str) : Str :=
  match t.drop 2 with
  | [] => []
  | c :: rest => if jsIsSpace c then rest else c :: rest

/-- Upward scan for the documentation block and annotation lines above line
`j` (the argument is `j + 1` so that `0` means the scan ran off the top).
Comment lines contribute (stripped) doc lines, `@` lines contribute
annotation lines, blank lines contribute blank doc lines, anything else
stops the scan.  Both result lists are in top-down source order (the code
collects bottom-up and reverses). -/
def docScanHsl (lines : List Str) : Nat → List Str × List Str
  | 0 => ([], [])
  | j + 1 =>
    let t := jsTrim (lines.getD j [])
    if ("//".data).isPrefixOf t then
      let (d, a) := docScanHsl lines j
      (d ++ [stripSlashes t], a)
    else if t.head? = some '@' then
      let (d, a) := docScanHsl lines j
      (d, a ++ [t])
    else if t.isEmpty then
      let (d, a) := docScanHsl lines j
      (d ++ [[]], a)
    else ([], [])

/-- `parseHslFile`, on the line list of the file's content: scan for lines
whose trimmed text starts with `fn `, extract the name, the multi-line
signature (annotations prepended), the parameters and the doc block. -/
def parseHslFile (lines : List Str) : SMap HslEntry :=
  (List.range lines.length).foldl
    (fun idx i =>
      let line := lines.getD i []
      let trimmed := jsTrim line
      if ("fn ".data).isPrefixOf trimmed then
        match firstIdent (trimmed.drop 3) with
        | none => idx
        | some nm =>
          let signature := joinNL (accumSig line (lines.drop (i + 1)))
          let params := parseParams signature
          let (docLines, annots) := docScanHsl lines i
          let doc := jsTrim (joinNL docLines)
          let fullSignature :=
            if annots.isEmpty then signature else joinNL annots ++ '\n' :: signature
          mset idx nm
            ⟨doc, fullSignature, params, i, max 0 (jsIndexOf line nm)⟩
      else idx)
    []

/-- C7 counterexample: in `parseHslFile`, signature accumulation for
`fn f(` followed by a blank line and then `)` stops at the blank line even
though the running paren count is still `1` there: the recorded signature is
just `fn f(` and the balancing `)` line is never appended — contradicting
the claim that accumulation only stops at a blank line when no parentheses
remain open. -/
theorem c7_counterexample :
    parenDelta ("fn f(".data) = 1 ∧
      accumSig ("fn f(".data) [[], ")".data] = ["fn f(".data] ∧
      (mfind (parseHslFile ["fn f(".data, [], ")".data]) ("f".data)).map
          HslEntry.signature
        = some ("fn f(".data) := by
  exact ⟨by decide, by decide, by decide⟩

theorem accumRest_stops_at_blank (bl : Str) (post : List Str) :
    ∀ (pre : List Str) (pc : Int),
      (∀ l ∈ pre, (jsTrim l).isEmpty = false) →
      (jsTrim bl).isEmpty = true →
      (∀ k ≤ pre.length, 0 < runCount pc (pre.take k)) →
      accumRest (pre ++ bl :: post) pc = pre := by
  intro pre
  induction pre with
  | nil =>
    intro pc _ hbl hopen
    have hpc : 0 < pc := by simpa [runCount] using hopen 0 (Nat.le_refl 0)
    simp [accumRest, hpc, hbl]
  | cons l pre' ih =>
    intro pc hpre hbl hopen
    have hpc : 0 < pc := by simpa [runCount] using hopen 0 (Nat.zero_le _)
    have hl : (jsTrim l).isEmpty = false := hpre l (List.mem_cons_self l pre')
    have hopen' : ∀ k ≤ pre'.length, 0 < runCount (pc + parenDelta l) (pre'.take k) := by
      intro k hk
      have := hopen (k + 1) (by simpa using Nat.succ_le_succ hk)
      simp only [List.take_succ_cons, runCount, List.map_cons, List.sum_cons] at this ⊢
      omega
    simp only [List.cons_append, accumRest, hpc, if_pos, hl]
    simp only [Bool.false_eq_true, if_false]
    exact congrArg (List.cons l)
      (ih (pc + parenDelta l) (fun x hx => hpre x (List.mem_cons_of_mem l hx)) hbl hopen')

/-- C7 amended: signature accumulation in `parseHslFile` appends follow-up
lines only while the running count of `(` minus `)` stays positive, and it
stops (without including it) at the first blank line reached — even when
parentheses are still open there.  Here `pre` are the non-blank lines before
the first blank `bl`, and the paren count is positive on entry to every one
of them and at the blank. -/
theorem c7_amended_blank_stops (line₀ bl : Str) (pre post : List Str)
    (hpre : ∀ l ∈ pre, (jsTrim l).isEmpty = false)
    (hbl : (jsTrim bl).isEmpty = true)
    (hopen : ∀ k ≤ pre.length, 0 < runCount (parenDelta line₀) (pre.take k)) :
    accumSig line₀ (pre ++ bl :: post) = line₀ :: pre := by
  unfold accumSig
  rw [accumRest_stops_at_blank bl post pre (parenDelta line₀) hpre hbl hopen]

/-- Witness for the amended C7 at a concrete declaration with one follow-up
parameter line, a blank line and a closing line. -/
theorem c7_amended_witness :
    accumSig ("fn f(".data) ([" a: int,".data] ++ [] :: [")".data])
      = ["fn f(".data, " a: int,".data] :=
  c7_amended_blank_stops ("fn f(".data) [] [" a: int,".data] [")".data]
    (by decide) (by decide) (by decide)

/-! ### Declaration recognizers of the workspace indexer

`/^const\s+I\b/`, `/^fn\s+I\s*\(/`, `/^macro\s+I\s*\(/` and
`/^stat\s+(player|team|global)\s+I\b/` on the trimmed line, where `I` is
`[A-Za-z_][A-Za-z0-9_]*`; the trailing `\b` is automatic because the
identifier capture is maximal. -/

/-- Keyword, one-or-more whitespace, then an identifier. -/
def matchKwIdent (kw : Str) (t : Str) : Option Str :=
  if kw.isPrefixOf t then
    match t.drop kw.length with
    | [] => none
    | c :: rest =>
      if jsIsSpace c then
        match (c :: rest).dropWhile jsIsSpace with
        | [] => none
        | c2 :: rest2 =>
          if isIdentStart c2 then some ((c2 :: rest2).takeWhile isIdentCont)
          else none
      else none
  else none

def matchConstDecl (t : Str) : Option Str :=
  matchKwIdent ("const".data) t

/-- Keyword, whitespace, identifier, optional whitespace, `(`. -/
def matchKwIdentParen (kw : Str) (t : Str) : Option Str :=
  match matchKwIdent kw t with
  | none => none
  | some nm =>
    let afterKw := (t.drop kw.length).dropWhile jsIsSpace
    let rest := (afterKw.drop nm.length).dropWhile jsIsSpace
    if rest.head? = some '(' then some nm else none

def matchFnDecl (t : Str) : Option Str :=
  matchKwIdentParen ("fn".data) t

def matchMacroDecl (t : Str) : Option Str :=
  matchKwIdentParen ("macro".data) t

/-- `stat` then one of the namespaces `player`/`team`/`global` then an
identifier; returns `(namespace, name)`. -/
def matchStatDecl (t : Str) : Option (Str × Str) :=
  if ("stat".data).isPrefixOf t then
    match t.drop 4 with
    | [] => none
    | c :: rest =>
      if jsIsSpace c then
        let r2 := (c :: rest).dropWhile jsIsSpace
        let tryNs : Str → Option (Str × Str) := fun ns =>
          if ns.isPrefixOf r2 then
            match r2.drop ns.length with
            | [] => none
            | c2 :: rest2 =>
              if jsIsSpace c2 then
                match (c2 :: rest2).dropWhile jsIsSpace with
                | [] => none
                | c3 :: rest3 =>
                  if isIdentStart c3 then
                    some (ns, (c3 :: rest3).takeWhile isIdentCont)
                  else none
              else none
          else none
        match tryNs ("player".data) with
        | some r => some r
        | none =>
          match tryNs ("team".data) with
          | some r => some r
          | none => tryNs ("global".data)
      else none
  else none

/-! ### Enclosing-block computation and scope keys -/

/-- A function or macro block: header line, body start (line of the opening
`{`) and body end (line where the braces balance). -/
structure Block where
  kind : Str
  name : Str
  headerStart : Nat
  bodyStart : Nat
  bodyEnd : Nat
  deriving DecidableEq, Repr

def braceDelta (l : Str) : Int :=
  (countCh '{' l : Int) - (countCh '}' l : Int)

/-- First line index `≥ start` whose text contains a `{`. -/
def findBraceLine (lines : List Str) (start : Nat) : Option Nat :=
  ((lines.drop start).findIdx? (fun l => decide (0 ≤ jsIndexOfChar l '{'))).map
    (· + start)

/-- Brace matching from `start`: the first line at which the running brace
count returns to zero. -/
def findBodyEnd (lines : List Str) (start : Nat) : Option Nat :=
  let rec go : List Str → Int → Nat → Option Nat
    | [], _, _ => none
    | l :: rest, acc, k =>
      let acc' := acc + braceDelta l
      if acc' = 0 then some k else go rest acc' (k + 1)
  go (lines.drop start) 0 start

/-- One iteration of `computeEnclosingBlocks`' per-line loop. -/
def blockStep (lines : List Str) (acc : List Block) (i : Nat) : List Block :=
  let t := jsTrim (lines.getD i [])
  let hdr : Option (Str × Str) :=
    match matchFnDecl t with
    | some nm => some ("fn".data, nm)
    | none =>
      match matchMacroDecl t with
      | some nm => some ("macro".data, nm)
      | none => none
  match hdr with
  | none => acc
  | some (kind, nm) =>
    match findBraceLine lines i with
    | none => acc
    | some bs =>
      match findBodyEnd lines bs with
      | none => acc
      | some be => acc ++ [⟨kind, nm, i, bs, be⟩]

/-- `computeEnclosingBlocks`: every `fn`/`macro` header with a brace-balanced
body range. -/
def computeEnclosingBlocks (lines : List Str) : List Block :=
  (List.range lines.length).foldl (blockStep lines) []

/-- The scope key `${kind}:${name}:${bodyStart}-${bodyEnd}`. -/
def containerKey (b : Block) : Str :=
  b.kind ++ ':' :: b.name ++ ':' ::
    (toString b.bodyStart).data ++ '-' :: (toString b.bodyEnd).data

/-- First block whose body range contains the line (`findContainerForLine`). -/
def findContainer (blocks : List Block) (i : Nat) : Option Block :=
  blocks.find? (fun b => decide (b.bodyStart ≤ i) && decide (i ≤ b.bodyEnd))

/-! ### Workspace symbol index state -/

/-- A workspace constant entry. -/
structure ConstEntry where
  uri : Str
  line : Nat
  character : Int
  signature : Str
  doc : Str
  deriving DecidableEq, Repr

/-- A workspace function or macro entry. -/
structure FnEntry where
  uri : Str
  line : Nat
  character : Int
  signature : Str
  doc : Str
  params : List Param
  deriving DecidableEq, Repr

/-- One scoped-variable (stat) declaration in the multi-valued stats map. -/
structure StatEntry where
  uri : Str
  line : Nat
  character : Int
  nspace : Str
  signature : Str
  doc : Str
  container : Str
  deriving DecidableEq, Repr

/-- One element of a file's recorded stat contributions. -/
structure StatRec where
  nspace : Str
  name : Str
  line : Nat
  uri : Str
  deriving DecidableEq, Repr

/-- A file's recorded symbol contributions (`wsFileToSymbols` value). -/
structure FileSyms where
  constants : List Str
  functions : List Str
  macros : List Str
  stats : List StatRec
  deriving DecidableEq, Repr

/-- The global workspace index plus the reverse map from file path to its
recorded symbol set. -/
structure WsState where
  constants : SMap ConstEntry
  functions : SMap FnEntry
  macros : SMap FnEntry
  stats : SMap (List StatEntry)
  fileSyms : SMap FileSyms
  deriving DecidableEq, Repr

def emptyWs : WsState := ⟨[], [], [], [], []⟩

/-- JS `Set.prototype.add`: keep insertion order, ignore duplicates. -/
def saddUnique (l : List Str) (x : Str) : List Str :=
  if x ∈ l then l else l ++ [x]

/-- Retraction of one file's recorded stat declarations from the multi-valued
stats map: for each recorded declaration, drop entries matching its file and
line, and delete the key when its list becomes empty. -/
def statRetractStep (p : Str) (m : SMap (List StatEntry)) (s : StatRec) :
    SMap (List StatEntry) :=
  match mfind m s.name with
  | none => m
  | some arr =>
    let arr' := arr.filter (fun x => !(decide (x.uri = p) && decide (x.line = s.line)))
    let m' := mset m s.name arr'
    if arr'.isEmpty then mdel m' s.name else m'

def retractStats (m : SMap (List StatEntry)) (p : Str) (recs : List StatRec) :
    SMap (List StatEntry) :=
  recs.foldl (statRetractStep p) m

/-- Remove one file's recorded symbols from the four global maps. -/
def retractFile (st : WsState) (p : Str) (prev : FileSyms) : WsState :=
  { st with
    constants := prev.constants.foldl mdel st.constants
    functions := prev.functions.foldl mdel st.functions
    macros := prev.macros.foldl mdel st.macros
    stats := retractStats st.stats p prev.stats }

/-- `removeDocumentUri`: retract all entries contributed by the path; no-op
if the path was never indexed. -/
def removeDocumentUri (st : WsState) (p : Str) : WsState :=
  match mfind st.fileSyms p with
  | none => st
  | some prev =>
    { retractFile st p prev with fileSyms := mdel st.fileSyms p }

/-- The signature accumulation of `indexTextDocument`'s `fn`/`macro`
branches: keep appending lines while the running paren count stays positive
(no blank-line stop here, unlike `parseHslFile`). -/
def accumRestNB : List Str → Int → List Str
  | [], _ => []
  | l :: rest, pc =>
    if 0 < pc then l :: accumRestNB rest (pc + parenDelta l) else []

def accumSigNB (line : Str) (rest : List Str) : List Str :=
  line :: accumRestNB rest (parenDelta line)

/-- One iteration of `indexTextDocument`'s per-line loop, threading the
global maps and the file's accumulated symbol record. -/
def indexStep (lines : List Str) (blocks : List Block) (p : Str)
    (acc : WsState × FileSyms) (pr : Nat × Str) : WsState × FileSyms :=
  let (st, fs) := acc
  let i := pr.1
  let raw := pr.2
  let t := jsTrim raw
  match matchConstDecl t with
  | some nm =>
    let da := docScanHsl lines i
    let doc := jsTrim (joinNL da.1)
    let fullSignature :=
      jsTrim (if da.2.isEmpty then raw else joinNL da.2 ++ '\n' :: raw)
    ({ st with
        constants := mset st.constants nm ⟨p, i, jsIndexOf raw nm, fullSignature, doc⟩ },
     { fs with constants := saddUnique fs.constants nm })
  | none =>
  match matchFnDecl t with
  | some nm =>
    let da := docScanHsl lines i
    let doc := jsTrim (joinNL da.1)
    let signature := joinNL (accumSigNB raw (lines.drop (i + 1)))
    let fullSignature :=
      jsTrim (if da.2.isEmpty then signature else joinNL da.2 ++ '\n' :: signature)
    let params := parseParams signature
    ({ st with
        functions := mset st.functions nm ⟨p, i, jsIndexOf raw nm, fullSignature, doc, params⟩ },
     { fs with functions := saddUnique fs.functions nm })
  | none =>
  match matchMacroDecl t with
  | some nm =>
    let da := docScanHsl lines i
    let doc := jsTrim (joinNL da.1)
    let signature := joinNL (accumSigNB raw (lines.drop (i + 1)))
    let fullSignature :=
      jsTrim (if da.2.isEmpty then signature else joinNL da.2 ++ '\n' :: signature)
    let params := parseParams signature
    ({ st with
        macros := mset st.macros nm ⟨p, i, jsIndexOf raw nm, fullSignature, doc, params⟩ },
     { fs with macros := saddUnique fs.macros nm })
  | none =>
  match matchStatDecl t with
  | some nsnm =>
    let ns := nsnm.1
    let nm := nsnm.2
    let da := docScanHsl lines i
    let doc := jsTrim (joinNL da.1)
    let fullSignature :=
      jsTrim (if da.2.isEmpty then raw else joinNL da.2 ++ '\n' :: raw)
    let container :=
      match findContainer blocks i with
      | some b => containerKey b
      | none => []
    let existing := (mfind st.stats nm).getD []
    ({ st with
        stats := mset st.stats nm
          (existing ++ [⟨p, i, jsIndexOf raw nm, ns, fullSignature, doc, container⟩]) },
     { fs with stats := fs.stats ++ [⟨ns, nm, i, p⟩] })
  | none => (st, fs)

/-- `indexTextDocument` on `(path, text)`: retract the path's previously
recorded symbols, then scan every line for constant / function / macro /
stat declarations, inserting them into the global maps, and finally record
the new file symbol set.  (The editor-host guards — language id and the
`hsl-std` path exclusion — sit outside this `indexFile(path, text)`
operation.) -/
def indexTextDocument (st : WsState) (p : Str) (text : Str) : WsState :=
  let lines := splitLines text
  let st1 :=
    match mfind st.fileSyms p with
    | none => st
    | some prev => retractFile st p prev
  let blocks := computeEnclosingBlocks lines
  let res := lines.enum.foldl (indexStep lines blocks p)
    (st1, ⟨[], [], [], []⟩)
  { res.1 with fileSyms := mset res.1.fileSyms p res.2 }

/-! ### Per-kind declaration name lists of a text, and the recorded symbol
set an indexing pass produces -/

/-- Names declared by `const` lines of a text. -/
def constNames (text : Str) : List Str :=
  (splitLines text).enum.filterMap (fun pr => matchConstDecl (jsTrim pr.2))

/-- Names declared by `fn` lines of a text. -/
def fnNames (text : Str) : List Str :=
  (splitLines text).enum.filterMap (fun pr => matchFnDecl (jsTrim pr.2))

/-- Names declared by `macro` lines of a text. -/
def macroNames (text : Str) : List Str :=
  (splitLines text).enum.filterMap (fun pr => matchMacroDecl (jsTrim pr.2))

/-- Names declared by `stat` lines of a text. -/
def statNames (text : Str) : List Str :=
  (splitLines text).enum.filterMap
    (fun pr => (matchStatDecl (jsTrim pr.2)).map (·.2))

/-- The stat declarations of a text as the indexer records them for a path:
namespace, name, line, uri. -/
def statRecsOf (p : Str) (text : Str) : List StatRec :=
  (splitLines text).enum.filterMap
    (fun pr => (matchStatDecl (jsTrim pr.2)).map (fun r => ⟨r.1, r.2, pr.1, p⟩))

/-- The file-symbol-set component of one loop iteration (the second
projection of `indexStep`). -/
def fsStep (p : Str) (fs : FileSyms) (pr : Nat × Str) : FileSyms :=
  let t := jsTrim pr.2
  match matchConstDecl t with
  | some nm => { fs with constants := saddUnique fs.constants nm }
  | none =>
  match matchFnDecl t with
  | some nm => { fs with functions := saddUnique fs.functions nm }
  | none =>
  match matchMacroDecl t with
  | some nm => { fs with macros := saddUnique fs.macros nm }
  | none =>
  match matchStatDecl t with
  | some nsnm => { fs with stats := fs.stats ++ [⟨nsnm.1, nsnm.2, pr.1, p⟩] }
  | none => fs

/-- The file symbol set recorded after indexing `(p, text)`. -/
def fsymsOf (p : Str) (text : Str) : FileSyms :=
  (splitLines text).enum.foldl (fsStep p) ⟨[], [], [], []⟩

theorem indexStep_snd (lines : List Str) (blocks : List Block) (p : Str)
    (acc : WsState × FileSyms) (pr : Nat × Str) :
    (indexStep lines blocks p acc pr).2 = fsStep p acc.2 pr := by
  obtain ⟨st, fs⟩ := acc
  simp only [indexStep, fsStep]
  cases matchConstDecl (jsTrim pr.2) with
  | some nm => rfl
  | none =>
    cases matchFnDecl (jsTrim pr.2) with
    | some nm => rfl
    | none =>
      cases matchMacroDecl (jsTrim pr.2) with
      | some nm => rfl
      | none =>
        cases matchStatDecl (jsTrim pr.2) with
        | some nsnm => rfl
        | none => rfl

theorem foldl_indexStep_snd (lines : List Str) (blocks : List Block) (p : Str) :
    ∀ (prs : List (Nat × Str)) (st : WsState) (fs : FileSyms),
      (prs.foldl (indexStep lines blocks p) (st, fs)).2 = prs.foldl (fsStep p) fs := by
  intro prs
  induction prs with
  | nil => intro st fs; rfl
  | cons pr rest ih =>
    intro st fs
    rw [List.foldl_cons, List.foldl_cons]
    have h2 := indexStep_snd lines blocks p (st, fs) pr
    have h3 := ih (indexStep lines blocks p (st, fs) pr).1
      (indexStep lines blocks p (st, fs) pr).2
    rw [Prod.mk.eta] at h3
    rw [h3, h2]

/-- After `indexTextDocument`, the reverse map records exactly the symbol
set computed from the text. -/
theorem indexTextDocument_fileSyms_self (st : WsState) (p : Str) (text : Str) :
    mfind (indexTextDocument st p text).fileSyms p = some (fsymsOf p text) := by
  unfold indexTextDocument
  rw [mfind_mset_self]
  rw [foldl_indexStep_snd]
  rfl

theorem mem_fsFold_constants_mono (p : Str) (n : Str) :
    ∀ (prs : List (Nat × Str)) (fs : FileSyms), n ∈ fs.constants →
      n ∈ (prs.foldl (fsStep p) fs).constants := by
  intro prs
  induction prs with
  | nil => intro fs h; exact h
  | cons pr rest ih =>
    intro fs h
    rw [List.foldl_cons]
    apply ih
    simp only [fsStep]
    cases matchConstDecl (jsTrim pr.2) with
    | some nm =>
      simp only [saddUnique]
      by_cases hm : nm ∈ fs.constants
      · simpa [hm] using h
      · simp [hm, List.mem_append]
        exact Or.inl h
    | none =>
      cases matchFnDecl (jsTrim pr.2) with
      | some nm => exact h
      | none =>
        cases matchMacroDecl (jsTrim pr.2) with
        | some nm => exact h
        | none =>
          cases matchStatDecl (jsTrim pr.2) with
          | some nsnm => exact h
          | none => exact h

theorem mem_fsFold_constants_of (p : Str) (n : Str) :
    ∀ (prs : List (Nat × Str)) (fs : FileSyms),
      (∃ pr ∈ prs, matchConstDecl (jsTrim pr.2) = some n) →
      n ∈ (prs.foldl (fsStep p) fs).constants := by
  intro prs
  induction prs with
  | nil => intro fs h; simp at h
  | cons pr rest ih =>
    intro fs h
    rw [List.foldl_cons]
    rcases h with ⟨pr', hmem, hmatch⟩
    rcases List.mem_cons.mp hmem with heq | htl
    · subst heq
      apply mem_fsFold_constants_mono
      simp only [fsStep, hmatch]
      simp [saddUnique]
      by_cases hm : n ∈ fs.constants <;> simp [hm]
    · exact ih _ ⟨pr', htl, hmatch⟩

theorem mem_fsFold_functions_mono (p : Str) (n : Str) :
    ∀ (prs : List (Nat × Str)) (fs : FileSyms), n ∈ fs.functions →
      n ∈ (prs.foldl (fsStep p) fs).functions := by
  intro prs
  induction prs with
  | nil => intro fs h; exact h
  | cons pr rest ih =>
    intro fs h
    rw [List.foldl_cons]
    apply ih
    simp only [fsStep]
    cases matchConstDecl (jsTrim pr.2) with
    | some nm => exact h
    | none =>
      cases matchFnDecl (jsTrim pr.2) with
      | some nm =>
        simp only [saddUnique]
        by_cases hm : nm ∈ fs.functions
        · simpa [hm] using h
        · simp [hm, List.mem_append]
          exact Or.inl h
      | none =>
        cases matchMacroDecl (jsTrim pr.2) with
        | some nm => exact h
        | none =>
          cases matchStatDecl (jsTrim pr.2) with
          | some nsnm => exact h
          | none => exact h

theorem mem_fsFold_functions_of (p : Str) (n : Str) :
    ∀ (prs : List (Nat × Str)) (fs : FileSyms),
      (∃ pr ∈ prs, matchFnDecl (jsTrim pr.2) = some n ∧
        matchConstDecl (jsTrim pr.2) = none) →
      n ∈ (prs.foldl (fsStep p) fs).functions := by
  intro prs
  induction prs with
  | nil => intro fs h; simp at h
  | cons pr rest ih =>
    intro fs h
    rw [List.foldl_cons]
    rcases h with ⟨pr', hmem, hmatch, hnc⟩
    rcases List.mem_cons.mp hmem with heq | htl
    · subst heq
      apply mem_fsFold_functions_mono
      simp only [fsStep, hmatch, hnc]
      simp [saddUnique]
      by_cases hm : n ∈ fs.functions <;> simp [hm]
    · exact ih _ ⟨pr', htl, hmatch, hnc⟩

theorem mem_fsFold_macros_mono (p : Str) (n : Str) :
    ∀ (prs : List (Nat × Str)) (fs : FileSyms), n ∈ fs.macros →
      n ∈ (prs.foldl (fsStep p) fs).macros := by
  intro prs
  induction prs with
  | nil => intro fs h; exact h
  | cons pr rest ih =>
    intro fs h
    rw [List.foldl_cons]
    apply ih
    simp only [fsStep]
    cases matchConstDecl (jsTrim pr.2) with
    | some nm => exact h
    | none =>
      cases matchFnDecl (jsTrim pr.2) with
      | some nm => exact h
      | none =>
        cases matchMacroDecl (jsTrim pr.2) with
        | some nm =>
          simp only [saddUnique]
          by_cases hm : nm ∈ fs.macros
          · simpa [hm] using h
          · simp [hm, List.mem_append]
            exact Or.inl h
        | none =>
          cases matchStatDecl (jsTrim pr.2) with
          | some nsnm => exact h
          | none => exact h

theorem mem_fsFold_macros_of (p : Str) (n : Str) :
    ∀ (prs : List (Nat × Str)) (fs : FileSyms),
      (∃ pr ∈ prs, matchMacroDecl (jsTrim pr.2) = some n ∧
        matchConstDecl (jsTrim pr.2) = none ∧ matchFnDecl (jsTrim pr.2) = none) →
      n ∈ (prs.foldl (fsStep p) fs).macros := by
  intro prs
  induction prs with
  | nil => intro fs h; simp at h
  | cons pr rest ih =>
    intro fs h
    rw [List.foldl_cons]
    rcases h with ⟨pr', hmem, hmatch, hnc, hnf⟩
    rcases List.mem_cons.mp hmem with heq | htl
    · subst heq
      apply mem_fsFold_macros_mono
      simp only [fsStep, hmatch, hnc, hnf]
      simp [saddUnique]
      by_cases hm : n ∈ fs.macros <;> simp [hm]
    · exact ih _ ⟨pr', htl, hmatch, hnc, hnf⟩

theorem mem_fsFold_stats_mono (p : Str) (r : StatRec) :
    ∀ (prs : List (Nat × Str)) (fs : FileSyms), r ∈ fs.stats →
      r ∈ (prs.foldl (fsStep p) fs).stats := by
  intro prs
  induction prs with
  | nil => intro fs h; exact h
  | cons pr rest ih =>
    intro fs h
    rw [List.foldl_cons]
    apply ih
    simp only [fsStep]
    cases matchConstDecl (jsTrim pr.2) with
    | some nm => exact h
    | none =>
      cases matchFnDecl (jsTrim pr.2) with
      | some nm => exact h
      | none =>
        cases matchMacroDecl (jsTrim pr.2) with
        | some nm => exact h
        | none =>
          cases matchStatDecl (jsTrim pr.2) with
          | some nsnm => simp [List.mem_append]; exact Or.inl h
          | none => exact h

theorem mem_fsFold_stats_of (p : Str) (i : Nat) (ns nm : Str) :
    ∀ (prs : List (Nat × Str)) (fs : FileSyms),
      (∃ raw, (i, raw) ∈ prs ∧ matchStatDecl (jsTrim raw) = some (ns, nm) ∧
        matchConstDecl (jsTrim raw) = none ∧ matchFnDecl (jsTrim raw) = none ∧
        matchMacroDecl (jsTrim raw) = none) →
      (⟨ns, nm, i, p⟩ : StatRec) ∈ (prs.foldl (fsStep p) fs).stats := by
  intro prs
  induction prs with
  | nil => intro fs h; simp at h
  | cons pr rest ih =>
    intro fs h
    rw [List.foldl_cons]
    rcases h with ⟨raw, hmem, hmatch, hnc, hnf, hnm⟩
    rcases List.mem_cons.mp hmem with heq | htl
    · apply mem_fsFold_stats_mono
      rw [← heq]
      simp only [fsStep, hmatch, hnc, hnf, hnm]
      simp
    · exact ih _ ⟨raw, htl, hmatch, hnc, hnf, hnm⟩

/-! ### Preservation: the insert loop never touches a key it does not
declare -/

theorem foldl_indexStep_constants_preserve (lines : List Str) (blocks : List Block)
    (p : Str) (n : Str) :
    ∀ (prs : List (Nat × Str)) (st : WsState) (fs : FileSyms),
      (∀ pr ∈ prs, ∀ nm, matchConstDecl (jsTrim pr.2) = some nm → nm ≠ n) →
      mfind (prs.foldl (indexStep lines blocks p) (st, fs)).1.constants n =
        mfind st.constants n := by
  intro prs
  induction prs with
  | nil => intro st fs _; rfl
  | cons pr rest ih =>
    intro st fs h
    rw [List.foldl_cons]
    have hh : ∀ pr' ∈ rest, ∀ nm, matchConstDecl (jsTrim pr'.2) = some nm → nm ≠ n :=
      fun pr' h' => h pr' (List.mem_cons_of_mem pr h')
    have hstep :
        (indexStep lines blocks p (st, fs) pr).1.constants = st.constants ∨
        ∃ nm v, matchConstDecl (jsTrim pr.2) = some nm ∧
          (indexStep lines blocks p (st, fs) pr).1.constants = mset st.constants nm v := by
      simp only [indexStep]
      cases hc : matchConstDecl (jsTrim pr.2) with
      | some nm => exact Or.inr ⟨nm, _, rfl, rfl⟩
      | none =>
        left
        cases matchFnDecl (jsTrim pr.2) with
        | some nm => rfl
        | none =>
          cases matchMacroDecl (jsTrim pr.2) with
          | some nm => rfl
          | none =>
            cases matchStatDecl (jsTrim pr.2) with
            | some nsnm => rfl
            | none => rfl
    have := ih (indexStep lines blocks p (st, fs) pr).1
      (indexStep lines blocks p (st, fs) pr).2 hh
    rw [Prod.mk.eta] at this
    rw [this]
    rcases hstep with heq | ⟨nm, v, hc, heq⟩
    · rw [heq]
    · rw [heq, mfind_mset_ne _ _ _ _ (h pr (List.mem_cons_self pr rest) nm hc)]

theorem foldl_indexStep_functions_preserve (lines : List Str) (blocks : List Block)
    (p : Str) (n : Str) :
    ∀ (prs : List (Nat × Str)) (st : WsState) (fs : FileSyms),
      (∀ pr ∈ prs, ∀ nm, matchFnDecl (jsTrim pr.2) = some nm → nm ≠ n) →
      mfind (prs.foldl (indexStep lines blocks p) (st, fs)).1.functions n =
        mfind st.functions n := by
  intro prs
  induction prs with
  | nil => intro st fs _; rfl
  | cons pr rest ih =>
    intro st fs h
    rw [List.foldl_cons]
    have hh : ∀ pr' ∈ rest, ∀ nm, matchFnDecl (jsTrim pr'.2) = some nm → nm ≠ n :=
      fun pr' h' => h pr' (List.mem_cons_of_mem pr h')
    have hstep :
        (indexStep lines blocks p (st, fs) pr).1.functions = st.functions ∨
        ∃ nm v, matchFnDecl (jsTrim pr.2) = some nm ∧
          (indexStep lines blocks p (st, fs) pr).1.functions = mset st.functions nm v := by
      simp only [indexStep]
      cases matchConstDecl (jsTrim pr.2) with
      | some nm => exact Or.inl rfl
      | none =>
        cases hf : matchFnDecl (jsTrim pr.2) with
        | some nm => exact Or.inr ⟨nm, _, rfl, rfl⟩
        | none =>
          left
          cases matchMacroDecl (jsTrim pr.2) with
          | some nm => rfl
          | none =>
            cases matchStatDecl (jsTrim pr.2) with
            | some nsnm => rfl
            | none => rfl
    have := ih (indexStep lines blocks p (st, fs) pr).1
      (indexStep lines blocks p (st, fs) pr).2 hh
    rw [Prod.mk.eta] at this
    rw [this]
    rcases hstep with heq | ⟨nm, v, hc, heq⟩
    · rw [heq]
    · rw [heq, mfind_mset_ne _ _ _ _ (h pr (List.mem_cons_self pr rest) nm hc)]

theorem foldl_indexStep_macros_preserve (lines : List Str) (blocks : List Block)
    (p : Str) (n : Str) :
    ∀ (prs : List (Nat × Str)) (st : WsState) (fs : FileSyms),
      (∀ pr ∈ prs, ∀ nm, matchMacroDecl (jsTrim pr.2) = some nm → nm ≠ n) →
      mfind (prs.foldl (indexStep lines blocks p) (st, fs)).1.macros n =
        mfind st.macros n := by
  intro prs
  induction prs with
  | nil => intro st fs _; rfl
  | cons pr rest ih =>
    intro st fs h
    rw [List.foldl_cons]
    have hh : ∀ pr' ∈ rest, ∀ nm, matchMacroDecl (jsTrim pr'.2) = some nm → nm ≠ n :=
      fun pr' h' => h pr' (List.mem_cons_of_mem pr h')
    have hstep :
        (indexStep lines blocks p (st, fs) pr).1.macros = st.macros ∨
        ∃ nm v, matchMacroDecl (jsTrim pr.2) = some nm ∧
          (indexStep lines blocks p (st, fs) pr).1.macros = mset st.macros nm v := by
      simp only [indexStep]
      cases matchConstDecl (jsTrim pr.2) with
      | some nm => exact Or.inl rfl
      | none =>
        cases matchFnDecl (jsTrim pr.2) with
        | some nm => exact Or.inl rfl
        | none =>
          cases hm : matchMacroDecl (jsTrim pr.2) with
          | some nm => exact Or.inr ⟨nm, _, rfl, rfl⟩
          | none =>
            left
            cases matchStatDecl (jsTrim pr.2) with
            | some nsnm => rfl
            | none => rfl
    have := ih (indexStep lines blocks p (st, fs) pr).1
      (indexStep lines blocks p (st, fs) pr).2 hh
    rw [Prod.mk.eta] at this
    rw [this]
    rcases hstep with heq | ⟨nm, v, hc, heq⟩
    · rw [heq]
    · rw [heq, mfind_mset_ne _ _ _ _ (h pr (List.mem_cons_self pr rest) nm hc)]

theorem foldl_indexStep_stats_preserve (lines : List Str) (blocks : List Block)
    (p : Str) (n : Str) :
    ∀ (prs : List (Nat × Str)) (st : WsState) (fs : FileSyms),
      (∀ pr ∈ prs, ∀ r, matchStatDecl (jsTrim pr.2) = some r → r.2 ≠ n) →
      mfind (prs.foldl (indexStep lines blocks p) (st, fs)).1.stats n =
        mfind st.stats n := by
  intro prs
  induction prs with
  | nil => intro st fs _; rfl
  | cons pr rest ih =>
    intro st fs h
    rw [List.foldl_cons]
    have hh : ∀ pr' ∈ rest, ∀ r, matchStatDecl (jsTrim pr'.2) = some r → r.2 ≠ n :=
      fun pr' h' => h pr' (List.mem_cons_of_mem pr h')
    have hstep :
        (indexStep lines blocks p (st, fs) pr).1.stats = st.stats ∨
        ∃ r v, matchStatDecl (jsTrim pr.2) = some r ∧
          (indexStep lines blocks p (st, fs) pr).1.stats = mset st.stats r.2 v := by
      simp only [indexStep]
      cases matchConstDecl (jsTrim pr.2) with
      | some nm => exact Or.inl rfl
      | none =>
        cases matchFnDecl (jsTrim pr.2) with
        | some nm => exact Or.inl rfl
        | none =>
          cases matchMacroDecl (jsTrim pr.2) with
          | some nm => exact Or.inl rfl
          | none =>
            cases hs : matchStatDecl (jsTrim pr.2) with
            | some r => exact Or.inr ⟨r, _, rfl, rfl⟩
            | none => exact Or.inl rfl
    have := ih (indexStep lines blocks p (st, fs) pr).1
      (indexStep lines blocks p (st, fs) pr).2 hh
    rw [Prod.mk.eta] at this
    rw [this]
    rcases hstep with heq | ⟨r, v, hc, heq⟩
    · rw [heq]
    · rw [heq, mfind_mset_ne _ _ _ _ (h pr (List.mem_cons_self pr rest) r hc)]

/-! ### Retraction lemmas -/

theorem foldl_mdel_mfind {α} (n : Str) :
    ∀ (names : List Str) (m : SMap α),
      mfind (names.foldl mdel m) n = if n ∈ names then none else mfind m n := by
  intro names
  induction names with
  | nil => intro m; simp
  | cons k rest ih =>
    intro m
    rw [List.foldl_cons, ih]
    by_cases hr : n ∈ rest
    · simp [hr]
    · by_cases hk : n = k
      · subst hk
        simp [hr, mfind_mdel_self]
      · simp [hr, hk, mfind_mdel_ne m k n (fun hh => hk hh.symm)]

theorem statRetractStep_find_ne (p : Str) (m : SMap (List StatEntry))
    (s : StatRec) (n : Str) (h : s.name ≠ n) :
    mfind (statRetractStep p m s) n = mfind m n := by
  unfold statRetractStep
  cases hf : mfind m s.name with
  | none => rfl
  | some arr =>
    simp only
    split
    · rw [mfind_mdel_ne _ _ _ h, mfind_mset_ne _ _ _ _ h]
    · rw [mfind_mset_ne _ _ _ _ h]

theorem statRetractStep_mem (p : Str) (m : SMap (List StatEntry))
    (s : StatRec) (n : Str) (e : StatEntry)
    (he : e ∈ (mfind (statRetractStep p m s) n).getD []) :
    e ∈ (mfind m n).getD [] := by
  by_cases h : s.name = n
  · subst h
    unfold statRetractStep at he
    cases hf : mfind m s.name with
    | none =>
      simp only [hf] at he
      exact he
    | some arr =>
      simp only [hf] at he
      split at he
      · rw [mfind_mdel_self] at he
        simp at he
      · rw [mfind_mset_self] at he
        simp only [Option.getD_some] at he
        simpa [hf] using List.mem_of_mem_filter he
  · rw [statRetractStep_find_ne p m s n h] at he
    exact he

theorem statRetractStep_filtered (p : Str) (m : SMap (List StatEntry))
    (s : StatRec) (e : StatEntry)
    (he : e ∈ (mfind (statRetractStep p m s) s.name).getD []) :
    ¬(e.uri = p ∧ e.line = s.line) := by
  unfold statRetractStep at he
  cases hf : mfind m s.name with
  | none =>
    simp only [hf] at he
    simp at he
  | some arr =>
    simp only [hf] at he
    split at he
    · rw [mfind_mdel_self] at he
      simp at he
    · rw [mfind_mset_self] at he
      simp only [Option.getD_some] at he
      intro hcon
      have := List.of_mem_filter he
      simp [hcon.1, hcon.2] at this

theorem retractStats_mem (p : Str) (n : Str) :
    ∀ (recs : List StatRec) (m : SMap (List StatEntry)) (e : StatEntry),
      e ∈ (mfind (retractStats m p recs) n).getD [] → e ∈ (mfind m n).getD [] := by
  intro recs
  induction recs with
  | nil => intro m e he; exact he
  | cons s rest ih =>
    intro m e he
    rw [retractStats, List.foldl_cons] at he
    exact statRetractStep_mem p m s n e (ih (statRetractStep p m s) e he)

theorem retractStats_filtered (p : Str) (n : Str) :
    ∀ (recs : List StatRec) (m : SMap (List StatEntry)) (r : StatRec),
      r ∈ recs → r.name = n →
      ∀ e ∈ (mfind (retractStats m p recs) n).getD [],
        ¬(e.uri = p ∧ e.line = r.line) := by
  intro recs
  induction recs with
  | nil => intro m r hr; simp at hr
  | cons s rest ih =>
    intro m r hr hname e he
    rw [retractStats, List.foldl_cons] at he
    rcases List.mem_cons.mp hr with heq | htl
    · subst heq
      have hsub : e ∈ (mfind (statRetractStep p m r) n).getD [] :=
        retractStats_mem p n rest (statRetractStep p m r) e he
      rw [← hname] at hsub
      exact statRetractStep_filtered p m r e hsub
    · exact ih (statRetractStep p m s) r htl hname e he

/-- Characterization of the whole `indexTextDocument` run for a name that
the text never declares as that kind: the map at that key equals its value
after the retraction phase. -/
theorem indexTextDocument_constants_char (st : WsState) (p : Str) (text : Str)
    (n : Str)
    (h : ∀ pr ∈ (splitLines text).enum, ∀ nm,
      matchConstDecl (jsTrim pr.2) = some nm → nm ≠ n) :
    mfind (indexTextDocument st p text).constants n =
      mfind (match mfind st.fileSyms p with
             | none => st
             | some prev => retractFile st p prev).constants n := by
  unfold indexTextDocument
  exact foldl_indexStep_constants_preserve _ _ p n _ _ _ h

theorem indexTextDocument_functions_char (st : WsState) (p : Str) (text : Str)
    (n : Str)
    (h : ∀ pr ∈ (splitLines text).enum, ∀ nm,
      matchFnDecl (jsTrim pr.2) = some nm → nm ≠ n) :
    mfind (indexTextDocument st p text).functions n =
      mfind (match mfind st.fileSyms p with
             | none => st
             | some prev => retractFile st p prev).functions n := by
  unfold indexTextDocument
  exact foldl_indexStep_functions_preserve _ _ p n _ _ _ h

theorem indexTextDocument_macros_char (st : WsState) (p : Str) (text : Str)
    (n : Str)
    (h : ∀ pr ∈ (splitLines text).enum, ∀ nm,
      matchMacroDecl (jsTrim pr.2) = some nm → nm ≠ n) :
    mfind (indexTextDocument st p text).macros n =
      mfind (match mfind st.fileSyms p with
             | none => st
             | some prev => retractFile st p prev).macros n := by
  unfold indexTextDocument
  exact foldl_indexStep_macros_preserve _ _ p n _ _ _ h

theorem indexTextDocument_stats_char (st : WsState) (p : Str) (text : Str)
    (n : Str)
    (h : ∀ pr ∈ (splitLines text).enum, ∀ r,
      matchStatDecl (jsTrim pr.2) = some r → r.2 ≠ n) :
    mfind (indexTextDocument st p text).stats n =
      mfind (match mfind st.fileSyms p with
             | none => st
             | some prev => retractFile st p prev).stats n := by
  unfold indexTextDocument
  exact foldl_indexStep_stats_preserve _ _ p n _ _ _ h

/-! ### The four recognizers are pairwise exclusive (their keywords start
with different letters) -/

theorem matchKwIdent_isPrefix (kw t nm : Str)
    (h : matchKwIdent kw t = some nm) : kw.isPrefixOf t = true := by
  unfold matchKwIdent at h
  by_cases hp : kw.isPrefixOf t = true
  · exact hp
  · simp [hp] at h

theorem matchKwIdentParen_isPrefix (kw t nm : Str)
    (h : matchKwIdentParen kw t = some nm) : kw.isPrefixOf t = true := by
  unfold matchKwIdentParen at h
  cases hk : matchKwIdent kw t with
  | none => rw [hk] at h; simp at h
  | some nm' => exact matchKwIdent_isPrefix kw t nm' hk

theorem isPrefix_head_ne {a b : Char} {s t u : Str}
    (ha : (a :: s).isPrefixOf u = true) (hb : (b :: t).isPrefixOf u = true)
    (hne : a ≠ b) : False := by
  cases u with
  | nil => simp [List.isPrefixOf] at ha
  | cons c rest =>
    simp [List.isPrefixOf] at ha hb
    exact hne (ha.1.trans hb.1.symm)

theorem matchConst_matchFn_exclusive (t a b : Str)
    (hc : matchConstDecl t = some a) (hf : matchFnDecl t = some b) : False :=
  isPrefix_head_ne (matchKwIdent_isPrefix _ t a hc)
    (matchKwIdentParen_isPrefix _ t b hf) (by decide)

theorem matchConst_matchMacro_exclusive (t a b : Str)
    (hc : matchConstDecl t = some a) (hf : matchMacroDecl t = some b) : False :=
  isPrefix_head_ne (matchKwIdent_isPrefix _ t a hc)
    (matchKwIdentParen_isPrefix _ t b hf) (by decide)

theorem matchFn_matchMacro_exclusive (t a b : Str)
    (hc : matchFnDecl t = some a) (hf : matchMacroDecl t = some b) : False :=
  isPrefix_head_ne (matchKwIdentParen_isPrefix _ t a hc)
    (matchKwIdentParen_isPrefix _ t b hf) (by decide)

theorem matchStat_isPrefix (t : Str) (r : Str × Str)
    (h : matchStatDecl t = some r) : ("stat".data).isPrefixOf t = true := by
  unfold matchStatDecl at h
  by_cases hp : ("stat".data).isPrefixOf t = true
  · exact hp
  · simp [hp] at h

theorem matchConst_matchStat_exclusive (t : Str) (a : Str) (r : Str × Str)
    (hc : matchConstDecl t = some a) (hs : matchStatDecl t = some r) : False :=
  isPrefix_head_ne (matchKwIdent_isPrefix _ t a hc)
    (matchStat_isPrefix t r hs) (by decide)

theorem matchFn_matchStat_exclusive (t : Str) (a : Str) (r : Str × Str)
    (hc : matchFnDecl t = some a) (hs : matchStatDecl t = some r) : False :=
  isPrefix_head_ne (matchKwIdentParen_isPrefix _ t a hc)
    (matchStat_isPrefix t r hs) (by decide)

theorem matchMacro_matchStat_exclusive (t : Str) (a : Str) (r : Str × Str)
    (hc : matchMacroDecl t = some a) (hs : matchStatDecl t = some r) : False :=
  isPrefix_head_ne (matchKwIdentParen_isPrefix _ t a hc)
    (matchStat_isPrefix t r hs) (by decide)

/-- C1: after `indexFile(p, t1)` followed by `indexFile(p, t2)` (from any
starting state), the global maps contain no entry contributed by `t1` whose
name is not also declared (as the same kind) in `t2`: for the single-valued
constants / functions / macros maps the key is gone entirely, and in the
multi-valued stats map no entry for file `p` at a `t1` stat-declaration line
survives — the old file's entries are retracted before the new ones are
inserted. -/
theorem c1_reindex_retracts_old (st : WsState) (p : Str) (t1 t2 : Str) (n : Str) :
    (n ∈ constNames t1 → n ∉ constNames t2 →
      mfind (indexTextDocument (indexTextDocument st p t1) p t2).constants n = none) ∧
    (n ∈ fnNames t1 → n ∉ fnNames t2 →
      mfind (indexTextDocument (indexTextDocument st p t1) p t2).functions n = none) ∧
    (n ∈ macroNames t1 → n ∉ macroNames t2 →
      mfind (indexTextDocument (indexTextDocument st p t1) p t2).macros n = none) ∧
    (∀ r ∈ statRecsOf p t1, r.name = n → n ∉ statNames t2 →
      ∀ e ∈ (mfind (indexTextDocument (indexTextDocument st p t1) p t2).stats n).getD [],
        ¬(e.uri = p ∧ e.line = r.line)) := by
  set st1 := indexTextDocument st p t1 with hst1
  have hrec : mfind st1.fileSyms p = some (fsymsOf p t1) :=
    indexTextDocument_fileSyms_self st p t1
  refine ⟨?_, ?_, ?_, ?_⟩
  · intro h1 h2
    have hno : ∀ pr ∈ (splitLines t2).enum, ∀ nm,
        matchConstDecl (jsTrim pr.2) = some nm → nm ≠ n := by
      intro pr hpr nm hm heq
      subst heq
      exact h2 (List.mem_filterMap.mpr ⟨pr, hpr, hm⟩)
    rw [indexTextDocument_constants_char st1 p t2 n hno, hrec]
    simp only [retractFile]
    rw [foldl_mdel_mfind]
    have hmem : n ∈ (fsymsOf p t1).constants := by
      rcases List.mem_filterMap.mp h1 with ⟨pr, hpr, hm⟩
      exact mem_fsFold_constants_of p n _ _ ⟨pr, hpr, hm⟩
    simp [hmem]
  · intro h1 h2
    have hno : ∀ pr ∈ (splitLines t2).enum, ∀ nm,
        matchFnDecl (jsTrim pr.2) = some nm → nm ≠ n := by
      intro pr hpr nm hm heq
      subst heq
      exact h2 (List.mem_filterMap.mpr ⟨pr, hpr, hm⟩)
    rw [indexTextDocument_functions_char st1 p t2 n hno, hrec]
    simp only [retractFile]
    rw [foldl_mdel_mfind]
    have hmem : n ∈ (fsymsOf p t1).functions := by
      rcases List.mem_filterMap.mp h1 with ⟨pr, hpr, hm⟩
      have hnc : matchConstDecl (jsTrim pr.2) = none := by
        cases hc : matchConstDecl (jsTrim pr.2) with
        | none => rfl
        | some nm' => exact (matchConst_matchFn_exclusive _ _ _ hc hm).elim
      exact mem_fsFold_functions_of p n _ _ ⟨pr, hpr, hm, hnc⟩
    simp [hmem]
  · intro h1 h2
    have hno : ∀ pr ∈ (splitLines t2).enum, ∀ nm,
        matchMacroDecl (jsTrim pr.2) = some nm → nm ≠ n := by
      intro pr hpr nm hm heq
      subst heq
      exact h2 (List.mem_filterMap.mpr ⟨pr, hpr, hm⟩)
    rw [indexTextDocument_macros_char st1 p t2 n hno, hrec]
    simp only [retractFile]
    rw [foldl_mdel_mfind]
    have hmem : n ∈ (fsymsOf p t1).macros := by
      rcases List.mem_filterMap.mp h1 with ⟨pr, hpr, hm⟩
      have hnc : matchConstDecl (jsTrim pr.2) = none := by
        cases hc : matchConstDecl (jsTrim pr.2) with
        | none => rfl
        | some nm' => exact (matchConst_matchMacro_exclusive _ _ _ hc hm).elim
      have hnf : matchFnDecl (jsTrim pr.2) = none := by
        cases hc : matchFnDecl (jsTrim pr.2) with
        | none => rfl
        | some nm' => exact (matchFn_matchMacro_exclusive _ _ _ hc hm).elim
      exact mem_fsFold_macros_of p n _ _ ⟨pr, hpr, hm, hnc, hnf⟩
    simp [hmem]
  · intro r hr hname h2 e he
    have hno : ∀ pr ∈ (splitLines t2).enum, ∀ rr,
        matchStatDecl (jsTrim pr.2) = some rr → rr.2 ≠ n := by
      intro pr hpr rr hm heq
      exact h2 (List.mem_filterMap.mpr ⟨pr, hpr, by rw [hm]; simp [heq]⟩)
    rw [indexTextDocument_stats_char st1 p t2 n hno, hrec] at he
    simp only [retractFile] at he
    have hrmem : r ∈ (fsymsOf p t1).stats := by
      rcases List.mem_filterMap.mp hr with ⟨pr, hpr, hm⟩
      cases hmm : matchStatDecl (jsTrim pr.2) with
      | none => rw [hmm] at hm; simp at hm
      | some rr =>
        rw [hmm] at hm
        simp only [Option.map_some', Option.some_inj] at hm
        have hnc : matchConstDecl (jsTrim pr.2) = none := by
          cases hc : matchConstDecl (jsTrim pr.2) with
          | none => rfl
          | some nm' => exact (matchConst_matchStat_exclusive _ _ _ hc hmm).elim
        have hnf : matchFnDecl (jsTrim pr.2) = none := by
          cases hc : matchFnDecl (jsTrim pr.2) with
          | none => rfl
          | some nm' => exact (matchFn_matchStat_exclusive _ _ _ hc hmm).elim
        have hnm : matchMacroDecl (jsTrim pr.2) = none := by
          cases hc : matchMacroDecl (jsTrim pr.2) with
          | none => rfl
          | some nm' => exact (matchMacro_matchStat_exclusive _ _ _ hc hmm).elim
        rw [← hm]
        exact mem_fsFold_stats_of p pr.1 rr.1 rr.2 _ _
          ⟨pr.2, by simpa using hpr, hmm, hnc, hnf, hnm⟩
    exact retractStats_filtered p n (fsymsOf p t1).stats st1.stats r hrmem hname e he

/-- Witness for C1: concrete re-index where the old file declared
`A`/`F`/`M`/`s` and the new text only `B`. -/
theorem c1_witness :
    mfind (indexTextDocument
        (indexTextDocument emptyWs ("/a.hsl".data)
          ("const A = 1\nfn F() { }\nmacro M() { }\nstat player s".data))
        ("/a.hsl".data) ("const B = 2".data)).constants ("A".data) = none ∧
    mfind (indexTextDocument
        (indexTextDocument emptyWs ("/a.hsl".data)
          ("const A = 1\nfn F() { }\nmacro M() { }\nstat player s".data))
        ("/a.hsl".data) ("const B = 2".data)).functions ("F".data) = none ∧
    mfind (indexTextDocument
        (indexTextDocument emptyWs ("/a.hsl".data)
          ("const A = 1\nfn F() { }\nmacro M() { }\nstat player s".data))
        ("/a.hsl".data) ("const B = 2".data)).macros ("M".data) = none ∧
    (mfind (indexTextDocument
        (indexTextDocument emptyWs ("/a.hsl".data)
          ("const A = 1\nfn F() { }\nmacro M() { }\nstat player s".data))
        ("/a.hsl".data) ("const B = 2".data)).stats ("s".data)).getD [] = [] := by
  refine ⟨?_, ?_, ?_, by decide⟩
  · exact (c1_reindex_retracts_old emptyWs ("/a.hsl".data)
      ("const A = 1\nfn F() { }\nmacro M() { }\nstat player s".data)
      ("const B = 2".data) ("A".data)).1 (by decide) (by decide)
  · exact (c1_reindex_retracts_old emptyWs ("/a.hsl".data)
      ("const A = 1\nfn F() { }\nmacro M() { }\nstat player s".data)
      ("const B = 2".data) ("F".data)).2.1 (by decide) (by decide)
  · exact (c1_reindex_retracts_old emptyWs ("/a.hsl".data)
      ("const A = 1\nfn F() { }\nmacro M() { }\nstat player s".data)
      ("const B = 2".data) ("M".data)).2.2.1 (by decide) (by decide)

/-! ### `removeFile` lemmas and claim C2 -/

theorem statRetractStep_keep (p : Str) (m : SMap (List StatEntry))
    (s : StatRec) (n : Str) (e : StatEntry)
    (he : e ∈ (mfind m n).getD []) (hu : e.uri ≠ p) :
    e ∈ (mfind (statRetractStep p m s) n).getD [] := by
  by_cases h : s.name = n
  · subst h
    unfold statRetractStep
    cases hf : mfind m s.name with
    | none => simp only; rw [hf]; rw [hf] at he; exact he
    | some arr =>
      rw [hf] at he
      simp only [Option.getD_some] at he
      simp only
      have hmem : e ∈ arr.filter
          (fun x => !(decide (x.uri = p) && decide (x.line = s.line))) := by
        apply List.mem_filter.mpr
        exact ⟨he, by simp [hu]⟩
      have hne : (arr.filter
          (fun x => !(decide (x.uri = p) && decide (x.line = s.line)))).isEmpty = false := by
        cases hq : arr.filter
            (fun x => !(decide (x.uri = p) && decide (x.line = s.line))) with
        | nil => rw [hq] at hmem; simp at hmem
        | cons a l => rfl
      rw [if_neg (by rw [hne]; exact fun hh => Bool.false_ne_true hh)]
      rw [mfind_mset_self]
      simpa using hmem
  · rw [statRetractStep_find_ne p m s n h]
    exact he

theorem retractStats_keep (p : Str) (n : Str) :
    ∀ (recs : List StatRec) (m : SMap (List StatEntry)) (e : StatEntry),
      e ∈ (mfind m n).getD [] → e.uri ≠ p →
      e ∈ (mfind (retractStats m p recs) n).getD [] := by
  intro recs
  induction recs with
  | nil => intro m e he _; exact he
  | cons s rest ih =>
    intro m e he hu
    rw [retractStats, List.foldl_cons]
    exact ih (statRetractStep p m s) e (statRetractStep_keep p m s n e he hu) hu

theorem retractStats_find_ne (p : Str) (n : Str) :
    ∀ (recs : List StatRec) (m : SMap (List StatEntry)),
      (∀ r ∈ recs, r.name ≠ n) →
      mfind (retractStats m p recs) n = mfind m n := by
  intro recs
  induction recs with
  | nil => intro m _; rfl
  | cons s rest ih =>
    intro m h
    show mfind (retractStats (statRetractStep p m s) p rest) n = mfind m n
    rw [ih (statRetractStep p m s) (fun r hr => h r (List.mem_cons_of_mem s hr)),
      statRetractStep_find_ne p m s n (h s (List.mem_cons_self s rest))]

/-- C2 counterexample: with file A declaring `const K = 1` and file B
declaring `const K = 2`, removing file A deletes the `K` entry that file B
contributed — contradicting the claim that entries for the same names
contributed by other files remain. -/
theorem c2_counterexample :
    ((mfind (indexTextDocument
        (indexTextDocument emptyWs ("/a.hsl".data) ("const K = 1".data))
        ("/b.hsl".data) ("const K = 2".data)).constants ("K".data)).map
          ConstEntry.uri = some ("/b.hsl".data)) ∧
    mfind (removeDocumentUri (indexTextDocument
        (indexTextDocument emptyWs ("/a.hsl".data) ("const K = 1".data))
        ("/b.hsl".data) ("const K = 2".data)) ("/a.hsl".data)).constants
        ("K".data) = none ∧
    (mfind (removeDocumentUri (indexTextDocument
        (indexTextDocument emptyWs ("/a.hsl".data) ("const K = 1".data))
        ("/b.hsl".data) ("const K = 2".data)) ("/a.hsl".data)).fileSyms
        ("/b.hsl".data)).map FileSyms.constants = some [("K".data)] := by
  exact ⟨by decide, by decide, by decide⟩

/-- C2 amended: `removeFile(p)` is a no-op when `p` was never indexed;
otherwise it deletes from the constants / functions / macros maps every
*name* recorded for `p` (even when the live entry under that name was
contributed by another file), removes from the stats map exactly the entries
matching `p`'s recorded (name, line) pairs — so stat entries of other files
survive — leaves every map key that `p`'s record does not mention unchanged,
and drops `p`'s record. -/
theorem c2_remove_file_amended (st : WsState) (p : Str) :
    (mfind st.fileSyms p = none → removeDocumentUri st p = st) ∧
    (∀ prev, mfind st.fileSyms p = some prev →
      (∀ n ∈ prev.constants, mfind (removeDocumentUri st p).constants n = none) ∧
      (∀ n ∈ prev.functions, mfind (removeDocumentUri st p).functions n = none) ∧
      (∀ n ∈ prev.macros, mfind (removeDocumentUri st p).macros n = none) ∧
      (∀ r ∈ prev.stats, ∀ e ∈ (mfind (removeDocumentUri st p).stats r.name).getD [],
        ¬(e.uri = p ∧ e.line = r.line)) ∧
      (∀ n e, e ∈ (mfind st.stats n).getD [] → e.uri ≠ p →
        e ∈ (mfind (removeDocumentUri st p).stats n).getD []) ∧
      (∀ n, n ∉ prev.constants →
        mfind (removeDocumentUri st p).constants n = mfind st.constants n) ∧
      (∀ n, (∀ r ∈ prev.stats, r.name ≠ n) →
        mfind (removeDocumentUri st p).stats n = mfind st.stats n) ∧
      mfind (removeDocumentUri st p).fileSyms p = none) := by
  constructor
  · intro h
    unfold removeDocumentUri
    rw [h]
  · intro prev h
    have hrw : removeDocumentUri st p =
        { retractFile st p prev with fileSyms := mdel st.fileSyms p } := by
      unfold removeDocumentUri
      rw [h]
    rw [hrw]
    refine ⟨?_, ?_, ?_, ?_, ?_, ?_, ?_, ?_⟩
    · intro n hn
      simp only [retractFile]
      rw [foldl_mdel_mfind]
      simp [hn]
    · intro n hn
      simp only [retractFile]
      rw [foldl_mdel_mfind]
      simp [hn]
    · intro n hn
      simp only [retractFile]
      rw [foldl_mdel_mfind]
      simp [hn]
    · intro r hr e he
      exact retractStats_filtered p r.name prev.stats st.stats r hr rfl e he
    · intro n e he hu
      exact retractStats_keep p n prev.stats st.stats e he hu
    · intro n hn
      simp only [retractFile]
      rw [foldl_mdel_mfind]
      simp [hn]
    · intro n hn
      exact retractStats_find_ne p n prev.stats st.stats hn
    · exact mfind_mdel_self st.fileSyms p

/-- Witness for the amended C2 on a concrete two-file state. -/
theorem c2_amended_witness :
    removeDocumentUri (indexTextDocument
        (indexTextDocument emptyWs ("/a.hsl".data) ("const K = 1".data))
        ("/b.hsl".data) ("const K = 2".data)) ("/c.hsl".data)
      = indexTextDocument
        (indexTextDocument emptyWs ("/a.hsl".data) ("const K = 1".data))
        ("/b.hsl".data) ("const K = 2".data) ∧
    mfind (removeDocumentUri (indexTextDocument emptyWs ("/a.hsl".data)
        ("const K = 1".data)) ("/a.hsl".data)).constants ("K".data) = none := by
  constructor
  · exact (c2_remove_file_amended _ ("/c.hsl".data)).1 (by decide)
  · exact ((c2_remove_file_amended _ ("/a.hsl".data)).2
      ⟨[("K".data)], [], [], []⟩ (by decide)).1 ("K".data) (by decide)

/-! ### `getPossiblyQualifiedToken`

The resolver scans a line for `/([A-Za-z_][A-Za-z0-9_]*)\s*::\s*([A-Za-z_][A-Za-z0-9_]*)/g`
matches.  The regex pattern is deterministic here (the greedy identifier run
cannot backtrack productively because an identifier character can neither be
whitespace nor `:`), so each match is: maximal left identifier, whitespace,
`::`, whitespace, maximal right identifier, found at the leftmost feasible
start position, with the next search resuming at the match's end. -/

/-- The maximal identifier run at the head of the string, if the head is an
identifier-start character. -/
def takeIdentRun (s : Str) : Option Str :=
  match s with
  | [] => none
  | c :: _ => if isIdentStart c then some (s.takeWhile isIdentCont) else none

/-- One match of the qualified-token regex: start position, left identifier,
whitespace widths around the `::`, right identifier. -/
structure QualMatch where
  pos : Nat
  lhs : Str
  w1 : Nat
  w2 : Nat
  rhs : Str
  deriving DecidableEq, Repr

def QualMatch.lhsEnd (m : QualMatch) : Nat := m.pos + m.lhs.length

def QualMatch.rhsStart (m : QualMatch) : Nat :=
  m.pos + m.lhs.length + m.w1 + 2 + m.w2

def QualMatch.rhsEnd (m : QualMatch) : Nat := m.rhsStart + m.rhs.length

def QualMatch.len (m : QualMatch) : Nat :=
  m.lhs.length + m.w1 + 2 + m.w2 + m.rhs.length

/-- Try to match the qualified-token pattern starting exactly at `p`:
maximal identifier, `\s*`, the two characters `::`, `\s*`, maximal
identifier. -/
def parseQualAt (line : Str) (p : Nat) : Option QualMatch :=
  match takeIdentRun (line.drop p) with
  | none => none
  | some lhs =>
    let s1 := (line.drop p).drop lhs.length
    let w1 := (s1.takeWhile jsIsSpace).length
    let s2 := s1.drop w1
    if s2.take 2 = [':', ':'] then
      let s3 := s2.drop 2
      let w2 := (s3.takeWhile jsIsSpace).length
      match takeIdentRun (s3.drop w2) with
      | none => none
      | some rhs => some ⟨p, lhs, w1, w2, rhs⟩
    else none

/-- Leftmost match whose start is `≥ p` (the fuel counts the at most
`line.length - p + 1` start positions still to try). -/
def findQualFromAux (line : Str) : Nat → Nat → Option QualMatch
  | 0, _ => none
  | fuel + 1, p =>
    if p < line.length then
      match parseQualAt line p with
      | some m => some m
      | none => findQualFromAux line fuel (p + 1)
    else none

def findQualFrom (line : Str) (p : Nat) : Option QualMatch :=
  findQualFromAux line (line.length - p + 1) p

/-- All matches of the global regex, in order; the search resumes at each
match's end (`lastIndex`).  The fuel starts at `line.length + 1` and can
never run out because every match is non-empty. -/
def scanQualAux (line : Str) : Nat → Nat → List QualMatch
  | 0, _ => []
  | fuel + 1, p =>
    match findQualFrom line p with
    | none => []
    | some m => m :: scanQualAux line fuel m.rhsEnd

def scanQual (line : Str) : List QualMatch :=
  scanQualAux line (line.length + 1) 0

/-- The resolver's result object (`pendingRhs` is absent = `false`). -/
structure QualTok where
  fullToken : Str
  lhs : Str
  rhs : Str
  inRhs : Bool
  inLhs : Bool
  pendingRhs : Bool
  deriving DecidableEq, Repr

def rhsTok (line : Str) (m : QualMatch) : QualTok :=
  ⟨(line.drop m.pos).take m.len, m.lhs, m.rhs, true, false, false⟩

def lhsTok (line : Str) (m : QualMatch) : QualTok :=
  ⟨(line.drop m.pos).take m.len, m.lhs, m.rhs, false, true, false⟩

/-- The `while ((m = regex.exec(lineText)) !== null)` loop body: the three
span tests, in source order, falling through to the next match. -/
def qualLoop (line : Str) (col : Nat) : List QualMatch → Option QualTok
  | [] => none
  | m :: rest =>
    if m.rhsStart ≤ col ∧ col ≤ m.rhsEnd then some (rhsTok line m)
    else if m.pos ≤ col ∧ col ≤ m.lhsEnd then some (lhsTok line m)
    else if m.lhsEnd < col ∧ col < m.rhsEnd then some (rhsTok line m)
    else qualLoop line col rest

/-- `/([A-Za-z_][A-Za-z0-9_]*)\s*::\s*$/` on a slice: the whole suffix from
some identifier start consists of identifier, whitespace, `::`, whitespace. -/
def parsePendingHere (s : Str) : Option Str :=
  match takeIdentRun s with
  | none => none
  | some l =>
    let s1 := s.drop l.length
    let s2 := s1.drop (s1.takeWhile jsIsSpace).length
    if s2.take 2 = [':', ':'] ∧ (s2.drop 2).dropWhile jsIsSpace = [] then some l
    else none

/-- Leftmost pending match: returns `(m[0], captured identifier)`. -/
def findPending : Str → Option (Str × Str)
  | [] => none
  | c :: rest =>
    match parsePendingHere (c :: rest) with
    | some l => some (c :: rest, l)
    | none => findPending rest

/-- One maximal identifier word starting at or after `p`. -/
def findWordFromAux (line : Str) : Nat → Nat → Option (Nat × Str)
  | 0, _ => none
  | fuel + 1, p =>
    if p < line.length then
      match takeIdentRun (line.drop p) with
      | some run => some (p, run)
      | none => findWordFromAux line fuel (p + 1)
    else none

def findWordFrom (line : Str) (p : Nat) : Option (Nat × Str) :=
  findWordFromAux line (line.length - p + 1) p

/-- All identifier words of a line with their start positions. -/
def wordMatchesAux (line : Str) : Nat → Nat → List (Nat × Str)
  | 0, _ => []
  | fuel + 1, p =>
    match findWordFrom line p with
    | none => []
    | some (q, run) => (q, run) :: wordMatchesAux line fuel (q + run.length)

def wordMatches (line : Str) : List (Nat × Str) :=
  wordMatchesAux line (line.length + 1) 0

/-- `document.getWordRangeAtPosition(position, /[A-Za-z_][A-Za-z0-9_]*/)`:
the word whose span contains the column (inclusive at both edges), or the
empty string when there is none. -/
def wordAtCol (line : Str) (col : Nat) : Str :=
  match (wordMatches line).find?
      (fun qr => decide (qr.1 ≤ col) && decide (col ≤ qr.1 + qr.2.length)) with
  | some qr => qr.2
  | none => []

/-- `getPossiblyQualifiedToken` for a cursor on one line. -/
def getQualTok (line : Str) (col : Nat) : QualTok :=
  match qualLoop line col (scanQual line) with
  | some t => t
  | none =>
    match findPending (line.take col) with
    | some fl => ⟨fl.1, fl.2, [], true, false, true⟩
    | none =>
      let w := wordAtCol line col
      ⟨w, [], [], false, false, false⟩

/-! ### Span facts about the regex scan -/

theorem identStart_identCont {c : Char} (h : isIdentStart c = true) :
    isIdentCont c = true := by
  simp [isIdentCont, h]

theorem getD_of_drop_eq_cons (c : Char) (t : Str) :
    ∀ (line : Str) (k : Nat), line.drop k = c :: t → line.getD k ' ' = c := by
  intro line
  induction line with
  | nil => intro k h; simp at h
  | cons a l ih =>
    intro k h
    cases k with
    | zero => simp at h; simp [h.1]
    | succ k' => exact ih k' (by simpa using h)

theorem drop_takeWhile_eq_dropWhile (p : Char → Bool) :
    ∀ l : Str, l.drop (l.takeWhile p).length = l.dropWhile p := by
  intro l
  induction l with
  | nil => rfl
  | cons a t ih =>
    by_cases ha : p a = true
    · rw [List.takeWhile_cons_of_pos ha, List.dropWhile_cons_of_pos ha]
      simpa using ih
    · rw [List.takeWhile_cons_of_neg (by simp [ha]),
        List.dropWhile_cons_of_neg (by simp [ha])]
      rfl

theorem dropWhile_head_false (p : Char → Bool) :
    ∀ (l : Str) (c : Char) (t : Str), l.dropWhile p = c :: t → p c = false := by
  intro l
  induction l with
  | nil => intro c t h; simp at h
  | cons a l' ih =>
    intro c t h
    by_cases ha : p a = true
    · rw [List.dropWhile_cons_of_pos ha] at h
      exact ih c t h
    · rw [List.dropWhile_cons_of_neg ha] at h
      cases h
      simpa using ha

theorem takeWhile_length_le (p : Char → Bool) (l : Str) :
    (l.takeWhile p).length ≤ l.length := by
  induction l with
  | nil => simp
  | cons a t ih =>
    by_cases ha : p a = true
    · rw [List.takeWhile_cons_of_pos ha]; simpa using ih
    · rw [List.takeWhile_cons_of_neg (by simp [ha])]; simp

theorem takeIdentRun_some (s r : Str) (h : takeIdentRun s = some r) :
    ∃ c t, s = c :: t ∧ isIdentStart c = true ∧
      r = s.takeWhile isIdentCont ∧ r ≠ [] := by
  cases s with
  | nil => simp [takeIdentRun] at h
  | cons c t =>
    by_cases hc : isIdentStart c = true
    · have hr : r = (c :: t).takeWhile isIdentCont := by
        have := h
        simp only [takeIdentRun, hc, if_pos, Option.some_inj] at this
        exact this.symm
      refine ⟨c, t, rfl, hc, hr, ?_⟩
      rw [hr, List.takeWhile_cons_of_pos (identStart_identCont hc)]
      simp
    · simp [takeIdentRun, hc] at h

/-- Anatomy of a successful `parseQualAt`: the spans are non-empty, lie
inside the line, start at an identifier-start character, and the right
identifier is maximal (the character at `rhsEnd`, if any, cannot continue
it). -/
theorem parseQualAt_some (line : Str) (p : Nat) (m : QualMatch)
    (h : parseQualAt line p = some m) :
    m.pos = p ∧ m.lhs ≠ [] ∧ m.rhs ≠ [] ∧ p < line.length ∧
      m.rhsEnd ≤ line.length ∧
      isIdentStart (line.getD p ' ') = true ∧
      (∀ c t, line.drop m.rhsEnd = c :: t → isIdentCont c = false) := by
  simp only [parseQualAt] at h
  cases h1 : takeIdentRun (line.drop p) with
  | none => rw [h1] at h; simp at h
  | some lhs =>
    rw [h1] at h
    dsimp only at h
    obtain ⟨c, t, hs, hstart, hlhs_eq, hlhs_ne⟩ := takeIdentRun_some _ _ h1
    set s1 := (line.drop p).drop lhs.length with hs1
    set w1 := (s1.takeWhile jsIsSpace).length with hw1
    set s2 := s1.drop w1 with hs2def
    by_cases hq : s2.take 2 = [':', ':']
    · rw [if_pos hq] at h
      set s3 := s2.drop 2 with hs3
      set w2 := (s3.takeWhile jsIsSpace).length with hw2
      cases h3 : takeIdentRun (s3.drop w2) with
      | none => rw [h3] at h; simp at h
      | some rhs =>
        rw [h3] at h
        simp only [Option.some_inj] at h
        obtain ⟨c4, t4, hs4, hstart4, hrhs_eq, hrhs_ne⟩ := takeIdentRun_some _ _ h3
        subst h
        clear_value w2 s3 s2 w1 s1
        simp only [QualMatch.rhsEnd, QualMatch.rhsStart]
        have e1 : s1 = line.drop (lhs.length + p) := by
          rw [hs1, List.drop_drop]; congr 1; omega
        have e2 : s2 = line.drop (w1 + (lhs.length + p)) := by
          rw [hs2def, e1, List.drop_drop]; congr 1; omega
        have e3 : s3 = line.drop (2 + (w1 + (lhs.length + p))) := by
          rw [hs3, e2, List.drop_drop]; congr 1; omega
        have e4 : s3.drop w2 = line.drop (w2 + (2 + (w1 + (lhs.length + p)))) := by
          rw [e3, List.drop_drop]; congr 1; omega
        have hp : p < line.length := by
          have hne : line.drop p ≠ [] := by rw [hs]; simp
          by_contra hle
          push_neg at hle
          exact hne (List.drop_eq_nil_of_le (by omega))
        have hs4ne : s3.drop w2 ≠ [] := by rw [hs4]; simp
        have hbase : w2 + (2 + (w1 + (lhs.length + p))) < line.length := by
          by_contra hle
          push_neg at hle
          exact hs4ne (by rw [e4]; exact List.drop_eq_nil_of_le (by omega))
        have hrhs_le : rhs.length ≤
            line.length - (w2 + (2 + (w1 + (lhs.length + p)))) := by
          have hlen := congrArg List.length e4
          rw [List.length_drop, List.length_drop] at hlen
          have hb : rhs.length ≤ (s3.drop w2).length := by
            rw [hrhs_eq]; exact takeWhile_length_le _ _
          rw [List.length_drop] at hb
          omega
        have ebase : line.drop (p + lhs.length + w1 + 2 + w2) = s3.drop w2 := by
          rw [e4]; congr 1; omega
        have e5 : line.drop (p + lhs.length + w1 + 2 + w2 + rhs.length) =
            (s3.drop w2).dropWhile isIdentCont := by
          have hstep2 : line.drop (p + lhs.length + w1 + 2 + w2 + rhs.length) =
              (s3.drop w2).drop rhs.length := by
            rw [← ebase, List.drop_drop]
          rw [hstep2, hrhs_eq]
          exact drop_takeWhile_eq_dropWhile isIdentCont (s3.drop w2)
        refine ⟨?_, hlhs_ne, hrhs_ne, hp, ?_, ?_, ?_⟩
        · trivial
        · omega
        · rw [getD_of_drop_eq_cons c t line p hs]
          exact hstart
        · intro c' t' hdrop
          rw [e5] at hdrop
          exact dropWhile_head_false isIdentCont _ c' t' hdrop
    · rw [if_neg hq] at h
      simp at h

theorem findQualFromAux_some (line : Str) :
    ∀ (fuel p : Nat) (m : QualMatch), findQualFromAux line fuel p = some m →
      p ≤ m.pos ∧ parseQualAt line m.pos = some m := by
  intro fuel
  induction fuel with
  | zero => intro p m h; simp [findQualFromAux] at h
  | succ k ih =>
    intro p m h
    rw [findQualFromAux] at h
    by_cases hp : p < line.length
    · rw [if_pos hp] at h
      cases hpq : parseQualAt line p with
      | some m' =>
        simp only [hpq, Option.some_inj] at h
        have hpos := (parseQualAt_some line p m' hpq).1
        refine ⟨by rw [← h, hpos], by rw [← h, hpos]; exact hpq⟩
      | none =>
        simp only [hpq] at h
        have := ih (p + 1) m h
        exact ⟨by omega, this.2⟩
    · rw [if_neg hp] at h
      exact absurd h (by simp)

theorem findQualFrom_some (line : Str) (p : Nat) (m : QualMatch)
    (h : findQualFrom line p = some m) :
    p ≤ m.pos ∧ parseQualAt line m.pos = some m :=
  findQualFromAux_some line _ p m h

theorem scanQualAux_mem (line : Str) :
    ∀ (fuel p : Nat) (m : QualMatch), m ∈ scanQualAux line fuel p →
      p ≤ m.pos ∧ parseQualAt line m.pos = some m := by
  intro fuel
  induction fuel with
  | zero => intro p m hm; simp [scanQualAux] at hm
  | succ fuel' ih =>
    intro p m hm
    rw [scanQualAux] at hm
    cases hf : findQualFrom line p with
    | none => rw [hf] at hm; simp at hm
    | some m0 =>
      simp only [hf] at hm
      have h0 := findQualFrom_some line p m0 hf
      rcases List.mem_cons.mp hm with heq | htl
      · subst heq; exact h0
      · have := ih m0.rhsEnd m htl
        refine ⟨?_, this.2⟩
        have : m0.pos ≤ m0.rhsEnd := by
          simp only [QualMatch.rhsEnd, QualMatch.rhsStart]; omega
        omega

/-- Matches found after an earlier match start strictly beyond its end: the
right identifier of the earlier one is maximal, so a new match cannot begin
at its very end. -/
theorem scanQualAux_tail_gt (line : Str) (m0 : QualMatch)
    (h0 : parseQualAt line m0.pos = some m0) :
    ∀ (fuel : Nat) (m : QualMatch), m ∈ scanQualAux line fuel m0.rhsEnd →
      m0.rhsEnd < m.pos := by
  intro fuel m hm
  obtain ⟨hle, hp⟩ := scanQualAux_mem line fuel m0.rhsEnd m hm
  rcases Nat.lt_or_ge m0.rhsEnd m.pos with hlt | hge
  · exact hlt
  · exfalso
    have heq : m.pos = m0.rhsEnd := by omega
    obtain ⟨-, -, -, hplt, -, hstart, -⟩ := parseQualAt_some line m.pos m hp
    obtain ⟨-, -, -, -, -, -, hmax⟩ := parseQualAt_some line m0.pos m0 h0
    -- the character at m.pos = m0.rhsEnd both starts an identifier and
    -- cannot continue one
    have hdropne : line.drop m.pos ≠ [] := by
      intro hnil
      have := congrArg List.length hnil
      rw [List.length_drop] at this
      simp at this
      omega
    obtain ⟨c, t, hct⟩ := List.exists_cons_of_ne_nil hdropne
    have hc1 : isIdentCont c = false := hmax c t (by rw [← heq]; exact hct)
    have hc2 : isIdentStart c = true := by
      rw [getD_of_drop_eq_cons c t line m.pos hct] at hstart
      exact hstart
    rw [identStart_identCont hc2] at hc1
    exact absurd hc1 (by decide)

/-- Any of the three span tests implies the cursor is contained in the
match's overall span. -/
theorem qualHit_contains (m : QualMatch) (col : Nat)
    (h : (m.rhsStart ≤ col ∧ col ≤ m.rhsEnd) ∨ (m.pos ≤ col ∧ col ≤ m.lhsEnd) ∨
      (m.lhsEnd < col ∧ col < m.rhsEnd)) :
    m.pos ≤ col ∧ col ≤ m.rhsEnd := by
  simp only [QualMatch.rhsEnd, QualMatch.rhsStart, QualMatch.lhsEnd] at h ⊢
  omega

theorem qualLoop_none_of_no_hit (line : Str) (col : Nat) :
    ∀ ms : List QualMatch, (∀ m ∈ ms, ¬(m.pos ≤ col ∧ col ≤ m.rhsEnd)) →
      qualLoop line col ms = none := by
  intro ms
  induction ms with
  | nil => intro _; rfl
  | cons m0 rest ih =>
    intro h
    have h0 := h m0 (List.mem_cons_self m0 rest)
    rw [qualLoop]
    rw [if_neg (fun hc => h0 (qualHit_contains m0 col (Or.inl hc))),
      if_neg (fun hc => h0 (qualHit_contains m0 col (Or.inr (Or.inl hc)))),
      if_neg (fun hc => h0 (qualHit_contains m0 col (Or.inr (Or.inr hc))))]
    exact ih (fun m hm => h m (List.mem_cons_of_mem m0 hm))

theorem qualLoop_rhs_of_mem (line : Str) (col : Nat) :
    ∀ (fuel p : Nat) (m : QualMatch), m ∈ scanQualAux line fuel p →
      ((m.rhsStart ≤ col ∧ col ≤ m.rhsEnd) ∨ (m.lhsEnd < col ∧ col < m.rhsEnd)) →
      qualLoop line col (scanQualAux line fuel p) = some (rhsTok line m) := by
  intro fuel
  induction fuel with
  | zero => intro p m hm; simp [scanQualAux] at hm
  | succ fuel' ih =>
    intro p m hm hcol
    rw [scanQualAux] at hm ⊢
    cases hf : findQualFrom line p with
    | none => rw [hf] at hm; simp at hm
    | some m0 =>
      simp only [hf] at hm ⊢
      have h0 := findQualFrom_some line p m0 hf
      rcases List.mem_cons.mp hm with heq | htl
      · subst heq
        rw [qualLoop]
        rcases hcol with hrhs | hbet
        · rw [if_pos hrhs]
        · by_cases hc1 : m.rhsStart ≤ col ∧ col ≤ m.rhsEnd
          · rw [if_pos hc1]
          · rw [if_neg hc1, if_neg (by
              intro hc2
              have := hbet.1
              simp only [QualMatch.lhsEnd] at this
              omega), if_pos hbet]
      · -- the cursor sits beyond the head match entirely
        have hgt := scanQualAux_tail_gt line m0 h0.2 fuel' m htl
        have hcolgt : m0.rhsEnd < col := by
          rcases hcol with hrhs | hbet
          · have := hrhs.1
            simp only [QualMatch.rhsStart, QualMatch.rhsEnd] at this hgt ⊢
            omega
          · have := hbet.1
            simp only [QualMatch.lhsEnd, QualMatch.rhsEnd] at this hgt ⊢
            omega
        rw [qualLoop]
        rw [if_neg (fun hc =>
            absurd (qualHit_contains m0 col (Or.inl hc)).2 (by omega)),
          if_neg (fun hc =>
            absurd (qualHit_contains m0 col (Or.inr (Or.inl hc))).2 (by omega)),
          if_neg (fun hc =>
            absurd (qualHit_contains m0 col (Or.inr (Or.inr hc))).2 (by omega))]
        exact ih m0.rhsEnd m htl hcol

theorem qualLoop_lhs_of_mem (line : Str) (col : Nat) :
    ∀ (fuel p : Nat) (m : QualMatch), m ∈ scanQualAux line fuel p →
      (m.pos ≤ col ∧ col ≤ m.lhsEnd) →
      qualLoop line col (scanQualAux line fuel p) = some (lhsTok line m) := by
  intro fuel
  induction fuel with
  | zero => intro p m hm; simp [scanQualAux] at hm
  | succ fuel' ih =>
    intro p m hm hcol
    rw [scanQualAux] at hm ⊢
    cases hf : findQualFrom line p with
    | none => rw [hf] at hm; simp at hm
    | some m0 =>
      simp only [hf] at hm ⊢
      have h0 := findQualFrom_some line p m0 hf
      rcases List.mem_cons.mp hm with heq | htl
      · subst heq
        rw [qualLoop]
        rw [if_neg (by
          intro hc1
          have h1 := hcol.2
          have h2 := hc1.1
          simp only [QualMatch.lhsEnd] at h1
          simp only [QualMatch.rhsStart] at h2
          omega), if_pos hcol]
      · have hgt := scanQualAux_tail_gt line m0 h0.2 fuel' m htl
        have hcolgt : m0.rhsEnd < col := by
          have := hcol.1
          omega
        rw [qualLoop]
        rw [if_neg (fun hc =>
            absurd (qualHit_contains m0 col (Or.inl hc)).2 (by omega)),
          if_neg (fun hc =>
            absurd (qualHit_contains m0 col (Or.inr (Or.inl hc))).2 (by omega)),
          if_neg (fun hc =>
            absurd (qualHit_contains m0 col (Or.inr (Or.inr hc))).2 (by omega))]
        exact ih m0.rhsEnd m htl hcol

/-- C6: classification of the token under the cursor.  For every line and
cursor column: a cursor within the right identifier's span, or strictly
between the left span's end and the right span's end, resolves to `rhs` with
both identifiers captured; a cursor within the left span resolves to `lhs`;
when no match contains the cursor but the text before the cursor ends with
`identifier ::`, the resolver reports `pendingRhs`; otherwise it falls back
to the bare identifier word under the cursor (or the empty token). -/
theorem c6_qualified_token_resolution (line : Str) (col : Nat) :
    (∀ m ∈ scanQual line,
      ((m.rhsStart ≤ col ∧ col ≤ m.rhsEnd) ∨ (m.lhsEnd < col ∧ col < m.rhsEnd)) →
      getQualTok line col = rhsTok line m) ∧
    (∀ m ∈ scanQual line, (m.pos ≤ col ∧ col ≤ m.lhsEnd) →
      getQualTok line col = lhsTok line m) ∧
    ((∀ m ∈ scanQual line, ¬(m.pos ≤ col ∧ col ≤ m.rhsEnd)) →
      ∀ fl, findPending (line.take col) = some fl →
        getQualTok line col = ⟨fl.1, fl.2, [], true, false, true⟩) ∧
    ((∀ m ∈ scanQual line, ¬(m.pos ≤ col ∧ col ≤ m.rhsEnd)) →
      findPending (line.take col) = none →
      getQualTok line col = ⟨wordAtCol line col, [], [], false, false, false⟩) := by
  refine ⟨?_, ?_, ?_, ?_⟩
  · intro m hm hcol
    unfold getQualTok scanQual
    rw [qualLoop_rhs_of_mem line col _ 0 m hm hcol]
  · intro m hm hcol
    unfold getQualTok scanQual
    rw [qualLoop_lhs_of_mem line col _ 0 m hm hcol]
  · intro hno fl hp
    unfold getQualTok scanQual
    rw [qualLoop_none_of_no_hit line col (scanQualAux line (line.length + 1) 0) hno,
      hp]
  · intro hno hp
    unfold getQualTok scanQual
    rw [qualLoop_none_of_no_hit line col (scanQualAux line (line.length + 1) 0) hno,
      hp]

/-- Witness for C6 on the line `Color::Red` with the cursor on `Red`. -/
theorem c6_witness :
    getQualTok ("Color::Red".data) 8 =
      rhsTok ("Color::Red".data) ⟨0, "Color".data, 0, 0, "Red".data⟩ :=
  (c6_qualified_token_resolution ("Color::Red".data) 8).1
    ⟨0, "Color".data, 0, 0, "Red".data⟩ (by decide) (by decide)

/-! ### Std-library indexes (`typesIndex`, `enumMembersIndex`,
`stdConstantsIndex`, actions/conditions) and the type indexer -/

/-- An entry of `typesIndex`. -/
structure TypeEntry where
  kind : Str
  doc : Str
  signature : Str
  filePath : Str
  line : Nat
  character : Int
  deriving DecidableEq, Repr

/-- An entry of `enumMembersIndex[enum][member]`. -/
structure MemberEntry where
  doc : Str
  signature : Str
  filePath : Str
  line : Nat
  character : Int
  deriving DecidableEq, Repr

/-- An entry of `stdConstantsIndex`. -/
structure StdConstEntry where
  filePath : Str
  line : Nat
  character : Int
  signature : Str
  doc : Str
  deriving DecidableEq, Repr

/-- The read-only std-library state consulted by the query providers. -/
structure StdState where
  actions : SMap HslEntry
  conditions : SMap HslEntry
  types : SMap TypeEntry
  enumMembers : SMap (SMap MemberEntry)
  stdConstants : SMap StdConstEntry
  actionsFilePath : Str
  conditionsFilePath : Str
  deriving DecidableEq, Repr

def emptyStd : StdState := ⟨[], [], [], [], [], [], []⟩

/-- Brace-counting accumulation for enum signatures (no blank-line stop). -/
def accumBraceNB : List Str → Int → List Str
  | [], _ => []
  | l :: rest, bc =>
    if 0 < bc then l :: accumBraceNB rest (bc + braceDelta l) else []

/-- The enum-member scan of `indexTypesInFile`: walk lines after the enum
header until a line whose trimmed text starts with `}`; any line whose
trimmed text begins with an identifier is a member. -/
def scanMembersAux (lines : List Str) (fp : Str) :
    Nat → Nat → SMap MemberEntry → SMap MemberEntry
  | 0, _, acc => acc
  | fuel + 1, j, acc =>
    if j < lines.length then
      let l := lines.getD j []
      let lt := jsTrim l
      if ("\x7d".data).isPrefixOf lt then acc
      else
        let acc' :=
          match lt with
          | [] => acc
          | c :: _ =>
            if isIdentStart c then
              let member := lt.takeWhile isIdentCont
              let da := docScanHsl lines j
              let mdoc := jsTrim (joinNL da.1)
              let fullSig := if da.2.isEmpty then l else joinNL da.2 ++ '\n' :: l
              mset acc member ⟨mdoc, fullSig, fp, j, max 0 (jsIndexOf l member)⟩
            else acc
        scanMembersAux lines fp fuel (j + 1) acc'
    else acc

/-- `indexTypesInFile`: scan a std file for `enum` and `struct` declarations,
updating the types and enum-member indexes. -/
def indexTypesInFile (types : SMap TypeEntry) (members : SMap (SMap MemberEntry))
    (fp : Str) (lines : List Str) : SMap TypeEntry × SMap (SMap MemberEntry) :=
  (List.range lines.length).foldl
    (fun acc i =>
      let (types, members) := acc
      let raw := lines.getD i []
      let t := jsTrim raw
      if ("enum ".data).isPrefixOf t then
        match matchKwIdent ("enum".data) t with
        | none => (types, members)
        | some enumName =>
          let da := docScanHsl lines i
          let doc := jsTrim (joinNL da.1)
          let signature :=
            joinNL (raw :: accumBraceNB (lines.drop (i + 1)) (braceDelta raw))
          let fullSignature :=
            if da.2.isEmpty then signature else joinNL da.2 ++ '\n' :: signature
          let types' := mset types enumName
            ⟨"enum".data, doc, fullSignature, fp, i, max 0 (jsIndexOf raw enumName)⟩
          let existing := (mfind members enumName).getD []
          let members' := mset members enumName
            (scanMembersAux lines fp lines.length (i + 1) existing)
          (types', members')
      else if ("struct ".data).isPrefixOf t then
        match matchKwIdent ("struct".data) t with
        | none => (types, members)
        | some structName =>
          let da := docScanHsl lines i
          let doc := jsTrim (joinNL da.1)
          let signature :=
            joinNL (raw :: accumRestNB (lines.drop (i + 1)) (parenDelta raw))
          let fullSignature :=
            if da.2.isEmpty then signature else joinNL da.2 ++ '\n' :: signature
          (mset types structName
            ⟨"struct".data, doc, fullSignature, fp, i, max 0 (jsIndexOf raw structName)⟩,
           members)
      else (types, members))
    (types, members)

/-! ### Scoped-variable disambiguation and the query providers -/

/-- `chooseStatForPosition`: prefer a same-file declaration whose scope key
matches the block enclosing the query line, then a same-file file-level one,
then any same-file one, then the first overall. -/
def chooseStatForPosition (docUri : Str) (docLines : List Str) (lineNumber : Nat)
    (statDecls : List StatEntry) : Option StatEntry :=
  match statDecls with
  | [] => none
  | [d] => some d
  | _ =>
    let blocks := computeEnclosingBlocks docLines
    let currentContainer :=
      match findContainer blocks lineNumber with
      | some b => containerKey b
      | none => []
    let afterScope :=
      if currentContainer ≠ [] then
        match statDecls.filter
            (fun d => decide (d.container = currentContainer) &&
              decide (d.uri = docUri)) with
        | d :: _ => some d
        | [] => none
      else none
    match afterScope with
    | some d => some d
    | none =>
      match statDecls.filter
          (fun d => decide (d.container = []) && decide (d.uri = docUri)) with
      | d :: _ => some d
      | [] =>
        match statDecls.filter (fun d => decide (d.uri = docUri)) with
        | d :: _ => some d
        | [] => statDecls.head?

/-- Markdown hover parts for a doc/signature pair (`parts` array of the
hover provider; the rendered value is the `\n`-join). -/
def hoverParts (doc signature : Str) : List Str :=
  (if doc.isEmpty then [] else [doc]) ++
    (if signature.isEmpty then [] else ["```hsl".data, signature, "```".data])

/-- The hover provider of the most complete variant: actions/conditions,
enum member (rhs), type (lhs), type (bare), std constant, workspace
constant, std constant again (dead repeat kept from the source), workspace
function, workspace macro, workspace stat with scope disambiguation. -/
def provideHover (std : StdState) (ws : WsState) (docUri : Str)
    (docLines : List Str) (pos : Nat × Nat) : Option (List Str) :=
  let line := docLines.getD pos.1 []
  let token := wordAtCol line pos.2
  let q := getQualTok line pos.2
  match mfind std.actions token with
  | some info => some (hoverParts info.doc info.signature)
  | none =>
  match mfind std.conditions token with
  | some info => some (hoverParts info.doc info.signature)
  | none =>
  if q.lhs ≠ [] ∧ q.rhs ≠ [] ∧ q.inRhs ∧
      ((mfind std.enumMembers q.lhs).bind (fun ms => mfind ms q.rhs)).isSome then
    match (mfind std.enumMembers q.lhs).bind (fun ms => mfind ms q.rhs) with
    | some em =>
      some ((if em.doc.isEmpty then [] else [em.doc]) ++
        ["```hsl".data, q.lhs ++ ':' :: ':' :: q.rhs, "```".data])
    | none => none
  else if q.lhs ≠ [] ∧ q.rhs ≠ [] ∧ q.inLhs ∧ (mfind std.types q.lhs).isSome then
    match mfind std.types q.lhs with
    | some t => some (hoverParts t.doc t.signature)
    | none => none
  else
  match mfind std.types token with
  | some t => some (hoverParts t.doc t.signature)
  | none =>
  match mfind std.stdConstants token with
  | some c => some (hoverParts c.doc c.signature)
  | none =>
  match mfind ws.constants token with
  | some info => some (hoverParts info.doc info.signature)
  | none =>
  match mfind std.stdConstants token with
  | some c => some (hoverParts c.doc c.signature)
  | none =>
  match mfind ws.functions token with
  | some info => some (hoverParts info.doc info.signature)
  | none =>
  match mfind ws.macros token with
  | some info => some (hoverParts info.doc info.signature)
  | none =>
  match mfind ws.stats token with
  | some _ =>
    match chooseStatForPosition docUri docLines pos.1
        ((mfind ws.stats token).getD []) with
    | some chosen => some (hoverParts chosen.doc chosen.signature)
    | none => none
  | none => none

/-- The definition provider: same precedence, returning `(file, line,
character)`. -/
def provideDefinition (std : StdState) (ws : WsState) (docUri : Str)
    (docLines : List Str) (pos : Nat × Nat) : Option (Str × Nat × Int) :=
  let line := docLines.getD pos.1 []
  let token := wordAtCol line pos.2
  let q := getQualTok line pos.2
  match mfind std.actions token with
  | some info => some (std.actionsFilePath, info.line, info.character)
  | none =>
  match mfind std.conditions token with
  | some info => some (std.conditionsFilePath, info.line, info.character)
  | none =>
  if q.lhs ≠ [] ∧ q.rhs ≠ [] ∧ q.inRhs ∧
      ((mfind std.enumMembers q.lhs).bind (fun ms => mfind ms q.rhs)).isSome then
    match (mfind std.enumMembers q.lhs).bind (fun ms => mfind ms q.rhs) with
    | some em => some (em.filePath, em.line, em.character)
    | none => none
  else
  if (q.inLhs ∧ q.lhs ≠ [] ∧ (mfind std.types q.lhs).isSome) ∨
      (mfind std.types token).isSome then
    match (if q.inLhs ∧ q.lhs ≠ [] ∧ (mfind std.types q.lhs).isSome then
        mfind std.types q.lhs else mfind std.types token) with
    | some t => some (t.filePath, t.line, t.character)
    | none => none
  else
  match mfind ws.constants token with
  | some loc => some (loc.uri, loc.line, loc.character)
  | none =>
  match mfind std.stdConstants token with
  | some c => some (c.filePath, c.line, c.character)
  | none =>
  match mfind ws.functions token with
  | some loc => some (loc.uri, loc.line, loc.character)
  | none =>
  match mfind ws.macros token with
  | some loc => some (loc.uri, loc.line, loc.character)
  | none =>
  match mfind ws.stats token with
  | some _ =>
    match chooseStatForPosition docUri docLines pos.1
        ((mfind ws.stats token).getD []) with
    | some chosen => some (chosen.uri, chosen.line, chosen.character)
    | none => none
  | none => none

/-- A completion item: label, completion kind, detail text (presentation
fields such as snippet insert texts, ranges and documentation are not
modeled). -/
structure CItem where
  label : Str
  kind : String
  detail : Option Str
  deriving DecidableEq, Repr

/-- `[A-Za-z_]` for the partial-word captures of the context regexes. -/
def isAlphaU (c : Char) : Bool := isIdentStart c

/-- Trailing run of `p`-characters of `s`. -/
def trailRun (p : Char → Bool) (s : Str) : Str :=
  (s.reverse.takeWhile p).reverse

/-- `/(^|\s)event\s+([A-Za-z_]*)$/.test(before)`. -/
def eventPreMatch (before : Str) : Bool :=
  let p1 := dropRightWhile isAlphaU before
  let p2 := dropRightWhile jsIsSpace p1
  decide (p2.length < p1.length) &&
    ("tneve".data).isPrefixOf p2.reverse &&
    (decide (p2.length = 5) ||
      (match p2.reverse.drop 5 with
       | [] => true
       | c :: _ => jsIsSpace c))

/-- `/\[\]\s*([A-Za-z_]*)$/.test(before)`. -/
def sliceMatch (before : Str) : Bool :=
  let p1 := dropRightWhile isAlphaU before
  let p2 := dropRightWhile jsIsSpace p1
  ("][".data).isPrefixOf p2.reverse

/-- `/(^|\s)stat\s+(player|team|global)\s+[A-Za-z_][A-Za-z0-9_]*\s*:\s*([A-Za-z_]*)$/.test(before)`. -/
def statTypeMatch (before : Str) : Bool :=
  let p1 := dropRightWhile isAlphaU before
  let p2 := dropRightWhile jsIsSpace p1
  match p2.reverse with
  | ':' :: r1 =>
    let r2 := r1.dropWhile jsIsSpace
    let nameRun := r2.takeWhile isIdentCont
    if nameRun.isEmpty then false
    else if !(isIdentStart (nameRun.getLastD ' ')) then false
    else
      let r3 := r2.drop nameRun.length
      let r4 := r3.dropWhile jsIsSpace
      if r3.length = r4.length then false
      else
        let tryNs : Str → Bool := fun nsRev =>
          nsRev.isPrefixOf r4 &&
            (match r4.drop nsRev.length with
             | [] => false
             | c :: rest =>
               jsIsSpace c &&
                 (let r5 := (c :: rest).dropWhile jsIsSpace
                  ("tats".data).isPrefixOf r5 &&
                    (match r5.drop 4 with
                     | [] => true
                     | c2 :: _ => jsIsSpace c2)))
        tryNs ("reyalp".data) || tryNs ("maet".data) || tryNs ("labolg".data)
  | _ => false

/-- `getCallContext`: the name of the nearest enclosing unclosed call,
`/([A-Za-z_][A-Za-z0-9_]*)\s*\([^()]*$/` on the text before the cursor. -/
def getCallContext (before : Str) : Option Str :=
  let tailLen := (before.reverse.takeWhile (fun c => !(c = '(' || c = ')'))).length
  match (before.take (before.length - tailLen)).reverse with
  | '(' :: r2 =>
    let r4 := r2.dropWhile jsIsSpace
    let run := r4.takeWhile isIdentCont
    if run.isEmpty then none
    else if isIdentStart (run.getLastD ' ') then some run.reverse
    else none
  | _ => none

def eventTypes : List Str :=
  ["join".data, "quit".data, "death".data, "kill".data, "respawn".data,
   "groupChange".data, "pvpStateChange".data, "fishCaught".data,
   "enterPortal".data, "damage".data, "blockBreak".data, "startParkour".data,
   "completeParkour".data, "dropItem".data, "pickUpItem".data,
   "changeHeldItem".data, "toggleSneak".data, "toggleFlight".data]

/-- The seven language snippet items pushed unconditionally at the top of
the completion provider. -/
def snippetItems : List CItem :=
  [⟨"fn".data, "Snippet", some ("function declaration".data)⟩,
   ⟨"macro".data, "Snippet", some ("macro declaration".data)⟩,
   ⟨"event".data, "Snippet", some ("event block".data)⟩,
   ⟨"if".data, "Snippet", some ("if statement".data)⟩,
   ⟨"else".data, "Snippet", some ("else block".data)⟩,
   ⟨"return".data, "Snippet", some ("return statement".data)⟩,
   ⟨"stat".data, "Snippet", some ("declare local variable (stat)".data)⟩]

def builtinTypeItems : List CItem :=
  (["void".data, "int".data, "float".data, "string".data, "bool".data,
    "any".data].map (fun t => (⟨t, "Keyword", some ("builtin type".data)⟩ : CItem)))

/-- The completion provider of the most complete variant. -/
def provideCompletionItems (std : StdState) (ws : WsState) (docUri : Str)
    (docLines : List Str) (pos : Nat × Nat) : List CItem :=
  let line := docLines.getD pos.1 []
  let before := line.take pos.2
  let items0 := snippetItems
  if eventPreMatch before then
    items0 ++ eventTypes.map (fun et => ⟨et, "EnumMember", some ("event type".data)⟩)
  else
  let q := getQualTok line pos.2
  if sliceMatch before then
    items0 ++ builtinTypeItems ++
      std.types.map (fun nt => ⟨nt.1, if nt.2.kind = "enum".data then "Enum" else "Struct",
        some nt.2.kind⟩)
  else if statTypeMatch before then
    items0 ++ builtinTypeItems ++
      std.types.map (fun nt => ⟨nt.1, if nt.2.kind = "enum".data then "Enum" else "Struct",
        some nt.2.kind⟩)
  else
  if (q.pendingRhs || q.lhs ≠ []) ∧ q.lhs ≠ [] ∧ (mfind std.enumMembers q.lhs).isSome then
    items0 ++ ((mfind std.enumMembers q.lhs).getD []).map
      (fun me => ⟨me.1, "EnumMember", some (q.lhs ++ " member".data)⟩)
  else
  let callItems :=
    match getCallContext before with
    | none => []
    | some fnName =>
      match (match mfind std.actions fnName with
             | some i => some i
             | none => mfind std.conditions fnName) with
      | none => []
      | some info =>
        info.params.map (fun p => ⟨p.name ++ ['='], "Field", some ("named argument".data)⟩)
  items0 ++ callItems ++
    std.actions.map (fun ni => ⟨ni.1, "Function", some ("action".data)⟩) ++
    std.conditions.map (fun ni => ⟨ni.1, "Function", some ("condition".data)⟩) ++
    ws.constants.map (fun nl => ⟨nl.1, "Constant", some ("constant".data)⟩) ++
    ws.functions.map (fun nl => ⟨nl.1, "Function", some ("function".data)⟩) ++
    ws.macros.map (fun nl => ⟨nl.1, "Snippet", some ("macro".data)⟩) ++
    ws.stats.map (fun nl =>
      (⟨nl.1, "Variable",
        match nl.2.head? with
        | some first => some (("stat (".data) ++ first.nspace ++ [')'])
        | none => none⟩ : CItem)) ++
    std.types.map (fun nt => ⟨nt.1, if nt.2.kind = "enum".data then "Enum" else "Struct",
      some nt.2.kind⟩) ++
    (std.enumMembers.foldl (fun acc em =>
      acc ++ em.2.map (fun me => (⟨em.1 ++ ':' :: ':' :: me.1, "EnumMember",
        some ("enum member".data)⟩ : CItem))) []) ++
    builtinTypeItems ++ [⟨"[]".data, "Snippet", some ("builtin type".data)⟩] ++
    [⟨"nil".data, "Keyword", some ("builtin value".data)⟩]

/-! ### Claim C5 -/

/-- The std enum file `enum Color { Red, Green }` (multi-line, as the
member scanner of `indexTypesInFile` requires members on their own lines). -/
def enumFileC5 : List Str :=
  ["enum Color \x7b".data, "    Red,".data, "    Green".data, "\x7d".data]

def stdStateC5 : StdState :=
  let tm := indexTypesInFile [] [] ("/std/colors.hsl".data) enumFileC5
  { emptyStd with types := tm.1, enumMembers := tm.2 }

/-- C5 counterexample: completion with the cursor immediately after
`Color::` does not return exactly `{Red, Green}` — the provider has already
pushed the seven language snippet items (`fn`, `macro`, …) into the result
before the enum-member early return, so `fn` is among the returned labels. -/
theorem c5_counterexample :
    ("fn".data) ∈ (provideCompletionItems stdStateC5 emptyWs ("/ws/x.hsl".data)
        ["Color::".data] (0, 7)).map CItem.label ∧
    (provideCompletionItems stdStateC5 emptyWs ("/ws/x.hsl".data)
        ["Color::".data] (0, 7)).map CItem.label ≠ ["Red".data, "Green".data] := by
  exact ⟨by decide, by decide⟩

/-- C5 amended: completion immediately after `Color::` returns exactly the
seven language snippet items followed by exactly that enum's members `Red`
and `Green` (in declaration order), and no completion items from any other
source — the enum-member branch returns early without offering symbols. -/
theorem c5_amended_enum_completion :
    provideCompletionItems stdStateC5 emptyWs ("/ws/x.hsl".data)
        ["Color::".data] (0, 7) =
      snippetItems ++
        [⟨"Red".data, "EnumMember", some ("Color member".data)⟩,
         ⟨"Green".data, "EnumMember", some ("Color member".data)⟩] := by
  decide

/-! ### Claim C3: hover on a documented workspace function -/

/-- The function declaration line of claim C3. -/
def fnLineC3 : Str := "fn Foo(a: int, b: string = \x22x\x22) \x7b \x7d".data

/-- The documentation the indexer derives from a `//` comment block: each
line trimmed, the comment marker stripped, the lines joined and trimmed. -/
def commentDoc (cl : List Str) : Str :=
  jsTrim (joinNL (cl.map (fun l => stripSlashes (jsTrim l))))

/-- A line whose trimmed text starts with `//` matches none of the four
declaration recognizers (their keywords start with other characters). -/
theorem slashPrefix_matchers_none (t : Str)
    (h : ("//".data).isPrefixOf t = true) :
    matchConstDecl t = none ∧ matchFnDecl t = none ∧
      matchMacroDecl t = none ∧ matchStatDecl t = none := by
  refine ⟨?_, ?_, ?_, ?_⟩
  · cases hc : matchConstDecl t with
    | none => rfl
    | some nm =>
      exact (isPrefix_head_ne (matchKwIdent_isPrefix _ t nm hc) h (by decide)).elim
  · cases hc : matchFnDecl t with
    | none => rfl
    | some nm =>
      exact (isPrefix_head_ne (matchKwIdentParen_isPrefix _ t nm hc) h (by decide)).elim
  · cases hc : matchMacroDecl t with
    | none => rfl
    | some nm =>
      exact (isPrefix_head_ne (matchKwIdentParen_isPrefix _ t nm hc) h (by decide)).elim
  · cases hc : matchStatDecl t with
    | none => rfl
    | some r =>
      exact (isPrefix_head_ne (matchStat_isPrefix t r hc) h (by decide)).elim

/-- A line matching no declaration recognizer leaves the indexing loop's
accumulator unchanged. -/
theorem indexStep_no_decl (lines : List Str) (blocks : List Block) (p : Str)
    (acc : WsState × FileSyms) (pr : Nat × Str)
    (h1 : matchConstDecl (jsTrim pr.2) = none)
    (h2 : matchFnDecl (jsTrim pr.2) = none)
    (h3 : matchMacroDecl (jsTrim pr.2) = none)
    (h4 : matchStatDecl (jsTrim pr.2) = none) :
    indexStep lines blocks p acc pr = acc := by
  obtain ⟨st, fs⟩ := acc
  simp only [indexStep, h1, h2, h3, h4]

/-- Folding the indexing loop over declaration-free lines is the identity. -/
theorem foldl_indexStep_no_decl (lines : List Str) (blocks : List Block) (p : Str) :
    ∀ (prs : List (Nat × Str)) (acc : WsState × FileSyms),
      (∀ pr ∈ prs, matchConstDecl (jsTrim pr.2) = none ∧
        matchFnDecl (jsTrim pr.2) = none ∧
        matchMacroDecl (jsTrim pr.2) = none ∧
        matchStatDecl (jsTrim pr.2) = none) →
      prs.foldl (indexStep lines blocks p) acc = acc := by
  intro prs
  induction prs with
  | nil => intro acc _; rfl
  | cons pr rest ih =>
    intro acc h
    have hp := h pr (List.mem_cons_self pr rest)
    rw [List.foldl_cons,
      indexStep_no_decl lines blocks p acc pr hp.1 hp.2.1 hp.2.2.1 hp.2.2.2]
    exact ih acc (fun x hx => h x (List.mem_cons_of_mem pr hx))

/-- The upward doc scan directly below a block of `//` comment lines collects
exactly those lines, stripped, in source order, with no annotations. -/
theorem docScanHsl_comments (cl : List Str) :
    ∀ (rest : List Str),
      (∀ l ∈ cl, ("//".data).isPrefixOf (jsTrim l) = true) →
      docScanHsl (cl ++ rest) cl.length =
        (cl.map (fun l => stripSlashes (jsTrim l)), []) := by
  induction cl using List.reverseRecOn with
  | nil => intro rest _; rfl
  | append_singleton cl' l ih =>
    intro rest h
    have hlen : (cl' ++ [l]).length = cl'.length + 1 := by simp
    rw [hlen, List.append_assoc, List.singleton_append]
    have hget : (cl' ++ l :: rest).getD cl'.length [] = l := by
      rw [List.getD_append_right _ _ _ _ (Nat.le_refl _)]
      simp
    have hl : ("//".data).isPrefixOf (jsTrim l) = true := h l (by simp)
    simp only [docScanHsl, hget, hl, if_pos]
    rw [ih (l :: rest) (fun x hx => h x (by simp [hx]))]
    simp

/-- Paren-counting accumulation starting from a balanced line adds nothing. -/
theorem accumRestNB_zero (post : List Str) : accumRestNB post 0 = [] := by
  cases post with
  | nil => rfl
  | cons l rest => simp [accumRestNB]

/-- The second component of an `enumFrom` element is an element of the list. -/
theorem enumFrom_mem_snd {j : Nat} {xs : List Str} (pr : Nat × Str)
    (h : pr ∈ List.enumFrom j xs) : pr.2 ∈ xs := by
  obtain ⟨i, x⟩ := pr
  have h2 := List.mem_enumFrom h
  rw [h2.2.2]
  exact List.getElem_mem _

/-- The indexing fold over `//` comment lines, then the C3 declaration line,
then declaration-free lines produces exactly one workspace function entry:
`Foo`, at the declaration's line, character 3, with the whole declaration
line as signature and the stripped comment block as documentation. -/
theorem c3_fold (p : Str) (blocks : List Block) (cl post : List Str)
    (hcl : ∀ l ∈ cl, ("//".data).isPrefixOf (jsTrim l) = true)
    (hpost : ∀ l ∈ post, matchConstDecl (jsTrim l) = none ∧
      matchFnDecl (jsTrim l) = none ∧ matchMacroDecl (jsTrim l) = none ∧
      matchStatDecl (jsTrim l) = none) :
    ((cl ++ fnLineC3 :: post).enum.foldl
        (indexStep (cl ++ fnLineC3 :: post) blocks p) (emptyWs, ⟨[], [], [], []⟩)).1
      = { constants := [], functions := [(("Foo".data : Str),
            ⟨p, cl.length, 3, fnLineC3, commentDoc cl, parseParams fnLineC3⟩)],
          macros := [], stats := [], fileSyms := [] } := by
  have henum : (cl ++ fnLineC3 :: post).enum
      = cl.enum ++ ((cl.length, fnLineC3) :: List.enumFrom (cl.length + 1) post) := by
    rw [List.enum_append]
    rfl
  rw [henum, List.foldl_append]
  have hclnone : ∀ pr ∈ cl.enum, matchConstDecl (jsTrim pr.2) = none ∧
      matchFnDecl (jsTrim pr.2) = none ∧ matchMacroDecl (jsTrim pr.2) = none ∧
      matchStatDecl (jsTrim pr.2) = none := by
    intro pr hpr
    exact slashPrefix_matchers_none _ (hcl pr.2 (List.snd_mem_of_mem_enum hpr))
  rw [foldl_indexStep_no_decl _ _ _ cl.enum _ hclnone, List.foldl_cons]
  have hpostnone : ∀ pr ∈ List.enumFrom (cl.length + 1) post,
      matchConstDecl (jsTrim pr.2) = none ∧ matchFnDecl (jsTrim pr.2) = none ∧
      matchMacroDecl (jsTrim pr.2) = none ∧ matchStatDecl (jsTrim pr.2) = none := by
    intro pr hpr
    exact hpost pr.2 (enumFrom_mem_snd pr hpr)
  rw [foldl_indexStep_no_decl _ _ _ _ _ hpostnone]
  have hda := docScanHsl_comments cl (fnLineC3 :: post) hcl
  have hdrop : (cl ++ fnLineC3 :: post).drop (cl.length + 1) = post := by
    rw [show cl ++ fnLineC3 :: post = (cl ++ [fnLineC3]) ++ post by simp,
        show cl.length + 1 = (cl ++ [fnLineC3]).length by simp]
    exact List.drop_left _ _
  simp only [indexStep, hda, hdrop,
    (by decide : matchConstDecl (jsTrim fnLineC3) = none),
    (by decide : matchFnDecl (jsTrim fnLineC3) = some ("Foo".data)),
    accumSigNB, (by decide : parenDelta fnLineC3 = (0 : Int)),
    accumRestNB_zero]
  simp [commentDoc, mset, emptyWs,
    (show joinNL [fnLineC3] = fnLineC3 from rfl),
    (by decide : jsIndexOf fnLineC3 ("Foo".data) = (3 : Int)),
    (by decide : jsTrim fnLineC3 = fnLineC3)]

/-- Indexing the C3 file shape from the empty state: the resulting global
maps hold exactly the one function entry for `Foo`. -/
theorem c3_ws (p text : Str) (cl post : List Str)
    (hsplit : splitLines text = cl ++ fnLineC3 :: post)
    (hcl : ∀ l ∈ cl, ("//".data).isPrefixOf (jsTrim l) = true)
    (hpost : ∀ l ∈ post, matchConstDecl (jsTrim l) = none ∧
      matchFnDecl (jsTrim l) = none ∧ matchMacroDecl (jsTrim l) = none ∧
      matchStatDecl (jsTrim l) = none) :
    (indexTextDocument emptyWs p text).constants = [] ∧
    (indexTextDocument emptyWs p text).functions = [(("Foo".data : Str),
      ⟨p, cl.length, 3, fnLineC3, commentDoc cl, parseParams fnLineC3⟩)] ∧
    (indexTextDocument emptyWs p text).macros = [] ∧
    (indexTextDocument emptyWs p text).stats = [] := by
  unfold indexTextDocument
  rw [hsplit]
  have hnone : mfind emptyWs.fileSyms p = none := rfl
  simp only [hnone]
  rw [c3_fold p (computeEnclosingBlocks (cl ++ fnLineC3 :: post)) cl post hcl hpost]
  simp

/-- Hover on a workspace state whose only symbol is the function `Foo` of
the C3 declaration line, queried at that line and column 3, hits the
workspace-functions step of the chain (all std catalogs being empty). -/
theorem hover_ws_fn_only (p : Str) (docLines : List Str) (i : Nat)
    (ws : WsState) (e : FnEntry)
    (hc : ws.constants = []) (hfn : ws.functions = [(("Foo".data : Str), e)])
    (hm : ws.macros = []) (hs : ws.stats = [])
    (hline : docLines.getD i [] = fnLineC3) :
    provideHover emptyStd ws p docLines (i, 3)
      = some (hoverParts e.doc e.signature) := by
  simp only [provideHover, hline, emptyStd, hc, hfn, hm, hs,
    (by decide : wordAtCol fnLineC3 3 = "Foo".data)]
  simp [mfind]

/-- C3: for a file whose lines are a `//` comment block followed by the
declaration `fn Foo(a: int, b: string = "x") { }` and then any lines that
declare nothing, indexing from the empty state and hovering at the position
of `Foo` (the declaration line, column 3) with empty std catalogs returns a
non-empty result whose documentation part is the stripped comment block and
whose signature part is the declaration line fenced as `hsl` code — and that
signature contains `a: int` and `b: string = "x"`. -/
theorem c3_hover_ws_function (p text : Str) (cl post : List Str)
    (hsplit : splitLines text = cl ++ fnLineC3 :: post)
    (hcl : ∀ l ∈ cl, ("//".data).isPrefixOf (jsTrim l) = true)
    (hpost : ∀ l ∈ post, matchConstDecl (jsTrim l) = none ∧
      matchFnDecl (jsTrim l) = none ∧ matchMacroDecl (jsTrim l) = none ∧
      matchStatDecl (jsTrim l) = none) :
    provideHover emptyStd (indexTextDocument emptyWs p text) p
        (cl ++ fnLineC3 :: post) (cl.length, 3)
      = some ((if (commentDoc cl).isEmpty then [] else [commentDoc cl]) ++
          ["```hsl".data, fnLineC3, "```".data]) ∧
    containsSub fnLineC3 ("a: int".data) = true ∧
    containsSub fnLineC3 ("b: string = \x22x\x22".data) = true := by
  refine ⟨?_, by decide, by decide⟩
  obtain ⟨h1, h2, h3, h4⟩ := c3_ws p text cl post hsplit hcl hpost
  have hline : (cl ++ fnLineC3 :: post).getD cl.length [] = fnLineC3 := by
    rw [List.getD_append_right _ _ _ _ (Nat.le_refl _)]
    simp
  rw [hover_ws_fn_only p (cl ++ fnLineC3 :: post) cl.length _ _ h1 h2 h3 h4 hline]
  simp [hoverParts, (by decide : fnLineC3.isEmpty = false)]

/-- Witness for C3 at a concrete two-line comment block. -/
theorem c3_hover_witness :
    provideHover emptyStd
        (indexTextDocument emptyWs ("/ws/a.hsl".data)
          (("// Does things\n// and more\n").data ++ fnLineC3))
        ("/ws/a.hsl".data)
        (["// Does things".data, "// and more".data] ++ fnLineC3 :: [])
        ((["// Does things".data, "// and more".data] : List Str).length, 3)
      = some ((if (commentDoc ["// Does things".data, "// and more".data]).isEmpty
            then []
            else [commentDoc ["// Does things".data, "// and more".data]]) ++
          ["```hsl".data, fnLineC3, "```".data]) ∧
    containsSub fnLineC3 ("a: int".data) = true ∧
    containsSub fnLineC3 ("b: string = \x22x\x22".data) = true :=
  c3_hover_ws_function ("/ws/a.hsl".data)
    (("// Does things\n// and more\n").data ++ fnLineC3)
    ["// Does things".data, "// and more".data] []
    (by decide) (by decide) (by decide)

/-! ### Claim C9: the language server's compiler subprocess call

`runCompiler` spawns `java -jar <hsl.jar> diagnostics`; on a spawn error it
resolves `[]`, a 10-second timer kills the process and resolves `[]`, and on
close the collected stdout goes through `parseDiagnosticsJson`, whose
`try`/`catch` turns unparseable input (and any per-entry field-type error)
into `[]` and whose array guard turns non-array payloads into `[]`. -/

/-- A JSON value as `JSON.parse` produces it. -/
inductive Json where
  | jnull : Json
  | jbool : Bool → Json
  | jnum : Int → Json
  | jstr : Str → Json
  | jarr : List Json → Json
  | jobj : List (Str × Json) → Json

/-- JS property access `v.k`: throws on `null`/`undefined`, yields the field
on objects and `undefined` (`none`) elsewhere. -/
def jget (j : Json) (k : Str) : Except Unit (Option Json) :=
  match j with
  | Json.jnull => Except.error ()
  | Json.jobj fields => Except.ok (mfind fields k)
  | _ => Except.ok none

/-- JS truthiness of a possibly-`undefined` value. -/
def jtruthy (o : Option Json) : Bool :=
  match o with
  | none => false
  | some Json.jnull => false
  | some (Json.jbool b) => b
  | some (Json.jnum n) => decide (n ≠ 0)
  | some (Json.jstr s) => !s.isEmpty
  | some (Json.jarr _) => true
  | some (Json.jobj _) => true

def joinComma : List Str → Str
  | [] => []
  | [s] => s
  | s :: rest => s ++ ',' :: joinComma rest

/-- `String(v)` for a JSON value (arrays join their elements with commas;
`Array.prototype.join`'s mapping of a `null` element to the empty string is
not modeled). -/
def jToString1 : Json → Str
  | Json.jnull => "null".data
  | Json.jbool b => if b then "true".data else "false".data
  | Json.jnum n => (toString n).data
  | Json.jstr s => s
  | Json.jarr xs => joinComma (xs.attach.map (fun x => jToString1 x.1))
  | Json.jobj _ => "[object Object]".data
decreasing_by
  simp only [Json.jarr.sizeOf_spec]
  have h := List.sizeOf_lt_of_mem x.2
  omega

/-- `String(v)` / template interpolation of a possibly-`undefined` value. -/
def jToString (o : Option Json) : Str :=
  match o with
  | none => "undefined".data
  | some j => jToString1 j

/-- `v.toLowerCase()`: throws unless the value is a string. -/
def jsToLowerCase (o : Option Json) : Except Unit Str :=
  match o with
  | some (Json.jstr s) => Except.ok (s.map Char.toLower)
  | _ => Except.error ()

/-- `x || d` followed by numeric use: a falsy value yields the default, a
truthy number its value (a truthy non-number would be `NaN` in JS; the model
uses `0`, a case no compiler payload and no claim exercises). -/
def jnumOr (o : Option Json) (d : Int) : Int :=
  if jtruthy o then
    match o with
    | some (Json.jnum n) => n
    | _ => 0
  else d

/-- One published diagnostic (range flattened to start/end line/character). -/
structure Diagnostic where
  severity : Nat
  startLine : Int
  startChar : Int
  endLine : Int
  endChar : Int
  message : Str
  fullMessage : Str
  source : Str
  code : Str
  filePath : Option Str
  deriving Repr

/-- The per-token-list body of the inner `for (const err of errorsList)`
loop: skip an error without tokens, otherwise highlight the first token's
meta span. -/
def processErr (severity : Nat) (message fullMessage : Str) (code : Option Json)
    (entryFile : Option Str) (err : Json) : Except Unit (List Diagnostic) := do
  let toksJ ← jget err ("tokens".data)
  let tokens := match toksJ with
    | some (Json.jarr xs) => xs
    | _ => []
  match tokens with
  | [] => Except.ok []
  | tok :: _ => do
    let metaJ ← jget tok ("meta".data)
    let meta := match metaJ with
      | some v => if jtruthy metaJ then v else Json.jobj []
      | none => Json.jobj []
    let ln ← jget meta ("lineNumber".data)
    let lineZero : Int := max 0 (jnumOr ln 1 - 1)
    let li ← jget meta ("lineIndex".data)
    let startChar : Int := max 0 (jnumOr li 0)
    let ei ← jget meta ("endIndex".data)
    let bi ← jget meta ("beginIndex".data)
    let len : Int := max 1 (jnumOr ei startChar - jnumOr bi startChar)
    Except.ok [⟨severity, lineZero, startChar, lineZero, startChar + len,
      message, fullMessage, "HSL Compiler".data, jToString code, entryFile⟩]

/-- The body of `for (const entry of payload)`: severity from `entry.type`,
the message template (throwing when `entry.type` is not a string), notes,
the guarded errors list, and the inner token loop. -/
def processEntry (entry : Json) : Except Unit (List Diagnostic) := do
  let ty ← jget entry ("type".data)
  let severity := match ty with
    | some (Json.jstr s) => if s = "ERROR".data then 1 else 2
    | _ => 2
  let tyLower ← jsToLowerCase ty
  let code ← jget entry ("code".data)
  let title ← jget entry ("title".data)
  let message := tyLower ++ '[' :: jToString code ++ ']' :: ':' :: ' ' :: jToString title
  let notes ← jget entry ("notes".data)
  let notesList ←
    if jtruthy notes then
      match notes with
      | some (Json.jarr xs) => Except.ok xs
      | _ => Except.error ()
    else Except.ok []
  let fullMessage :=
    joinNL (message :: notesList.map (fun n => ("Note: ".data) ++ jToString (some n)))
  let fileJ ← jget entry ("file".data)
  let entryFile := match fileJ with
    | some (Json.jstr s) => some s
    | _ => none
  let errsJ ← jget entry ("errors".data)
  let errorsList := match errsJ with
    | some (Json.jarr xs) => xs
    | _ => []
  errorsList.foldlM
    (fun acc err => do
      let ds ← processErr severity message fullMessage code entryFile err
      pure (acc ++ ds))
    []

/-- `parseDiagnosticsJson(stdout, filePath)`: the parsed stdout is `none`
when `JSON.parse` threw; the surrounding `try`/`catch` maps any thrown
field-type error to `[]`, and a non-array payload returns `[]`. -/
def parseDiagnosticsJson (stdout : Option Json) (filePath : Str) : List Diagnostic :=
  match stdout with
  | none => []
  | some payload =>
    match payload with
    | Json.jarr entries =>
      match entries.foldlM
          (fun acc e => do
            let ds ← processEntry e
            pure (acc ++ ds))
          ([] : List Diagnostic) with
      | Except.ok ds => ds
      | Except.error _ => []
    | _ => []

/-- The fixed subprocess timeout (`setTimeout(..., 10000)`). -/
def compilerTimeoutMs : Nat := 10000

/-- How the `runCompiler` promise resolves: the spawn errored, the timeout
fired (killing the process), or the process closed with stdout that
`JSON.parse` either parsed (`some`) or threw on (`none`). -/
inductive CompilerOutcome where
  | spawnError : CompilerOutcome
  | timeout : CompilerOutcome
  | closed : Option Json → CompilerOutcome

/-- The diagnostics `runCompiler` resolves with for each outcome. -/
def runCompiler (filePath : Str) (outcome : CompilerOutcome) : List Diagnostic :=
  match outcome with
  | CompilerOutcome.spawnError => []
  | CompilerOutcome.timeout => []
  | CompilerOutcome.closed stdout => parseDiagnosticsJson stdout filePath

/-- C9: every failing outcome of the compiler subprocess call yields the
empty diagnostics list instead of an exception — a spawn error resolves
`[]`, the timeout (fixed at 10000 ms, after which the process is killed)
resolves `[]`, stdout that is not JSON (the parse threw) yields `[]`, and a
JSON payload that is not an array yields `[]`. -/
theorem c9_compiler_failures_empty (fp : Str) :
    runCompiler fp CompilerOutcome.spawnError = [] ∧
    runCompiler fp CompilerOutcome.timeout = [] ∧
    compilerTimeoutMs = 10000 ∧
    runCompiler fp (CompilerOutcome.closed none) = [] ∧
    (∀ j : Json, (∀ xs, j ≠ Json.jarr xs) →
      runCompiler fp (CompilerOutcome.closed (some j)) = []) := by
  refine ⟨rfl, rfl, rfl, rfl, ?_⟩
  intro j hne
  cases j with
  | jarr xs => exact absurd rfl (hne xs)
  | jnull => rfl
  | jbool b => rfl
  | jnum n => rfl
  | jstr s => rfl
  | jobj fields => rfl

/-- Witness for C9 at a concrete path and a concrete non-array payload. -/
theorem c9_witness :
    runCompiler ("/ws/a.hsl".data) CompilerOutcome.spawnError = [] ∧
    runCompiler ("/ws/a.hsl".data)
        (CompilerOutcome.closed (some (Json.jstr ("oops".data)))) = [] :=
  ⟨(c9_compiler_failures_empty ("/ws/a.hsl".data)).1,
   (c9_compiler_failures_empty ("/ws/a.hsl".data)).2.2.2.2
     (Json.jstr ("oops".data)) (fun xs h => Json.noConfusion h)⟩

/-! ### Claim C4: scoped-variable storage and definition disambiguation

The claim quantifies over indexed files declaring the same stat name inside
two function bodies.  `linesC4` is the file family: function `A`'s body and
function `B`'s body each declare `stat player counter`, with arbitrary
declaration-free brace-balanced lines around the declarations inside the
bodies and arbitrary declaration-free lines between and after the
functions. -/

def fnHdrA : Str := "fn A() \x7b".data

def fnHdrB : Str := "fn B() \x7b".data

def statLn : Str := "    stat player counter".data

def closeLn : Str := "\x7d".data

/-- The C4 file family, as a line list. -/
def linesC4 (a1 a2 mid b1 b2 post : List Str) : List Str :=
  fnHdrA :: (a1 ++ (statLn :: (a2 ++ (closeLn :: (mid ++
    (fnHdrB :: (b1 ++ (statLn :: (b2 ++ (closeLn :: post))))))))))

/-- A line that matches none of the four declaration recognizers. -/
abbrev noDeclLn (l : Str) : Prop :=
  matchConstDecl (jsTrim l) = none ∧ matchFnDecl (jsTrim l) = none ∧
    matchMacroDecl (jsTrim l) = none ∧ matchStatDecl (jsTrim l) = none

/-- The scope key of the block enclosing line `i` (empty when none does) —
the expression both the indexer's stat branch and the query-time
disambiguation compute. -/
def containerOf (blocks : List Block) (i : Nat) : Str :=
  match findContainer blocks i with
  | some b => containerKey b
  | none => []

theorem linesC4_mem (a1 a2 mid b1 b2 post : List Str) (l : Str)
    (hl : l ∈ linesC4 a1 a2 mid b1 b2 post) :
    l = fnHdrA ∨ l = fnHdrB ∨ l = statLn ∨ l = closeLn ∨
      l ∈ a1 ∨ l ∈ a2 ∨ l ∈ mid ∨ l ∈ b1 ∨ l ∈ b2 ∨ l ∈ post := by
  simp only [linesC4, List.mem_cons, List.mem_append] at hl
  tauto

/-- Indices whose lines are neither `fn` nor `macro` headers leave the
block-collection fold unchanged. -/
theorem foldl_blockStep_skip (lines : List Str) :
    ∀ (idxs : List Nat) (acc : List Block),
      (∀ i ∈ idxs, matchFnDecl (jsTrim (lines.getD i [])) = none ∧
        matchMacroDecl (jsTrim (lines.getD i [])) = none) →
      idxs.foldl (blockStep lines) acc = acc := by
  intro idxs
  induction idxs with
  | nil => intro acc _; rfl
  | cons i rest ih =>
    intro acc h
    have hi := h i (List.mem_cons_self i rest)
    rw [List.foldl_cons]
    have hstep : blockStep lines acc i = acc := by
      simp only [blockStep, hi.1, hi.2]
    rw [hstep]
    exact ih acc (fun j hj => h j (List.mem_cons_of_mem i hj))

/-- Brace matching skips a brace-balanced segment (while the count is
nonzero). -/
theorem findBodyEnd_go_skip (seg : List Str)
    (h : ∀ l ∈ seg, braceDelta l = 0) :
    ∀ (rest : List Str) (acc : Int) (k : Nat), acc ≠ 0 →
      findBodyEnd.go (seg ++ rest) acc k = findBodyEnd.go rest acc (k + seg.length) := by
  induction seg with
  | nil => intro rest acc k _; simp [List.nil_append]
  | cons l seg' ih =>
    intro rest acc k hacc
    have hl : braceDelta l = 0 := h l (List.mem_cons_self l seg')
    show findBodyEnd.go (l :: (seg' ++ rest)) acc k = _
    rw [findBodyEnd.go, hl]
    simp only [add_zero]
    rw [if_neg hacc]
    rw [ih (fun x hx => h x (List.mem_cons_of_mem l hx)) rest acc (k + 1) hacc]
    congr 1
    simp [List.length_cons]
    omega

/-- `findBraceLine` at a line that itself contains a `\x7b`. -/
theorem findBraceLine_at_hdr (lines : List Str) (s : Nat) (l : Str) (rest : List Str)
    (hdrop : lines.drop s = l :: rest)
    (hl : decide (0 ≤ jsIndexOfChar l '{') = true) :
    findBraceLine lines s = some s := by
  unfold findBraceLine
  rw [hdrop, List.findIdx?_cons, hl]
  simp

/-- `getD` inside the middle segment of a three-part concatenation is an
element of that segment. -/
theorem getD_seg (pre seg suf : List Str) (i : Nat)
    (h1 : pre.length ≤ i) (h2 : i < pre.length + seg.length) :
    (pre ++ (seg ++ suf)).getD i [] ∈ seg := by
  rw [List.getD_append_right _ _ _ _ h1]
  have hlt : i - pre.length < seg.length := by omega
  rw [List.getD_append _ _ _ _ hlt, List.getD_eq_getElem seg [] hlt]
  exact List.getElem_mem hlt

/-- Splitting `range (x + 1 + y + 1)` around the two singleton indices `0`
and `x + 1`. -/
theorem range_split2 (x y : Nat) :
    List.range (x + 1 + y + 1)
      = 0 :: (List.range' 1 x ++ ((x + 1) :: List.range' (x + 2) y)) := by
  have h1 := (List.range'_append 0 (x + 1) (y + 1) 1).symm
  simp only [Nat.zero_add, Nat.one_mul] at h1
  have h2 := (List.range'_append 0 1 x 1).symm
  simp only [Nat.zero_add, Nat.one_mul] at h2
  rw [List.range_eq_range',
    show x + 1 + y + 1 = y + 1 + (x + 1) by omega, h1,
    show x + 1 = x + 1 + 0 by omega] at *
  rw [show x + 1 + 0 = x + 1 by omega, h2, List.range'_one, List.range'_succ]
  simp

/-- The indexing step at a `stat player counter` line: append the entry to
the name's list, tagged with the enclosing block's scope key. -/
theorem indexStep_statLn (lines : List Str) (blocks : List Block) (p : Str)
    (st : WsState) (fs : FileSyms) (i : Nat) :
    (indexStep lines blocks p (st, fs) (i, statLn)).1.stats
      = mset st.stats ("counter".data)
          ((mfind st.stats ("counter".data)).getD [] ++
            [⟨p, i, 16, "player".data,
              jsTrim (if (docScanHsl lines i).2.isEmpty then statLn
                else joinNL (docScanHsl lines i).2 ++ '\n' :: statLn),
              jsTrim (joinNL (docScanHsl lines i).1),
              containerOf blocks i⟩]) := by
  simp only [indexStep,
    (by decide : matchConstDecl (jsTrim statLn) = none),
    (by decide : matchFnDecl (jsTrim statLn) = none),
    (by decide : matchMacroDecl (jsTrim statLn) = none),
    (by decide : matchStatDecl (jsTrim statLn) = some ("player".data, "counter".data)),
    (by decide : jsIndexOf statLn ("counter".data) = (16 : Int))]
  rfl

/-- The enclosing blocks of the C4 file family: exactly function `A`'s block
(body lines `0` through the first `\x7d`) and function `B`'s block. -/
theorem c4_blocks (a1 a2 mid b1 b2 post : List Str)
    (hA1 : ∀ l ∈ a1, noDeclLn l ∧ braceDelta l = 0)
    (hA2 : ∀ l ∈ a2, noDeclLn l ∧ braceDelta l = 0)
    (hMid : ∀ l ∈ mid, noDeclLn l)
    (hB1 : ∀ l ∈ b1, noDeclLn l ∧ braceDelta l = 0)
    (hB2 : ∀ l ∈ b2, noDeclLn l ∧ braceDelta l = 0)
    (hPost : ∀ l ∈ post, noDeclLn l) :
    computeEnclosingBlocks (linesC4 a1 a2 mid b1 b2 post)
      = [⟨"fn".data, "A".data, 0, 0, 2 + a1.length + a2.length⟩,
         ⟨"fn".data, "B".data, 3 + a1.length + a2.length + mid.length,
           3 + a1.length + a2.length + mid.length,
           5 + a1.length + a2.length + mid.length + b1.length + b2.length⟩] := by
  have hLA : (a1 ++ (statLn :: (a2 ++ (closeLn :: mid)))).length
      = a1.length + a2.length + mid.length + 2 := by
    simp only [List.length_append, List.length_cons]
    omega
  have hLB : (b1 ++ (statLn :: (b2 ++ (closeLn :: post)))).length
      = b1.length + b2.length + post.length + 2 := by
    simp only [List.length_append, List.length_cons]
    omega
  have hassoc : linesC4 a1 a2 mid b1 b2 post
      = [fnHdrA] ++ ((a1 ++ (statLn :: (a2 ++ (closeLn :: mid)))) ++
          (fnHdrB :: (b1 ++ (statLn :: (b2 ++ (closeLn :: post)))))) := by
    simp [linesC4]
  have hassoc2 : linesC4 a1 a2 mid b1 b2 post
      = (fnHdrA :: (a1 ++ (statLn :: (a2 ++ (closeLn :: mid))))) ++
          (fnHdrB :: (b1 ++ (statLn :: (b2 ++ (closeLn :: post))))) := by
    simp [linesC4]
  have hlen : (linesC4 a1 a2 mid b1 b2 post).length
      = (a1 ++ (statLn :: (a2 ++ (closeLn :: mid)))).length + 1 +
        (b1 ++ (statLn :: (b2 ++ (closeLn :: post)))).length + 1 := by
    simp only [linesC4, List.length_append, List.length_cons]
    omega
  have hg0 : (linesC4 a1 a2 mid b1 b2 post).getD 0 [] = fnHdrA := rfl
  have hgB : (linesC4 a1 a2 mid b1 b2 post).getD
      ((a1 ++ (statLn :: (a2 ++ (closeLn :: mid)))).length + 1) [] = fnHdrB := by
    rw [hassoc2, show (a1 ++ (statLn :: (a2 ++ (closeLn :: mid)))).length + 1
        = (fnHdrA :: (a1 ++ (statLn :: (a2 ++ (closeLn :: mid))))).length from by simp,
      List.getD_append_right _ _ _ _ (Nat.le_refl _)]
    simp
  have hdropB : (linesC4 a1 a2 mid b1 b2 post).drop
      ((a1 ++ (statLn :: (a2 ++ (closeLn :: mid)))).length + 1)
      = fnHdrB :: (b1 ++ (statLn :: (b2 ++ (closeLn :: post)))) := by
    rw [hassoc2, show (a1 ++ (statLn :: (a2 ++ (closeLn :: mid)))).length + 1
        = (fnHdrA :: (a1 ++ (statLn :: (a2 ++ (closeLn :: mid))))).length from by simp]
    exact List.drop_left _ _
  have hbl0 : findBraceLine (linesC4 a1 a2 mid b1 b2 post) 0 = some 0 :=
    findBraceLine_at_hdr _ 0 fnHdrA
      (a1 ++ (statLn :: (a2 ++ (closeLn :: (mid ++
        (fnHdrB :: (b1 ++ (statLn :: (b2 ++ (closeLn :: post))))))))))
      (by rw [List.drop_zero]; rfl) (by decide)
  have hblB : findBraceLine (linesC4 a1 a2 mid b1 b2 post)
      ((a1 ++ (statLn :: (a2 ++ (closeLn :: mid)))).length + 1)
      = some ((a1 ++ (statLn :: (a2 ++ (closeLn :: mid)))).length + 1) :=
    findBraceLine_at_hdr _ _ fnHdrB (b1 ++ (statLn :: (b2 ++ (closeLn :: post))))
      hdropB (by decide)
  have hbe0 : findBodyEnd (linesC4 a1 a2 mid b1 b2 post) 0
      = some (1 + a1.length + 1 + a2.length) := by
    unfold findBodyEnd
    rw [List.drop_zero]
    show findBodyEnd.go (fnHdrA :: (a1 ++ (statLn :: (a2 ++ (closeLn :: (mid ++
      (fnHdrB :: (b1 ++ (statLn :: (b2 ++ (closeLn :: post))))))))))) 0 0 = _
    rw [findBodyEnd.go]
    simp only [(by decide : braceDelta fnHdrA = (1 : Int)), zero_add]
    rw [if_neg (by norm_num : ¬((1 : Int) = 0))]
    rw [findBodyEnd_go_skip a1 (fun l hl => (hA1 l hl).2)
      (statLn :: (a2 ++ (closeLn :: (mid ++ (fnHdrB :: (b1 ++ (statLn ::
        (b2 ++ (closeLn :: post)))))))))
      1 (0 + 1) (by norm_num)]
    rw [findBodyEnd.go]
    simp only [(by decide : braceDelta statLn = (0 : Int)), add_zero]
    rw [if_neg (by norm_num : ¬((1 : Int) = 0))]
    rw [findBodyEnd_go_skip a2 (fun l hl => (hA2 l hl).2)
      (closeLn :: (mid ++ (fnHdrB :: (b1 ++ (statLn :: (b2 ++ (closeLn :: post)))))))
      1 (0 + 1 + a1.length + 1) (by norm_num)]
    rw [findBodyEnd.go]
    simp only [(by decide : braceDelta closeLn = (-1 : Int))]
    norm_num
  have hbeB : findBodyEnd (linesC4 a1 a2 mid b1 b2 post)
      ((a1 ++ (statLn :: (a2 ++ (closeLn :: mid)))).length + 1)
      = some ((a1 ++ (statLn :: (a2 ++ (closeLn :: mid)))).length + 1 + 1 +
          b1.length + 1 + b2.length) := by
    unfold findBodyEnd
    rw [hdropB, findBodyEnd.go]
    simp only [(by decide : braceDelta fnHdrB = (1 : Int)), zero_add]
    rw [if_neg (by norm_num : ¬((1 : Int) = 0))]
    rw [findBodyEnd_go_skip b1 (fun l hl => (hB1 l hl).2)
      (statLn :: (b2 ++ (closeLn :: post))) 1
      ((a1 ++ (statLn :: (a2 ++ (closeLn :: mid)))).length + 1 + 1) (by norm_num)]
    rw [findBodyEnd.go]
    simp only [(by decide : braceDelta statLn = (0 : Int)), add_zero]
    rw [if_neg (by norm_num : ¬((1 : Int) = 0))]
    rw [findBodyEnd_go_skip b2 (fun l hl => (hB2 l hl).2)
      (closeLn :: post) 1
      ((a1 ++ (statLn :: (a2 ++ (closeLn :: mid)))).length + 1 + 1 + b1.length + 1)
      (by norm_num)]
    rw [findBodyEnd.go]
    simp only [(by decide : braceDelta closeLn = (-1 : Int))]
    norm_num
  have hskipA : ∀ i ∈ List.range' 1 (a1 ++ (statLn :: (a2 ++ (closeLn :: mid)))).length,
      matchFnDecl (jsTrim ((linesC4 a1 a2 mid b1 b2 post).getD i [])) = none ∧
      matchMacroDecl (jsTrim ((linesC4 a1 a2 mid b1 b2 post).getD i [])) = none := by
    intro i hi
    rw [List.mem_range'] at hi
    obtain ⟨k, hk, hik⟩ := hi
    have hmem : (linesC4 a1 a2 mid b1 b2 post).getD i []
        ∈ (a1 ++ (statLn :: (a2 ++ (closeLn :: mid)))) := by
      rw [hassoc]
      have hone : ([fnHdrA] : List Str).length = 1 := rfl
      exact getD_seg [fnHdrA] _ _ i (by omega) (by omega)
    rcases (by simpa [List.mem_append, List.mem_cons] using hmem :
        (linesC4 a1 a2 mid b1 b2 post).getD i [] ∈ a1 ∨
        (linesC4 a1 a2 mid b1 b2 post).getD i [] = statLn ∨
        (linesC4 a1 a2 mid b1 b2 post).getD i [] ∈ a2 ∨
        (linesC4 a1 a2 mid b1 b2 post).getD i [] = closeLn ∨
        (linesC4 a1 a2 mid b1 b2 post).getD i [] ∈ mid) with
      hx | hx | hx | hx | hx
    · exact ⟨(hA1 _ hx).1.2.1, (hA1 _ hx).1.2.2.1⟩
    · rw [hx]; exact ⟨by decide, by decide⟩
    · exact ⟨(hA2 _ hx).1.2.1, (hA2 _ hx).1.2.2.1⟩
    · rw [hx]; exact ⟨by decide, by decide⟩
    · exact ⟨(hMid _ hx).2.1, (hMid _ hx).2.2.1⟩
  have hskipB : ∀ i ∈ List.range'
      ((a1 ++ (statLn :: (a2 ++ (closeLn :: mid)))).length + 2)
      (b1 ++ (statLn :: (b2 ++ (closeLn :: post)))).length,
      matchFnDecl (jsTrim ((linesC4 a1 a2 mid b1 b2 post).getD i [])) = none ∧
      matchMacroDecl (jsTrim ((linesC4 a1 a2 mid b1 b2 post).getD i [])) = none := by
    intro i hi
    rw [List.mem_range'] at hi
    obtain ⟨k, hk, hik⟩ := hi
    have hmem : (linesC4 a1 a2 mid b1 b2 post).getD i []
        ∈ (b1 ++ (statLn :: (b2 ++ (closeLn :: post)))) := by
      rw [show linesC4 a1 a2 mid b1 b2 post
          = ((fnHdrA :: (a1 ++ (statLn :: (a2 ++ (closeLn :: mid))))) ++ [fnHdrB]) ++
            ((b1 ++ (statLn :: (b2 ++ (closeLn :: post)))) ++ []) from by simp [linesC4]]
      have hpre : ((fnHdrA :: (a1 ++ (statLn :: (a2 ++ (closeLn :: mid))))) ++
          ([fnHdrB] : List Str)).length
          = (a1 ++ (statLn :: (a2 ++ (closeLn :: mid)))).length + 2 := by
        simp only [List.length_append, List.length_cons, List.length_nil, hLA]
      exact getD_seg _ _ _ i (by omega) (by omega)
    rcases (by simpa [List.mem_append, List.mem_cons] using hmem :
        (linesC4 a1 a2 mid b1 b2 post).getD i [] ∈ b1 ∨
        (linesC4 a1 a2 mid b1 b2 post).getD i [] = statLn ∨
        (linesC4 a1 a2 mid b1 b2 post).getD i [] ∈ b2 ∨
        (linesC4 a1 a2 mid b1 b2 post).getD i [] = closeLn ∨
        (linesC4 a1 a2 mid b1 b2 post).getD i [] ∈ post) with
      hx | hx | hx | hx | hx
    · exact ⟨(hB1 _ hx).1.2.1, (hB1 _ hx).1.2.2.1⟩
    · rw [hx]; exact ⟨by decide, by decide⟩
    · exact ⟨(hB2 _ hx).1.2.1, (hB2 _ hx).1.2.2.1⟩
    · rw [hx]; exact ⟨by decide, by decide⟩
    · exact ⟨(hPost _ hx).2.1, (hPost _ hx).2.2.1⟩
  unfold computeEnclosingBlocks
  rw [hlen, range_split2 ((a1 ++ (statLn :: (a2 ++ (closeLn :: mid)))).length)
    ((b1 ++ (statLn :: (b2 ++ (closeLn :: post)))).length), List.foldl_cons]
  have hstep0 : blockStep (linesC4 a1 a2 mid b1 b2 post) [] 0
      = [⟨"fn".data, "A".data, 0, 0, 1 + a1.length + 1 + a2.length⟩] := by
    simp only [blockStep, hg0,
      (by decide : matchFnDecl (jsTrim fnHdrA) = some ("A".data)),
      hbl0, hbe0, List.nil_append]
  rw [hstep0, List.foldl_append, foldl_blockStep_skip _ _ _ hskipA, List.foldl_cons]
  have hstepB : blockStep (linesC4 a1 a2 mid b1 b2 post)
      [⟨"fn".data, "A".data, 0, 0, 1 + a1.length + 1 + a2.length⟩]
      ((a1 ++ (statLn :: (a2 ++ (closeLn :: mid)))).length + 1)
      = [⟨"fn".data, "A".data, 0, 0, 1 + a1.length + 1 + a2.length⟩,
         ⟨"fn".data, "B".data,
           (a1 ++ (statLn :: (a2 ++ (closeLn :: mid)))).length + 1,
           (a1 ++ (statLn :: (a2 ++ (closeLn :: mid)))).length + 1,
           (a1 ++ (statLn :: (a2 ++ (closeLn :: mid)))).length + 1 + 1 +
             b1.length + 1 + b2.length⟩] := by
    simp only [blockStep, hgB,
      (by decide : matchFnDecl (jsTrim fnHdrB) = some ("B".data)),
      hblB, hbeB]
    rfl
  rw [hstepB, foldl_blockStep_skip _ _ _ hskipB,
    show (a1 ++ (statLn :: (a2 ++ (closeLn :: mid)))).length + 1 + 1 +
        b1.length + 1 + b2.length
      = 5 + a1.length + a2.length + mid.length + b1.length + b2.length from by
        omega,
    show (a1 ++ (statLn :: (a2 ++ (closeLn :: mid)))).length + 1
      = 3 + a1.length + a2.length + mid.length from by
        omega,
    show 1 + a1.length + 1 + a2.length = 2 + a1.length + a2.length from by omega]

/-- Projections of the final file-record update of `indexTextDocument`. -/
theorem ws_update_fileSyms_proj (x : WsState) (v : SMap FileSyms) :
    ({ x with fileSyms := v }).constants = x.constants ∧
    ({ x with fileSyms := v }).functions = x.functions ∧
    ({ x with fileSyms := v }).macros = x.macros ∧
    ({ x with fileSyms := v }).stats = x.stats :=
  ⟨rfl, rfl, rfl, rfl⟩

/-- Every line of the C4 family matches no `const`/`macro` recognizer, and
its `fn` recognizer yields nothing or one of the two header names. -/
theorem linesC4_line_facts (a1 a2 mid b1 b2 post : List Str)
    (hA1 : ∀ l ∈ a1, noDeclLn l) (hA2 : ∀ l ∈ a2, noDeclLn l)
    (hMid : ∀ l ∈ mid, noDeclLn l) (hB1 : ∀ l ∈ b1, noDeclLn l)
    (hB2 : ∀ l ∈ b2, noDeclLn l) (hPost : ∀ l ∈ post, noDeclLn l)
    (l : Str) (hl : l ∈ linesC4 a1 a2 mid b1 b2 post) :
    matchConstDecl (jsTrim l) = none ∧ matchMacroDecl (jsTrim l) = none ∧
      (matchFnDecl (jsTrim l) = none ∨ matchFnDecl (jsTrim l) = some ("A".data) ∨
        matchFnDecl (jsTrim l) = some ("B".data)) := by
  rcases linesC4_mem a1 a2 mid b1 b2 post l hl with h|h|h|h|h|h|h|h|h|h
  · rw [h]; exact ⟨by decide, by decide, Or.inr (Or.inl (by decide))⟩
  · rw [h]; exact ⟨by decide, by decide, Or.inr (Or.inr (by decide))⟩
  · rw [h]; exact ⟨by decide, by decide, Or.inl (by decide)⟩
  · rw [h]; exact ⟨by decide, by decide, Or.inl (by decide)⟩
  · exact ⟨(hA1 _ h).1, (hA1 _ h).2.2.1, Or.inl (hA1 _ h).2.1⟩
  · exact ⟨(hA2 _ h).1, (hA2 _ h).2.2.1, Or.inl (hA2 _ h).2.1⟩
  · exact ⟨(hMid _ h).1, (hMid _ h).2.2.1, Or.inl (hMid _ h).2.1⟩
  · exact ⟨(hB1 _ h).1, (hB1 _ h).2.2.1, Or.inl (hB1 _ h).2.1⟩
  · exact ⟨(hB2 _ h).1, (hB2 _ h).2.2.1, Or.inl (hB2 _ h).2.1⟩
  · exact ⟨(hPost _ h).1, (hPost _ h).2.2.1, Or.inl (hPost _ h).2.1⟩

/-- The indexing fold over two `stat player counter` declaration lines
surrounded by chunks that declare no stat named `counter` produces exactly
the two-element multi-valued entry, in declaration order, each tagged with
its enclosing scope key. -/
theorem stats_two_inserts (lines : List Str) (blocks : List Block) (p : Str)
    (E1 E2 E3 : List (Nat × Str)) (o1 o2 : Nat)
    (h1 : ∀ pr ∈ E1, ∀ r, matchStatDecl (jsTrim pr.2) = some r → r.2 ≠ ("counter".data))
    (h2 : ∀ pr ∈ E2, ∀ r, matchStatDecl (jsTrim pr.2) = some r → r.2 ≠ ("counter".data))
    (h3 : ∀ pr ∈ E3, ∀ r, matchStatDecl (jsTrim pr.2) = some r → r.2 ≠ ("counter".data)) :
    mfind ((E1 ++ ((o1, statLn) :: (E2 ++ ((o2, statLn) :: E3)))).foldl
        (indexStep lines blocks p) (emptyWs, ⟨[], [], [], []⟩)).1.stats ("counter".data)
      = some [⟨p, o1, 16, "player".data,
            jsTrim (if (docScanHsl lines o1).2.isEmpty then statLn
              else joinNL (docScanHsl lines o1).2 ++ '\n' :: statLn),
            jsTrim (joinNL (docScanHsl lines o1).1), containerOf blocks o1⟩,
          ⟨p, o2, 16, "player".data,
            jsTrim (if (docScanHsl lines o2).2.isEmpty then statLn
              else joinNL (docScanHsl lines o2).2 ++ '\n' :: statLn),
            jsTrim (joinNL (docScanHsl lines o2).1), containerOf blocks o2⟩] := by
  rw [List.foldl_append, List.foldl_cons, List.foldl_append, List.foldl_cons]
  have hp1 := foldl_indexStep_stats_preserve lines blocks p ("counter".data) E1
    emptyWs ⟨[], [], [], []⟩ h1
  have hs2 := indexStep_statLn lines blocks p
    (E1.foldl (indexStep lines blocks p) (emptyWs, ⟨[], [], [], []⟩)).1
    (E1.foldl (indexStep lines blocks p) (emptyWs, ⟨[], [], [], []⟩)).2 o1
  rw [Prod.mk.eta] at hs2
  have hp2 := foldl_indexStep_stats_preserve lines blocks p ("counter".data) E2
    (indexStep lines blocks p
      (E1.foldl (indexStep lines blocks p) (emptyWs, ⟨[], [], [], []⟩))
      (o1, statLn)).1
    (indexStep lines blocks p
      (E1.foldl (indexStep lines blocks p) (emptyWs, ⟨[], [], [], []⟩))
      (o1, statLn)).2 h2
  rw [Prod.mk.eta] at hp2
  have hs4 := indexStep_statLn lines blocks p
    (E2.foldl (indexStep lines blocks p)
      (indexStep lines blocks p
        (E1.foldl (indexStep lines blocks p) (emptyWs, ⟨[], [], [], []⟩))
        (o1, statLn))).1
    (E2.foldl (indexStep lines blocks p)
      (indexStep lines blocks p
        (E1.foldl (indexStep lines blocks p) (emptyWs, ⟨[], [], [], []⟩))
        (o1, statLn))).2 o2
  rw [Prod.mk.eta] at hs4
  have hp3 := foldl_indexStep_stats_preserve lines blocks p ("counter".data) E3
    (indexStep lines blocks p
      (E2.foldl (indexStep lines blocks p)
        (indexStep lines blocks p
          (E1.foldl (indexStep lines blocks p) (emptyWs, ⟨[], [], [], []⟩))
          (o1, statLn)))
      (o2, statLn)).1
    (indexStep lines blocks p
      (E2.foldl (indexStep lines blocks p)
        (indexStep lines blocks p
          (E1.foldl (indexStep lines blocks p) (emptyWs, ⟨[], [], [], []⟩))
          (o1, statLn)))
      (o2, statLn)).2 h3
  rw [Prod.mk.eta] at hp3
  rw [hp3, hs4, mfind_mset_self, hp2, hs2, mfind_mset_self, hp1,
    show mfind emptyWs.stats ("counter".data) = none from rfl]
  simp only [Option.getD_none, Option.getD_some, List.nil_append,
    List.singleton_append]

/-- Indexing a C4-family file from the empty state: no constant, function
or macro named `counter` exists, and the stats map holds exactly the two
`counter` declarations — multi-valued, in declaration order, tagged with the
two function blocks' scope keys. -/
theorem c4_ws (p text : Str) (a1 a2 mid b1 b2 post : List Str)
    (hsplit : splitLines text = linesC4 a1 a2 mid b1 b2 post)
    (hA1 : ∀ l ∈ a1, noDeclLn l ∧ braceDelta l = 0)
    (hA2 : ∀ l ∈ a2, noDeclLn l ∧ braceDelta l = 0)
    (hMid : ∀ l ∈ mid, noDeclLn l)
    (hB1 : ∀ l ∈ b1, noDeclLn l ∧ braceDelta l = 0)
    (hB2 : ∀ l ∈ b2, noDeclLn l ∧ braceDelta l = 0)
    (hPost : ∀ l ∈ post, noDeclLn l) :
    mfind (indexTextDocument emptyWs p text).constants ("counter".data) = none ∧
    mfind (indexTextDocument emptyWs p text).functions ("counter".data) = none ∧
    mfind (indexTextDocument emptyWs p text).macros ("counter".data) = none ∧
    (∃ gA dA gB dB,
      mfind (indexTextDocument emptyWs p text).stats ("counter".data)
        = some [⟨p, 1 + a1.length, 16, "player".data, gA, dA,
              containerKey ⟨"fn".data, "A".data, 0, 0, 2 + a1.length + a2.length⟩⟩,
            ⟨p, 4 + a1.length + a2.length + mid.length + b1.length, 16,
              "player".data, gB, dB,
              containerKey ⟨"fn".data, "B".data,
                3 + a1.length + a2.length + mid.length,
                3 + a1.length + a2.length + mid.length,
                5 + a1.length + a2.length + mid.length + b1.length + b2.length⟩⟩]) := by
  have hnone : mfind emptyWs.fileSyms p = none := rfl
  have hlf := linesC4_line_facts a1 a2 mid b1 b2 post
    (fun l h => (hA1 l h).1) (fun l h => (hA2 l h).1) hMid
    (fun l h => (hB1 l h).1) (fun l h => (hB2 l h).1) hPost
  have hblocks := c4_blocks a1 a2 mid b1 b2 post hA1 hA2 hMid hB1 hB2 hPost
  refine ⟨?_, ?_, ?_, ?_⟩
  · unfold indexTextDocument
    rw [hsplit]
    simp only [hnone]
    rw [(ws_update_fileSyms_proj _ _).1]
    exact (foldl_indexStep_constants_preserve _ _ p ("counter".data) _
      emptyWs ⟨[], [], [], []⟩ (fun pr hpr nm hc =>
        absurd hc (by simp [(hlf pr.2 (List.snd_mem_of_mem_enum hpr)).1]))).trans rfl
  · unfold indexTextDocument
    rw [hsplit]
    simp only [hnone]
    rw [(ws_update_fileSyms_proj _ _).2.1]
    refine (foldl_indexStep_functions_preserve _ _ p ("counter".data) _
      emptyWs ⟨[], [], [], []⟩ ?_).trans rfl
    intro pr hpr nm hf
    rcases (hlf pr.2 (List.snd_mem_of_mem_enum hpr)).2.2 with h | h | h
    · exact absurd hf (by simp [h])
    · rw [h] at hf
      injection hf with h2
      rw [← h2]
      decide
    · rw [h] at hf
      injection hf with h2
      rw [← h2]
      decide
  · unfold indexTextDocument
    rw [hsplit]
    simp only [hnone]
    rw [(ws_update_fileSyms_proj _ _).2.2.1]
    exact (foldl_indexStep_macros_preserve _ _ p ("counter".data) _
      emptyWs ⟨[], [], [], []⟩ (fun pr hpr nm hm =>
        absurd hm (by simp [(hlf pr.2 (List.snd_mem_of_mem_enum hpr)).2.1]))).trans rfl
  · have hEfold : (linesC4 a1 a2 mid b1 b2 post).enum
        = ((0, fnHdrA) :: List.enumFrom 1 a1) ++
          ((1 + a1.length, statLn) ::
            ((List.enumFrom (1 + a1.length + 1) a2 ++
              ((1 + a1.length + 1 + a2.length, closeLn) ::
                (List.enumFrom (1 + a1.length + 1 + a2.length + 1) mid ++
                  ((1 + a1.length + 1 + a2.length + 1 + mid.length, fnHdrB) ::
                    List.enumFrom
                      (1 + a1.length + 1 + a2.length + 1 + mid.length + 1) b1)))) ++
              ((1 + a1.length + 1 + a2.length + 1 + mid.length + 1 + b1.length,
                  statLn) ::
                (List.enumFrom (1 + a1.length + 1 + a2.length + 1 + mid.length +
                    1 + b1.length + 1) b2 ++
                  ((1 + a1.length + 1 + a2.length + 1 + mid.length + 1 +
                      b1.length + 1 + b2.length, closeLn) ::
                    List.enumFrom (1 + a1.length + 1 + a2.length + 1 + mid.length +
                      1 + b1.length + 1 + b2.length + 1) post))))) := by
      simp only [linesC4, List.enum_cons, List.enumFrom_append, List.enumFrom_cons,
        List.append_assoc, List.cons_append]
    have hypE1 : ∀ pr ∈ ((0, fnHdrA) :: List.enumFrom 1 a1), ∀ r,
        matchStatDecl (jsTrim pr.2) = some r → r.2 ≠ ("counter".data) := by
      intro pr hpr r hs
      rcases List.mem_cons.mp hpr with h | h
      · rw [h] at hs
        simp [(by decide : matchStatDecl (jsTrim fnHdrA) = none)] at hs
      · simp [(hA1 _ (List.snd_mem_of_mem_enumFrom h)).1.2.2.2] at hs
    have hypE2 : ∀ pr ∈ (List.enumFrom (1 + a1.length + 1) a2 ++
        ((1 + a1.length + 1 + a2.length, closeLn) ::
          (List.enumFrom (1 + a1.length + 1 + a2.length + 1) mid ++
            ((1 + a1.length + 1 + a2.length + 1 + mid.length, fnHdrB) ::
              List.enumFrom (1 + a1.length + 1 + a2.length + 1 + mid.length + 1) b1)))),
        ∀ r, matchStatDecl (jsTrim pr.2) = some r → r.2 ≠ ("counter".data) := by
      intro pr hpr r hs
      rcases List.mem_append.mp hpr with h | h
      · simp [(hA2 _ (List.snd_mem_of_mem_enumFrom h)).1.2.2.2] at hs
      · rcases List.mem_cons.mp h with h2 | h2
        · rw [h2] at hs
          simp [(by decide : matchStatDecl (jsTrim closeLn) = none)] at hs
        · rcases List.mem_append.mp h2 with h3 | h3
          · simp [(hMid _ (List.snd_mem_of_mem_enumFrom h3)).2.2.2] at hs
          · rcases List.mem_cons.mp h3 with h4 | h4
            · rw [h4] at hs
              simp [(by decide : matchStatDecl (jsTrim fnHdrB) = none)] at hs
            · simp [(hB1 _ (List.snd_mem_of_mem_enumFrom h4)).1.2.2.2] at hs
    have hypE3 : ∀ pr ∈ (List.enumFrom (1 + a1.length + 1 + a2.length + 1 +
        mid.length + 1 + b1.length + 1) b2 ++
          ((1 + a1.length + 1 + a2.length + 1 + mid.length + 1 +
              b1.length + 1 + b2.length, closeLn) ::
            List.enumFrom (1 + a1.length + 1 + a2.length + 1 + mid.length +
              1 + b1.length + 1 + b2.length + 1) post)),
        ∀ r, matchStatDecl (jsTrim pr.2) = some r → r.2 ≠ ("counter".data) := by
      intro pr hpr r hs
      rcases List.mem_append.mp hpr with h | h
      · simp [(hB2 _ (List.snd_mem_of_mem_enumFrom h)).1.2.2.2] at hs
      · rcases List.mem_cons.mp h with h2 | h2
        · rw [h2] at hs
          simp [(by decide : matchStatDecl (jsTrim closeLn) = none)] at hs
        · simp [(hPost _ (List.snd_mem_of_mem_enumFrom h2)).2.2.2] at hs
    have hcA : containerOf
        [⟨"fn".data, "A".data, 0, 0, 2 + a1.length + a2.length⟩,
         ⟨"fn".data, "B".data, 3 + a1.length + a2.length + mid.length,
           3 + a1.length + a2.length + mid.length,
           5 + a1.length + a2.length + mid.length + b1.length + b2.length⟩]
        (1 + a1.length)
        = containerKey ⟨"fn".data, "A".data, 0, 0, 2 + a1.length + a2.length⟩ := by
      unfold containerOf findContainer
      rw [List.find?_cons_of_pos _
        (by simp only [Bool.and_eq_true, decide_eq_true_eq]; omega)]
    have hcB : containerOf
        [⟨"fn".data, "A".data, 0, 0, 2 + a1.length + a2.length⟩,
         ⟨"fn".data, "B".data, 3 + a1.length + a2.length + mid.length,
           3 + a1.length + a2.length + mid.length,
           5 + a1.length + a2.length + mid.length + b1.length + b2.length⟩]
        (1 + a1.length + 1 + a2.length + 1 + mid.length + 1 + b1.length)
        = containerKey ⟨"fn".data, "B".data,
            3 + a1.length + a2.length + mid.length,
            3 + a1.length + a2.length + mid.length,
            5 + a1.length + a2.length + mid.length + b1.length + b2.length⟩ := by
      unfold containerOf findContainer
      rw [List.find?_cons_of_neg _
        (by simp only [Bool.and_eq_true, decide_eq_true_eq]; omega)]
      rw [List.find?_cons_of_pos _
        (by simp only [Bool.and_eq_true, decide_eq_true_eq]; omega)]
    have hfinal := stats_two_inserts (linesC4 a1 a2 mid b1 b2 post)
      [⟨"fn".data, "A".data, 0, 0, 2 + a1.length + a2.length⟩,
       ⟨"fn".data, "B".data, 3 + a1.length + a2.length + mid.length,
         3 + a1.length + a2.length + mid.length,
         5 + a1.length + a2.length + mid.length + b1.length + b2.length⟩]
      p _ _ _ (1 + a1.length)
      (1 + a1.length + 1 + a2.length + 1 + mid.length + 1 + b1.length)
      hypE1 hypE2 hypE3
    rw [← hEfold, hcA, hcB] at hfinal
    rw [show (1 + a1.length + 1 + a2.length + 1 + mid.length + 1 + b1.length)
        = 4 + a1.length + a2.length + mid.length + b1.length from by omega] at hfinal
    simp only [indexTextDocument, hsplit, hnone, ws_update_fileSyms_proj, hblocks]
    exact ⟨_, _, _, _, hfinal⟩

/-- `provideDefinition` on a workspace whose only `counter` symbol is in
the stats map, queried at a `stat player counter` line and column 16,
reaches the scoped-variable disambiguation step. -/
theorem c4_def_query (p : Str) (docLines : List Str) (qline : Nat) (ws : WsState)
    (ds : List StatEntry) (ce : StatEntry)
    (hc : mfind ws.constants ("counter".data) = none)
    (hf : mfind ws.functions ("counter".data) = none)
    (hm : mfind ws.macros ("counter".data) = none)
    (hs : mfind ws.stats ("counter".data) = some ds)
    (hline : docLines.getD qline [] = statLn)
    (hchoose : chooseStatForPosition p docLines qline ds = some ce) :
    provideDefinition emptyStd ws p docLines (qline, 16)
      = some (ce.uri, ce.line, ce.character) := by
  simp only [provideDefinition, hline, emptyStd,
    (by decide : wordAtCol statLn 16 = "counter".data), hc, hf, hm, hs,
    Option.getD_some, hchoose]
  simp [mfind]

/-- `chooseStatForPosition` with two candidates picks the first one whose
scope key matches the (nonempty) current container. -/
theorem chooseStat_pick_first (docUri : Str) (docLines : List Str) (q : Nat)
    (s1 s2 : StatEntry) (K : Str)
    (hcur : containerOf (computeEnclosingBlocks docLines) q = K)
    (hK : K ≠ [])
    (h1 : s1.container = K) (h1u : s1.uri = docUri) :
    chooseStatForPosition docUri docLines q [s1, s2] = some s1 := by
  have hb1 : (decide (s1.container = K) && decide (s1.uri = docUri)) = true := by
    rw [h1, h1u]
    simp
  simp only [chooseStatForPosition]
  rw [show (match findContainer (computeEnclosingBlocks docLines) q with
      | some b => containerKey b
      | none => []) = K from hcur]
  rw [if_pos hK]
  simp only [List.filter_cons, hb1, if_true]

/-- `chooseStatForPosition` with two candidates skips a first candidate
whose scope key differs and picks the matching second one. -/
theorem chooseStat_pick_second (docUri : Str) (docLines : List Str) (q : Nat)
    (s1 s2 : StatEntry) (K : Str)
    (hcur : containerOf (computeEnclosingBlocks docLines) q = K)
    (hK : K ≠ [])
    (h1 : s1.container ≠ K) (h2 : s2.container = K) (h2u : s2.uri = docUri) :
    chooseStatForPosition docUri docLines q [s1, s2] = some s2 := by
  have hb1 : (decide (s1.container = K) && decide (s1.uri = docUri)) = false := by
    rw [decide_eq_false h1, Bool.false_and]
  have hb2 : (decide (s2.container = K) && decide (s2.uri = docUri)) = true := by
    rw [h2, h2u]
    simp
  simp only [chooseStatForPosition]
  rw [show (match findContainer (computeEnclosingBlocks docLines) q with
      | some b => containerKey b
      | none => []) = K from hcur]
  rw [if_pos hK]
  simp only [List.filter_cons, hb1, hb2, if_true, Bool.false_eq_true, if_false]

/-- C4: for every file of the C4 family — the same scoped variable
`counter` declared via `stat player counter` inside function `A`'s body and
inside function `B`'s body, with arbitrary declaration-free (and, inside
the bodies, brace-balanced) lines around the declarations, between the
functions and after them — indexing from the empty state stores BOTH
declarations under the one name, each tagged with its function block's
scope key (the keys are distinct), and a definition query on the `counter`
token from inside `A`'s body returns `A`'s declaration location while the
same query from inside `B`'s body returns `B`'s — the two locations
differing in line. -/
theorem c4_stat_scope_disambiguation (p text : Str)
    (a1 a2 mid b1 b2 post : List Str)
    (hsplit : splitLines text = linesC4 a1 a2 mid b1 b2 post)
    (hA1 : ∀ l ∈ a1, noDeclLn l ∧ braceDelta l = 0)
    (hA2 : ∀ l ∈ a2, noDeclLn l ∧ braceDelta l = 0)
    (hMid : ∀ l ∈ mid, noDeclLn l)
    (hB1 : ∀ l ∈ b1, noDeclLn l ∧ braceDelta l = 0)
    (hB2 : ∀ l ∈ b2, noDeclLn l ∧ braceDelta l = 0)
    (hPost : ∀ l ∈ post, noDeclLn l) :
    (∃ gA dA gB dB,
      mfind (indexTextDocument emptyWs p text).stats ("counter".data)
        = some [⟨p, 1 + a1.length, 16, "player".data, gA, dA,
              containerKey ⟨"fn".data, "A".data, 0, 0, 2 + a1.length + a2.length⟩⟩,
            ⟨p, 4 + a1.length + a2.length + mid.length + b1.length, 16,
              "player".data, gB, dB,
              containerKey ⟨"fn".data, "B".data,
                3 + a1.length + a2.length + mid.length,
                3 + a1.length + a2.length + mid.length,
                5 + a1.length + a2.length + mid.length + b1.length + b2.length⟩⟩]) ∧
    containerKey ⟨"fn".data, "A".data, 0, 0, 2 + a1.length + a2.length⟩
      ≠ containerKey ⟨"fn".data, "B".data,
          3 + a1.length + a2.length + mid.length,
          3 + a1.length + a2.length + mid.length,
          5 + a1.length + a2.length + mid.length + b1.length + b2.length⟩ ∧
    provideDefinition emptyStd (indexTextDocument emptyWs p text) p
        (linesC4 a1 a2 mid b1 b2 post) (1 + a1.length, 16)
      = some (p, 1 + a1.length, 16) ∧
    provideDefinition emptyStd (indexTextDocument emptyWs p text) p
        (linesC4 a1 a2 mid b1 b2 post)
        (4 + a1.length + a2.length + mid.length + b1.length, 16)
      = some (p, 4 + a1.length + a2.length + mid.length + b1.length, 16) ∧
    1 + a1.length ≠ 4 + a1.length + a2.length + mid.length + b1.length := by
  obtain ⟨h1, h2, h3, h4⟩ :=
    c4_ws p text a1 a2 mid b1 b2 post hsplit hA1 hA2 hMid hB1 hB2 hPost
  obtain ⟨gA, dA, gB, dB, hstats⟩ := h4
  have hblocks := c4_blocks a1 a2 mid b1 b2 post hA1 hA2 hMid hB1 hB2 hPost
  have hABne : containerKey
        (⟨"fn".data, "A".data, 0, 0, 2 + a1.length + a2.length⟩ : Block)
      ≠ containerKey ⟨"fn".data, "B".data,
          3 + a1.length + a2.length + mid.length,
          3 + a1.length + a2.length + mid.length,
          5 + a1.length + a2.length + mid.length + b1.length + b2.length⟩ := by
    intro h
    have h4c := congrArg (List.take 4) h
    rw [show List.take 4 (containerKey
          (⟨"fn".data, "A".data, 0, 0, 2 + a1.length + a2.length⟩ : Block))
        = ("fn:A".data) from rfl,
      show List.take 4 (containerKey
          (⟨"fn".data, "B".data, 3 + a1.length + a2.length + mid.length,
            3 + a1.length + a2.length + mid.length,
            5 + a1.length + a2.length + mid.length + b1.length + b2.length⟩ : Block))
        = ("fn:B".data) from rfl] at h4c
    exact absurd h4c (by decide)
  have hKA : containerKey
      (⟨"fn".data, "A".data, 0, 0, 2 + a1.length + a2.length⟩ : Block) ≠ [] := by
    intro h
    simp [containerKey, List.append_eq_nil] at h
  have hKB : containerKey
      (⟨"fn".data, "B".data, 3 + a1.length + a2.length + mid.length,
        3 + a1.length + a2.length + mid.length,
        5 + a1.length + a2.length + mid.length + b1.length + b2.length⟩ : Block)
      ≠ [] := by
    intro h
    simp [containerKey, List.append_eq_nil] at h
  have hcurA : containerOf
      (computeEnclosingBlocks (linesC4 a1 a2 mid b1 b2 post)) (1 + a1.length)
      = containerKey ⟨"fn".data, "A".data, 0, 0, 2 + a1.length + a2.length⟩ := by
    rw [hblocks]
    unfold containerOf findContainer
    rw [List.find?_cons_of_pos _
      (by simp only [Bool.and_eq_true, decide_eq_true_eq]; omega)]
  have hcurB : containerOf
      (computeEnclosingBlocks (linesC4 a1 a2 mid b1 b2 post))
      (4 + a1.length + a2.length + mid.length + b1.length)
      = containerKey ⟨"fn".data, "B".data,
          3 + a1.length + a2.length + mid.length,
          3 + a1.length + a2.length + mid.length,
          5 + a1.length + a2.length + mid.length + b1.length + b2.length⟩ := by
    rw [hblocks]
    unfold containerOf findContainer
    rw [List.find?_cons_of_neg _
      (by simp only [Bool.and_eq_true, decide_eq_true_eq]; omega)]
    rw [List.find?_cons_of_pos _
      (by simp only [Bool.and_eq_true, decide_eq_true_eq]; omega)]
  have hlineA : (linesC4 a1 a2 mid b1 b2 post).getD (1 + a1.length) [] = statLn := by
    show (fnHdrA :: (a1 ++ (statLn :: (a2 ++ (closeLn :: (mid ++
      (fnHdrB :: (b1 ++ (statLn :: (b2 ++ (closeLn :: post))))))))))).getD
      (1 + a1.length) [] = statLn
    rw [show 1 + a1.length = a1.length + 1 from by omega, List.getD_cons_succ,
      List.getD_append_right _ _ _ _ (Nat.le_refl _)]
    simp
  have hlineB : (linesC4 a1 a2 mid b1 b2 post).getD
      (4 + a1.length + a2.length + mid.length + b1.length) [] = statLn := by
    rw [show linesC4 a1 a2 mid b1 b2 post
        = (fnHdrA :: (a1 ++ (statLn :: (a2 ++ (closeLn :: (mid ++
            (fnHdrB :: b1))))))) ++ (statLn :: (b2 ++ (closeLn :: post)))
        from by simp [linesC4]]
    have hPRElen : ((fnHdrA :: (a1 ++ (statLn :: (a2 ++ (closeLn :: (mid ++
        (fnHdrB :: b1))))))) : List Str).length
        = 4 + a1.length + a2.length + mid.length + b1.length := by
      simp only [List.length_cons, List.length_append]
      omega
    rw [show 4 + a1.length + a2.length + mid.length + b1.length
        = ((fnHdrA :: (a1 ++ (statLn :: (a2 ++ (closeLn :: (mid ++
            (fnHdrB :: b1))))))) : List Str).length from hPRElen.symm,
      List.getD_append_right _ _ _ _ (Nat.le_refl _)]
    simp
  have hchooseA := chooseStat_pick_first p (linesC4 a1 a2 mid b1 b2 post)
    (1 + a1.length)
    ⟨p, 1 + a1.length, 16, "player".data, gA, dA,
      containerKey ⟨"fn".data, "A".data, 0, 0, 2 + a1.length + a2.length⟩⟩
    ⟨p, 4 + a1.length + a2.length + mid.length + b1.length, 16,
      "player".data, gB, dB,
      containerKey ⟨"fn".data, "B".data,
        3 + a1.length + a2.length + mid.length,
        3 + a1.length + a2.length + mid.length,
        5 + a1.length + a2.length + mid.length + b1.length + b2.length⟩⟩
    (containerKey ⟨"fn".data, "A".data, 0, 0, 2 + a1.length + a2.length⟩)
    hcurA hKA rfl rfl
  have hchooseB := chooseStat_pick_second p (linesC4 a1 a2 mid b1 b2 post)
    (4 + a1.length + a2.length + mid.length + b1.length)
    ⟨p, 1 + a1.length, 16, "player".data, gA, dA,
      containerKey ⟨"fn".data, "A".data, 0, 0, 2 + a1.length + a2.length⟩⟩
    ⟨p, 4 + a1.length + a2.length + mid.length + b1.length, 16,
      "player".data, gB, dB,
      containerKey ⟨"fn".data, "B".data,
        3 + a1.length + a2.length + mid.length,
        3 + a1.length + a2.length + mid.length,
        5 + a1.length + a2.length + mid.length + b1.length + b2.length⟩⟩
    (containerKey ⟨"fn".data, "B".data,
      3 + a1.length + a2.length + mid.length,
      3 + a1.length + a2.length + mid.length,
      5 + a1.length + a2.length + mid.length + b1.length + b2.length⟩)
    hcurB hKB hABne rfl rfl
  refine ⟨⟨gA, dA, gB, dB, hstats⟩, hABne, ?_, ?_, by omega⟩
  · exact c4_def_query p (linesC4 a1 a2 mid b1 b2 post) (1 + a1.length)
      (indexTextDocument emptyWs p text) _ _ h1 h2 h3 hstats hlineA hchooseA
  · exact c4_def_query p (linesC4 a1 a2 mid b1 b2 post)
      (4 + a1.length + a2.length + mid.length + b1.length)
      (indexTextDocument emptyWs p text) _ _ h1 h2 h3 hstats hlineB hchooseB

/-- Witness for C4 at a concrete instance of the family: `A`'s body also
contains a usage line after the declaration and one blank line separates the
functions. -/
theorem c4_witness :
    (∃ gA dA gB dB,
      mfind (indexTextDocument emptyWs ("/ws/f.hsl".data)
          (("fn A() \x7b\n    stat player counter\n    counter\n\x7d\n\nfn B() \x7b\n    stat player counter\n\x7d").data)).stats
        ("counter".data)
        = some [⟨"/ws/f.hsl".data, 1, 16, "player".data, gA, dA,
              containerKey ⟨"fn".data, "A".data, 0, 0, 3⟩⟩,
            ⟨"/ws/f.hsl".data, 6, 16, "player".data, gB, dB,
              containerKey ⟨"fn".data, "B".data, 5, 5, 7⟩⟩]) ∧
    containerKey (⟨"fn".data, "A".data, 0, 0, 3⟩ : Block)
      ≠ containerKey ⟨"fn".data, "B".data, 5, 5, 7⟩ ∧
    provideDefinition emptyStd
        (indexTextDocument emptyWs ("/ws/f.hsl".data)
          (("fn A() \x7b\n    stat player counter\n    counter\n\x7d\n\nfn B() \x7b\n    stat player counter\n\x7d").data))
        ("/ws/f.hsl".data)
        (linesC4 [] ["    counter".data] [[]] [] [] []) (1, 16)
      = some ("/ws/f.hsl".data, 1, 16) ∧
    provideDefinition emptyStd
        (indexTextDocument emptyWs ("/ws/f.hsl".data)
          (("fn A() \x7b\n    stat player counter\n    counter\n\x7d\n\nfn B() \x7b\n    stat player counter\n\x7d").data))
        ("/ws/f.hsl".data)
        (linesC4 [] ["    counter".data] [[]] [] [] []) (6, 16)
      = some ("/ws/f.hsl".data, 6, 16) ∧
    (1 : Nat) ≠ 6 :=
  c4_stat_scope_disambiguation ("/ws/f.hsl".data)
    (("fn A() \x7b\n    stat player counter\n    counter\n\x7d\n\nfn B() \x7b\n    stat player counter\n\x7d").data)
    [] ["    counter".data] [[]] [] [] []
    (by decide) (by decide) (by decide) (by decide) (by decide) (by decide)
    (by decide)

end HslVscode
